import Mathlib

/-!
# WIL safearray wrappers: a shallow embedding of `include/wil/safearrays.h`

Part 1 holds the definitions (data model, platform boundary, the functions of
the header, and in the namespace `legacy` those of the earlier header
`include/wil/Safearrays.h`); part 2 holds the lemmas and theorems about them.

Machine integers are natural numbers or integers with explicit reduction:
`ULONG`/`UINT` values are `Nat` below `2^32`, `ULONGLONG` arithmetic is reduced
modulo `2^64`, `LONG` values are `Int` in `[-2^31, 2^31)`, and an `HRESULT` is
the `Nat` holding its 32-bit pattern (failure = bit 31 set).
-/

set_option autoImplicit false

namespace wil

/-! ## Part 1: definitions -/

/-! ### Status codes -/

/-- The 32-bit pattern of an `HRESULT`. -/
abbrev HRESULT := Nat

/-- Element type tag (`VARTYPE`, a 16-bit value). -/
abbrev VARTYPE := Nat

/-- Largest `ULONG` value, `2^32 - 1`. -/
def ULONG_MAX : Nat := 4294967295

/-- Largest `LONG` value, `2^31 - 1`. -/
def LONG_MAX : Int := 2147483647

/-- Smallest `LONG` value, `-2^31`. -/
def LONG_MIN : Int := -2147483648

def S_OK : HRESULT := 0

def E_INVALIDARG : HRESULT := 0x80070057

def E_UNEXPECTED : HRESULT := 0x8000FFFF

def E_OUTOFMEMORY : HRESULT := 0x8007000E

def DISP_E_BADINDEX : HRESULT := 0x8002000B

def DISP_E_ARRAYISLOCKED : HRESULT := 0x8002000D

def ERROR_ARITHMETIC_OVERFLOW : Nat := 534

def ERROR_ASSERTION_FAILURE : Nat := 668

def FACILITY_WIN32 : Nat := 7

/-- The `FAILED(hr)` test: the sign bit of the 32-bit pattern is set. -/
def FAILED (hr : HRESULT) : Bool := decide (2147483648 ≤ hr)

/-- The platform conversion `HRESULT_FROM_WIN32(x)`: a value that is `<= 0` as a
signed 32-bit number is passed through, any other gets the Win32 facility and the
failure bit. -/
def HRESULT_FROM_WIN32 (x : Nat) : HRESULT :=
  if x = 0 ∨ 2147483648 ≤ x then x
  else (x &&& 0x0000FFFF) ||| (FACILITY_WIN32 <<< 16) ||| 0x80000000

/-! ### The array descriptor -/

/-- One `SAFEARRAYBOUND`: the element count (`ULONG`) and lower bound (`LONG`) of
a dimension. Field order as in the platform struct, so that
`SAFEARRAYBOUND{ cElements, lowerBound }` reads the same. -/
structure SAFEARRAYBOUND where
  cElements : Nat
  lLbound : Int
deriving DecidableEq, Repr

/-- The `SAFEARRAY` descriptor the header reads: `cbElements`, `cLocks`, the
element storage `pvData` (flattened, one `Nat` per element) and `rgsabound`, the
bounds in stored order (the platform stores the dimensions in reverse order).
`vt` is the element type tag the platform keeps with the descriptor (`none` when
the descriptor records no tag). The `cDims`
field is the length of `rgsabound`. -/
structure SAFEARRAY where
  vt : Option VARTYPE
  cbElements : Nat
  cLocks : Nat
  pvData : List Nat
  rgsabound : List SAFEARRAYBOUND
deriving DecidableEq, Repr

/-- The `cDims` field: the number of entries of `rgsabound`. -/
def SAFEARRAY.cDims (psa : SAFEARRAY) : Nat := psa.rgsabound.length

/-- Well-formed descriptor: every `cElements` is a 32-bit unsigned value and
every `lLbound` a 32-bit signed value. -/
def SAFEARRAY.WF (psa : SAFEARRAY) : Prop :=
  ∀ b ∈ psa.rgsabound, b.cElements ≤ ULONG_MAX ∧ LONG_MIN ≤ b.lLbound ∧ b.lLbound ≤ LONG_MAX

instance (psa : SAFEARRAY) : Decidable psa.WF := by
  unfold SAFEARRAY.WF; infer_instance

/-- The unbounded-integer product of all per-dimension element counts. -/
def SAFEARRAY.elemProduct (psa : SAFEARRAY) : Nat :=
  (psa.rgsabound.map (fun b => b.cElements)).prod

/-- The unbounded-integer product of the first `k` per-dimension element counts,
in stored order. -/
def SAFEARRAY.leadProduct (psa : SAFEARRAY) (k : Nat) : Nat :=
  ((psa.rgsabound.take k).map (fun b => b.cElements)).prod

/-! ### Outcomes of running code -/

/-- How a call ends: it returns a value, the process is terminated (fail fast),
a `WI_ASSERT` fails, or an exception carrying a status is thrown. -/
inductive Res (α : Type) where
  | ok : α → Res α
  | failFast : Res α
  | assertFail : Res α
  | thrown : HRESULT → Res α
deriving DecidableEq, Repr

namespace details

/-- One iteration of the loop of `SafeArrayCountElements`:
`result *= cElements` in 64-bit unsigned arithmetic, then the test
`result > ULONG_MAX`, which returns the overflow status. -/
def SafeArrayCountElements.step (result : Nat) (b : SAFEARRAYBOUND) : Except HRESULT Nat :=
  let result := (result * b.cElements) % 2 ^ 64
  if result > ULONG_MAX then
    Except.error (HRESULT_FROM_WIN32 ERROR_ARITHMETIC_OVERFLOW)
  else
    Except.ok result

/-- The loop `for (i = 0; i < cDims; ++i)` of `SafeArrayCountElements` over the
bounds still to visit, with the accumulator `result`. -/
def SafeArrayCountElements.loop : List SAFEARRAYBOUND → Nat → Except HRESULT Nat
  | [], result => Except.ok result
  | b :: rest, result =>
    match SafeArrayCountElements.step result b with
    | Except.error hr => Except.error hr
    | Except.ok result => SafeArrayCountElements.loop rest result

/-- `details::SafeArrayCountElements(psa, pCount)`. `psa` is the descriptor the
handle points to (`none` for `nullptr`), `pCount` the cell the pointer designates
(`none` for `nullptr`, `some v` for a cell currently holding `v`). The result is
the returned status together with the content of `*pCount` afterwards. -/
def SafeArrayCountElements (psa : Option SAFEARRAY) (pCount : Option Nat) : Res (HRESULT × Nat) :=
  match pCount with
  | none => Res.failFast
  | some old =>
    match psa with
    | some a =>
      match SafeArrayCountElements.loop a.rgsabound 1 with
      | Except.error hr => Res.ok (hr, old)
      | Except.ok result => Res.ok (S_OK, result % 2 ^ 32)
    | none => Res.ok (S_OK, 0)

end details

/-! ### The world: platform heap and call log -/

/-- A `SAFEARRAY*`: `0` is `nullptr`. -/
abbrev Handle := Nat

/-- A typed pointer into the element storage of the array `base`, `off` elements
past its start. A null pointer is `none : Option Ptr`. -/
structure Ptr where
  base : Handle
  off : Nat
deriving DecidableEq, Repr

/-- Invocations of the platform primitives that take or release a lock, allocate
or free an array, or touch an element. -/
inductive Call where
  | create (psa : Handle)
  | copy (src : Handle) (psa : Handle)
  | destroy (psa : Handle)
  | lock (psa : Handle)
  | unlock (psa : Handle)
  | access (psa : Handle)
  | unaccess (psa : Handle)
  | putElement (psa : Handle)
  | getElement (psa : Handle)
deriving DecidableEq, Repr

/-- The state outside the wrappers: the platform heap of array descriptors, the
next handle the allocator hands out, whether the environment refuses the next
allocation, the calling thread's last-error value, whether `WI_ASSERT` is compiled
in, and the log of platform calls made so far (oldest first). -/
structure World where
  heap : Handle → Option SAFEARRAY
  next : Handle
  allocFails : Bool
  lastError : Nat
  assertsOn : Bool
  calls : List Call

/-- The descriptor a handle points to; `nullptr` points to none. -/
def World.deref (w : World) (psa : Handle) : Option SAFEARRAY :=
  if psa = 0 then none else w.heap psa

/-- Overwrite the descriptor stored at `psa`. -/
def World.store (w : World) (psa : Handle) (a : Option SAFEARRAY) : World :=
  { w with heap := fun h => if h = psa then a else w.heap h }

/-- Put a new descriptor at the next free handle. -/
def World.alloc (w : World) (a : SAFEARRAY) : World :=
  { w with heap := fun h => if h = w.next then some a else w.heap h, next := w.next + 1 }

/-- Append one platform call to the log. -/
def World.logged (w : World) (c : Call) : World :=
  { w with calls := w.calls ++ [c] }

/-- The lock count of the array at `psa`, if there is one. -/
def World.lockCount (w : World) (psa : Handle) : Option Nat :=
  (w.deref psa).map (fun a => a.cLocks)

/-- Well-formed world: handles from `next` on are not in use, and `next` is not
`nullptr`. -/
def World.WF (w : World) : Prop :=
  0 < w.next ∧ ∀ h, w.next ≤ h → w.heap h = none

/-- A computation over a state `σ`: it ends with an outcome and a final state. The
state is kept on every outcome, so that what a failed call left behind can be
inspected. -/
def Exec (σ α : Type) : Type := σ → Res α × σ

/-- Sequencing: the second computation runs only when the first returned. -/
def Exec.bind {σ α β : Type} (m : Exec σ α) (f : α → Exec σ β) : Exec σ β :=
  fun s =>
    match m s with
    | (Res.ok a, s1) => f a s1
    | (Res.failFast, s1) => (Res.failFast, s1)
    | (Res.assertFail, s1) => (Res.assertFail, s1)
    | (Res.thrown hr, s1) => (Res.thrown hr, s1)

instance (σ : Type) : Monad (Exec σ) where
  pure a := fun s => (Res.ok a, s)
  bind := Exec.bind

/-- End the computation with the given outcome. -/
def Exec.finish {σ α : Type} (r : Res α) : Exec σ α := fun s => (r, s)

/-- Run a computation on the world from a method, which also carries its object. -/
def inWorld {σ α : Type} (m : Exec World α) : Exec (σ × World) α :=
  fun s =>
    match m s.2 with
    | (r, w) => (r, (s.1, w))

/-- Read the object of the running method. -/
def getSelf {σ : Type} : Exec (σ × World) σ := fun s => (Res.ok s.1, s)

/-- Overwrite the object of the running method. -/
def setSelf {σ : Type} (v : σ) : Exec (σ × World) Unit := fun s => (Res.ok (), (v, s.2))

/-- Read the world. -/
def getWorld : Exec World World := fun w => (Res.ok w, w)

/-! ### Macros of the error-handling library and the error policies -/

/-- Modelled from the spec: the macro `WI_ASSERT` of the library's result header,
the defensive check of a precondition. Where assertions are compiled in, a false
condition ends the call with an assertion failure; elsewhere the macro does
nothing. -/
def WI_ASSERT (cond : Bool) : Exec World Unit :=
  fun w => if w.assertsOn && !cond then (Res.assertFail, w) else (Res.ok (), w)

/-- Modelled from the spec: the macro `__FAIL_FAST_ASSERT__` of the library's
result header; a false condition terminates the process in every build. -/
def FAIL_FAST_ASSERT (cond : Bool) : Exec World Unit :=
  fun w => if cond then (Res.ok (), w) else (Res.failFast, w)

/-- Modelled from the spec: the macro `FAIL_FAST_IF_FAILED` of the library's result
header; a failure status terminates the process. -/
def FAIL_FAST_IF_FAILED (hr : HRESULT) : Exec World Unit :=
  fun w => if FAILED hr then (Res.failFast, w) else (Res.ok (), w)

/-- Modelled from the spec: the status `RETURN_LAST_ERROR_IF_NULL` returns, built
from the thread's last-error value; it is always a failure status (a last error
that is not a failure is replaced by `ERROR_ASSERTION_FAILURE`). -/
def GetLastErrorFailHr (w : World) : HRESULT :=
  if FAILED (HRESULT_FROM_WIN32 w.lastError) then HRESULT_FROM_WIN32 w.lastError
  else HRESULT_FROM_WIN32 ERROR_ASSERTION_FAILURE

/-- Modelled from the spec (4.1 Error Policy): the three error policies
`err_returncode_policy`, `err_exception_policy` and `err_failfast_policy`. -/
inductive err_policy where
  | returncode
  | exception
  | failfast
deriving DecidableEq, Repr

/-- The type `err_policy::result`: the status code itself under the
status-returning policy, `void` under the other two. -/
inductive result where
  | status (hr : HRESULT)
  | void
deriving DecidableEq, Repr

/-- Modelled from the spec (4.1 Error Policy): `err_policy::HResult(hr)`, the
translation of a status into the policy's `result`: returned as it is, thrown when
a failure, or fatal when a failure. -/
def err_policy.HResult (p : err_policy) (hr : HRESULT) : Res result :=
  match p with
  | err_policy.returncode => Res.ok (result.status hr)
  | err_policy.exception => if FAILED hr then Res.thrown hr else Res.ok result.void
  | err_policy.failfast => if FAILED hr then Res.failFast else Res.ok result.void

/-- What a call that succeeded returns under the policy: `S_OK` under the
status-returning policy, nothing (`void`) under the other two. -/
def err_policy.success (p : err_policy) : result :=
  match p with
  | err_policy.returncode => result.status S_OK
  | err_policy.exception => result.void
  | err_policy.failfast => result.void

/-- The `result` a status becomes under the policy when the call returns: the
status itself under the status-returning policy, `void` under the other two. -/
def err_policy.wrap (p : err_policy) (hr : HRESULT) : result :=
  match p with
  | err_policy.returncode => result.status hr
  | err_policy.exception => result.void
  | err_policy.failfast => result.void

/-- The policy's translation of the outcome of an operation that yields a status:
a status goes through `HResult`, any other outcome stays what it is. -/
def err_policy.translate (p : err_policy) : Res HRESULT → Res result
  | Res.ok hr => p.HResult hr
  | Res.failFast => Res.failFast
  | Res.assertFail => Res.assertFail
  | Res.thrown e => Res.thrown e

/-- The policy's translation of the outcome of an operation that yields a status
and the content of an out parameter. -/
def err_policy.translateOut {β : Type} (p : err_policy) : Res (HRESULT × β) → Res (result × β)
  | Res.ok (hr, b) =>
    match p.HResult hr with
    | Res.ok r => Res.ok (r, b)
    | Res.failFast => Res.failFast
    | Res.assertFail => Res.assertFail
    | Res.thrown e => Res.thrown e
  | Res.failFast => Res.failFast
  | Res.assertFail => Res.assertFail
  | Res.thrown e => Res.thrown e

/-! ### The platform boundary -/

def VT_EMPTY : VARTYPE := 0

def VT_NULL : VARTYPE := 1

def VT_I2 : VARTYPE := 2

def VT_I4 : VARTYPE := 3

def VT_R4 : VARTYPE := 4

def VT_R8 : VARTYPE := 5

def VT_CY : VARTYPE := 6

def VT_DATE : VARTYPE := 7

def VT_BSTR : VARTYPE := 8

def VT_DISPATCH : VARTYPE := 9

def VT_ERROR : VARTYPE := 10

def VT_BOOL : VARTYPE := 11

def VT_VARIANT : VARTYPE := 12

def VT_UNKNOWN : VARTYPE := 13

def VT_DECIMAL : VARTYPE := 14

def VT_I1 : VARTYPE := 16

def VT_UI1 : VARTYPE := 17

def VT_UI2 : VARTYPE := 18

def VT_UI4 : VARTYPE := 19

def VT_I8 : VARTYPE := 20

def VT_UI8 : VARTYPE := 21

def VT_INT : VARTYPE := 22

def VT_UINT : VARTYPE := 23

/-- Reduce an integer to the `LONG` it is as a 32-bit two's complement value. -/
def toLONG (x : Int) : Int := (x + 2147483648) % 4294967296 - 2147483648

/-- Reduce an integer to the `ULONG` it is as a 32-bit unsigned value. -/
def toULONG (x : Int) : Nat := (x % 4294967296).toNat

namespace oleaut

/-- Modelled from the spec: the byte size the platform gives the elements of an
array with tag `vt` (section 3, the fixed enumeration of element type tags), on a
platform with 8-byte pointers; `none` for a tag that is not an array element
type. -/
def elemSizeOf (vt : VARTYPE) : Option Nat :=
  if vt = VT_I1 ∨ vt = VT_UI1 then some 1
  else if vt = VT_I2 ∨ vt = VT_UI2 ∨ vt = VT_BOOL then some 2
  else if vt = VT_I4 ∨ vt = VT_UI4 ∨ vt = VT_R4 ∨ vt = VT_INT ∨ vt = VT_UINT ∨ vt = VT_ERROR
    then some 4
  else if vt = VT_I8 ∨ vt = VT_UI8 ∨ vt = VT_R8 ∨ vt = VT_CY ∨ vt = VT_DATE then some 8
  else if vt = VT_BSTR ∨ vt = VT_UNKNOWN ∨ vt = VT_DISPATCH then some 8
  else if vt = VT_DECIMAL then some 16
  else if vt = VT_VARIANT then some 24
  else none

/-- Modelled from the spec: the platform primitive `lock(handle)` (section 6,
`::SafeArrayLock`), which increments the lock count of a live array and fails with
invalid-argument on a handle that designates none. -/
def SafeArrayLock (psa : Handle) : Exec World HRESULT :=
  fun w =>
    match w.deref psa with
    | none => (Res.ok E_INVALIDARG, w.logged (Call.lock psa))
    | some a =>
      (Res.ok S_OK, (w.store psa (some { a with cLocks := a.cLocks + 1 })).logged (Call.lock psa))

/-- Modelled from the spec: the platform primitive `unlock(handle)` (section 6,
`::SafeArrayUnlock`), which decrements the lock count; the count is never
negative, so unlocking an array that is not locked fails. -/
def SafeArrayUnlock (psa : Handle) : Exec World HRESULT :=
  fun w =>
    match w.deref psa with
    | none => (Res.ok E_INVALIDARG, w.logged (Call.unlock psa))
    | some a =>
      if a.cLocks = 0 then (Res.ok E_UNEXPECTED, w.logged (Call.unlock psa))
      else
        (Res.ok S_OK,
          (w.store psa (some { a with cLocks := a.cLocks - 1 })).logged (Call.unlock psa))

/-- Modelled from the spec: the platform primitive `access(handle)` (section 6,
`::SafeArrayAccessData`), which implicitly locks the array and hands out the
pointer to its element storage through `ppvData`. -/
def SafeArrayAccessData (psa : Handle) : Exec World (HRESULT × Option Ptr) :=
  fun w =>
    match w.deref psa with
    | none => (Res.ok (E_INVALIDARG, none), w.logged (Call.access psa))
    | some a =>
      (Res.ok (S_OK, some ⟨psa, 0⟩),
        (w.store psa (some { a with cLocks := a.cLocks + 1 })).logged (Call.access psa))

/-- Modelled from the spec: the platform primitive `unaccess(handle)` (section 6,
`::SafeArrayUnaccessData`), which implicitly unlocks the array. -/
def SafeArrayUnaccessData (psa : Handle) : Exec World HRESULT :=
  fun w =>
    match w.deref psa with
    | none => (Res.ok E_INVALIDARG, w.logged (Call.unaccess psa))
    | some a =>
      if a.cLocks = 0 then (Res.ok E_UNEXPECTED, w.logged (Call.unaccess psa))
      else
        (Res.ok S_OK,
          (w.store psa (some { a with cLocks := a.cLocks - 1 })).logged (Call.unaccess psa))

/-- Modelled from the spec: the platform primitive `destroy(handle)` (section 6,
`::SafeArrayDestroy`), which fails only if locks are outstanding and otherwise
frees the array. -/
def SafeArrayDestroy (psa : Handle) : Exec World HRESULT :=
  fun w =>
    match w.deref psa with
    | none => (Res.ok E_INVALIDARG, w.logged (Call.destroy psa))
    | some a =>
      if a.cLocks = 0 then (Res.ok S_OK, (w.store psa none).logged (Call.destroy psa))
      else (Res.ok DISP_E_ARRAYISLOCKED, w.logged (Call.destroy psa))

/-- Modelled from the spec: the platform query `dimensionCount(handle)` (section 6,
`::SafeArrayGetDim`); 0 for a handle that designates no array. -/
def SafeArrayGetDim (w : World) (psa : Handle) : Nat :=
  match w.deref psa with
  | none => 0
  | some a => a.cDims

/-- Modelled from the spec: the platform query `elementSize(handle)` (section 6,
`::SafeArrayGetElemsize`); 0 for a handle that designates no array. -/
def SafeArrayGetElemsize (w : World) (psa : Handle) : Nat :=
  match w.deref psa with
  | none => 0
  | some a => a.cbElements

/-- Modelled from the spec: the platform query `elementTypeTag(handle)` (section 6,
`::SafeArrayGetVartype`), which writes the tag kept with the descriptor and fails
when there is no array or no tag. The second component is `*pvt` afterwards. -/
def SafeArrayGetVartype (w : World) (psa : Handle) (pvt : VARTYPE) : HRESULT × VARTYPE :=
  match w.deref psa with
  | none => (E_INVALIDARG, pvt)
  | some a =>
    match a.vt with
    | none => (E_INVALIDARG, pvt)
    | some vt => (S_OK, vt)

/-- The descriptor entry of dimension `nDim` (1-based): the dimensions are stored
in reverse order, so it is `rgsabound[cDims - nDim]`. -/
def boundOf (a : SAFEARRAY) (nDim : Nat) : Option SAFEARRAYBOUND :=
  if nDim = 0 ∨ a.cDims < nDim then none else a.rgsabound[a.cDims - nDim]?

/-- Modelled from the spec: the platform query `lowerBound(handle, dim)` (section 6,
`::SafeArrayGetLBound`): the `lLbound` of the entry for the dimension. `plLbound`
is the cell the pointer designates; the second component is its content
afterwards. -/
def SafeArrayGetLBound (w : World) (psa : Handle) (nDim : Nat) (plLbound : Option Int) :
    HRESULT × Option Int :=
  match w.deref psa, plLbound with
  | some a, some old =>
    match boundOf a nDim with
    | none => (DISP_E_BADINDEX, some old)
    | some b => (S_OK, some b.lLbound)
  | _, p => (E_INVALIDARG, p)

/-- Modelled from the spec: the platform query `upperBound(handle, dim)` (section 6,
`::SafeArrayGetUBound`): `lLbound + cElements - 1` of the entry for the dimension,
as a `LONG`. -/
def SafeArrayGetUBound (w : World) (psa : Handle) (nDim : Nat) (plUbound : Option Int) :
    HRESULT × Option Int :=
  match w.deref psa, plUbound with
  | some a, some old =>
    match boundOf a nDim with
    | none => (DISP_E_BADINDEX, some old)
    | some b => (S_OK, some (toLONG (b.lLbound + b.cElements - 1)))
  | _, p => (E_INVALIDARG, p)

/-- The array a successful allocation creates for the tag `vt` with element size
`size` and the bounds `dims`, given from the first dimension to the last: unlocked,
zero-filled, the bounds stored in reverse order. -/
def newArray (vt : VARTYPE) (size : Nat) (dims : List SAFEARRAYBOUND) : SAFEARRAY :=
  { vt := some vt, cbElements := size, cLocks := 0,
    pvData := List.replicate ((dims.map (fun b => b.cElements)).prod) 0,
    rgsabound := dims.reverse }

/-- Modelled from the spec: the platform primitive
`allocate(elementTypeTag, dimensionCount, boundsPerDimension)` (section 6,
`::SafeArrayCreate`). `rgsabound` is the array the pointer designates (`none` for
`nullptr`), given from the first dimension to the last. The result is the new
handle, or `nullptr` on failure: no dimension or more than 65535, no bounds (or
fewer than `cDims` of them), a tag that is no element type, or an environment
that refuses the allocation or has no handle left to give. -/
def SafeArrayCreate (vt : VARTYPE) (cDims : Nat) (rgsabound : Option (List SAFEARRAYBOUND)) :
    Exec World Handle :=
  fun w =>
    match rgsabound, elemSizeOf vt with
    | some l, some size =>
      if cDims = 0 ∨ 65535 < cDims ∨ l.length < cDims ∨ w.allocFails = true ∨ w.next = 0 then
        (Res.ok 0, w.logged (Call.create 0))
      else
        (Res.ok w.next,
          (w.alloc (newArray vt size (l.take cDims))).logged (Call.create w.next))
    | _, _ => (Res.ok 0, w.logged (Call.create 0))

/-- Modelled from the spec: the platform primitive `copy(sourceHandle)` (section 6,
`::SafeArrayCopy`), which allocates a deep duplicate of the source: the same
shape, the same element values, a fresh handle and no lock. `ppsaOut` is the
content of the out cell before the call, the second component its content
afterwards. -/
def SafeArrayCopy (psa : Handle) (ppsaOut : Handle) : Exec World (HRESULT × Handle) :=
  fun w =>
    match w.deref psa with
    | none => (Res.ok (E_INVALIDARG, ppsaOut), w.logged (Call.copy psa 0))
    | some a =>
      if w.allocFails = true ∨ w.next = 0 then
        (Res.ok (E_OUTOFMEMORY, ppsaOut), w.logged (Call.copy psa 0))
      else
        (Res.ok (S_OK, w.next),
          (w.alloc { a with cLocks := 0 }).logged (Call.copy psa w.next))

/-- The position in the element storage of the element with the given indices.
`dims` are the bounds from the first dimension to the last, `rgIndices` one index
per dimension in the same order; the first dimension varies fastest. `none` when
an index is out of its bounds or the number of indices is not the number of
dimensions. -/
def elemOffset : List SAFEARRAYBOUND → List Int → Option Nat
  | [], [] => some 0
  | b :: dims, i :: rgIndices =>
    if b.lLbound ≤ i ∧ i < b.lLbound + b.cElements then
      (elemOffset dims rgIndices).map (fun r => (i - b.lLbound).toNat + b.cElements * r)
    else none
  | _, _ => none

/-- Modelled from the spec: the platform primitive
`putElement(handle, indices, value)` (section 6, `::SafeArrayPutElement`), which
copies the value `pv` points to into the element with the given indices. -/
def SafeArrayPutElement (psa : Handle) (rgIndices : List Int) (pv : Option Nat) :
    Exec World HRESULT :=
  fun w =>
    match w.deref psa, pv with
    | some a, some v =>
      match elemOffset a.rgsabound.reverse rgIndices with
      | none => (Res.ok DISP_E_BADINDEX, w.logged (Call.putElement psa))
      | some off =>
        if off < a.pvData.length then
          (Res.ok S_OK,
            (w.store psa (some { a with pvData := a.pvData.set off v })).logged
              (Call.putElement psa))
        else (Res.ok DISP_E_BADINDEX, w.logged (Call.putElement psa))
    | _, _ => (Res.ok E_INVALIDARG, w.logged (Call.putElement psa))

/-- Modelled from the spec: the platform primitive `getElement(handle, indices)`
(section 6, `::SafeArrayGetElement`), which copies the element with the given
indices to where `pv` points. `pv` is the cell the pointer designates; the second
component is its content afterwards. -/
def SafeArrayGetElement (psa : Handle) (rgIndices : List Int) (pv : Option Nat) :
    Exec World (HRESULT × Option Nat) :=
  fun w =>
    match w.deref psa, pv with
    | some a, some old =>
      match elemOffset a.rgsabound.reverse rgIndices with
      | none => (Res.ok (DISP_E_BADINDEX, some old), w.logged (Call.getElement psa))
      | some off =>
        match a.pvData[off]? with
        | some v => (Res.ok (S_OK, some v), w.logged (Call.getElement psa))
        | none => (Res.ok (DISP_E_BADINDEX, some old), w.logged (Call.getElement psa))
    | _, p => (Res.ok (E_INVALIDARG, p), w.logged (Call.getElement psa))

end oleaut

/-! ### The `var_traits` table -/

/-- The element types `T` that have a `details::var_traits<T>` specialisation. -/
inductive CType where
  | char
  | long
  | int
  | long_long
  | unsigned_char
  | unsigned_short
  | unsigned_long
  | unsigned_int
  | unsigned_long_long
  | float
  | VARIANT_BOOL
  | DATE
  | CURRENCY
  | DECIMAL
  | BSTR
  | LPUNKNOWN
  | LPDISPATCH
  | VARIANT
deriving DecidableEq, Repr

/-- `details::var_traits<T>::vartype`. -/
def details.var_traits.vartype : CType → VARTYPE
  | CType.char => VT_I1
  | CType.long => VT_I4
  | CType.int => VT_I4
  | CType.long_long => VT_I8
  | CType.unsigned_char => VT_UI1
  | CType.unsigned_short => VT_UI2
  | CType.unsigned_long => VT_UI4
  | CType.unsigned_int => VT_UI4
  | CType.unsigned_long_long => VT_UI8
  | CType.float => VT_R4
  | CType.VARIANT_BOOL => VT_BOOL
  | CType.DATE => VT_DATE
  | CType.CURRENCY => VT_CY
  | CType.DECIMAL => VT_DECIMAL
  | CType.BSTR => VT_BSTR
  | CType.LPUNKNOWN => VT_UNKNOWN
  | CType.LPDISPATCH => VT_DISPATCH
  | CType.VARIANT => VT_VARIANT

/-- Modelled from the spec: `sizeof(T)` for the element types of the table, the
byte size of the statically-typed element (section 3), on the 64-bit platform ABI:
`long` and `int` have 4 bytes, `VARIANT_BOOL` is a `short`, `DATE` a `double`,
`CURRENCY` a 64-bit fixed-point value, `BSTR`, `LPUNKNOWN` and `LPDISPATCH` are
pointers, and a `VARIANT` has 24 bytes. -/
def CType.sizeof : CType → Nat
  | CType.char => 1
  | CType.long => 4
  | CType.int => 4
  | CType.long_long => 8
  | CType.unsigned_char => 1
  | CType.unsigned_short => 2
  | CType.unsigned_long => 4
  | CType.unsigned_int => 4
  | CType.unsigned_long_long => 8
  | CType.float => 4
  | CType.VARIANT_BOOL => 2
  | CType.DATE => 8
  | CType.CURRENCY => 8
  | CType.DECIMAL => 16
  | CType.BSTR => 8
  | CType.LPUNKNOWN => 8
  | CType.LPDISPATCH => 8
  | CType.VARIANT => 24

/-! ### `namespace details` of the header -/

namespace details

/-- `details::SafeArrayDestroy`. -/
def SafeArrayDestroy (psa : Handle) : Exec World Unit := do
  FAIL_FAST_ASSERT (psa != 0)
  let hr ← oleaut.SafeArrayDestroy psa
  FAIL_FAST_IF_FAILED hr

/-- `details::SafeArrayLock`. -/
def SafeArrayLock (psa : Handle) : Exec World Unit := do
  FAIL_FAST_ASSERT (psa != 0)
  let hr ← oleaut.SafeArrayLock psa
  FAIL_FAST_IF_FAILED hr

/-- `details::SafeArrayUnlock`. -/
def SafeArrayUnlock (psa : Handle) : Exec World Unit := do
  FAIL_FAST_ASSERT (psa != 0)
  let hr ← oleaut.SafeArrayUnlock psa
  FAIL_FAST_IF_FAILED hr

/-- `details::SafeArrayAccessData(psa, p)`; the value returned is `p` after the
call. -/
def SafeArrayAccessData (psa : Handle) : Exec World (Option Ptr) := do
  FAIL_FAST_ASSERT (psa != 0)
  let (hr, p) ← oleaut.SafeArrayAccessData psa
  FAIL_FAST_IF_FAILED hr
  return p

/-- `details::SafeArrayUnaccessData`. -/
def SafeArrayUnaccessData (psa : Handle) : Exec World Unit := do
  FAIL_FAST_ASSERT (psa != 0)
  let hr ← oleaut.SafeArrayUnaccessData psa
  FAIL_FAST_IF_FAILED hr

/-- `details::SafeArrayGetVartype`. -/
def SafeArrayGetVartype (w : World) (psa : Handle) : VARTYPE :=
  let vt := VT_NULL
  if psa ≠ 0 then
    match oleaut.SafeArrayGetVartype w psa vt with
    | (hr, vt) => if FAILED hr then VT_EMPTY else vt
  else vt

/-- `details::SafeArrayGetLockCount`. -/
def SafeArrayGetLockCount (w : World) (psa : Handle) : Nat :=
  match w.deref psa with
  | some a => a.cLocks
  | none => 0

/-- `details::SafeArrayCreate(vt, cDims, sab, psa)`; the second component is the
out parameter `psa` after the call. -/
def SafeArrayCreate (vt : VARTYPE) (cDims : Nat) (sab : Option (List SAFEARRAYBOUND)) :
    Exec World (HRESULT × Handle) := do
  WI_ASSERT sab.isSome
  WI_ASSERT (decide (cDims > 0))
  let psa ← oleaut.SafeArrayCreate vt cDims sab
  if psa = 0 then
    return (GetLastErrorFailHr (← getWorld), psa)
  WI_ASSERT (decide (vt = SafeArrayGetVartype (← getWorld) psa))
  return (S_OK, psa)

/-- `details::SafeArrayDimElementCount(psa, nDim, pCount)`, on the descriptor the
handle points to and the cell `pCount` designates; the second component is
`*pCount` afterwards. The index `cDims - nDim` is within `rgsabound` once the
range check has passed, so the default of the lookup is never taken. -/
def SafeArrayDimElementCount (psa : Option SAFEARRAY) (nDim : Nat) (pCount : Option Nat) :
    Res (HRESULT × Nat) :=
  match psa, pCount with
  | some a, some old =>
    if nDim = 0 ∨ nDim > a.cDims then Res.ok (E_INVALIDARG, old)
    else Res.ok (S_OK, (a.rgsabound.getD (a.cDims - nDim) ⟨0, 0⟩).cElements)
  | _, _ => Res.failFast

end details

/-! ### `unique_any` and the scoped unlock guard -/

/-- Modelled from the spec (4.2, 4.3): the library's `unique_any`, the sole owner of
one handle with a fixed close function; `m_ptr = 0` is the invalid value (it owns
nothing). -/
structure unique_any where
  m_ptr : Handle
deriving DecidableEq, Repr

/-- Modelled from the spec (4.2): `get()`, the owned handle, ownership kept. -/
def unique_any.get (self : unique_any) : Handle := self.m_ptr

/-- Modelled from the spec (4.2): `reset(ptr)`, which closes the handle owned so
far, if any, and takes ownership of `ptr`. -/
def unique_any.reset (close : Handle → Exec World Unit) (ptr : Handle) :
    Exec (unique_any × World) Unit := do
  let self ← getSelf
  if self.m_ptr ≠ 0 then
    inWorld (close self.m_ptr)
  setSelf { m_ptr := ptr }

/-- Modelled from the spec (4.2): `release()`, which forfeits ownership and returns
the raw handle without closing it. -/
def unique_any.release : Exec (unique_any × World) Handle := do
  let self ← getSelf
  setSelf { m_ptr := 0 }
  return self.m_ptr

/-- Modelled from the spec (4.2): the destructor, equivalent to `reset()` to the
invalid value. -/
def unique_any.destroy (close : Handle → Exec World Unit) : Exec (unique_any × World) Unit :=
  unique_any.reset close 0

/-- `wil::SafeArrayUnlock_scope_exit(psa)`: the guard returned is a
`safearray_unlock_scope_exit`, a `unique_any` closing with
`details::SafeArrayUnlock`. -/
def SafeArrayUnlock_scope_exit (psa : Handle) : Exec World unique_any := do
  details.SafeArrayLock psa
  return { m_ptr := psa }

/-! ### `safearraydata_t`, the locked typed data view -/

/-- The members of `safearraydata_t<T, err_policy>`, with their default
initialisers. -/
structure safearraydata_t where
  m_unaccess : unique_any := { m_ptr := 0 }
  m_pBegin : Option Ptr := none
  m_nSize : Nat := 0
deriving DecidableEq, Repr

/-- Run a method of the member `m_unaccess` from a method of the view. -/
def onUnaccess {α : Type} (m : Exec (unique_any × World) α) :
    Exec (safearraydata_t × World) α :=
  fun s =>
    match m (s.1.m_unaccess, s.2) with
    | (r, (g, w)) => (r, ({ s.1 with m_unaccess := g }, w))

/-- The lambda inside `safearraydata_t<T>::access(psa)`; `sizeofT` is `sizeof(T)`. -/
def safearraydata_t.access.body (sizeofT : Nat) (psa : Handle) :
    Exec (safearraydata_t × World) HRESULT := do
  let w ← inWorld getWorld
  inWorld (WI_ASSERT (decide (sizeofT = oleaut.SafeArrayGetElemsize w psa)))
  let p ← inWorld (details.SafeArrayAccessData psa)
  setSelf { (← getSelf) with m_pBegin := p }
  onUnaccess (unique_any.reset details.SafeArrayUnaccessData psa)
  let self ← getSelf
  let w ← inWorld getWorld
  let (hr, n) ← Exec.finish
    (details.SafeArrayCountElements (w.deref self.m_unaccess.get) (some self.m_nSize))
  setSelf { self with m_nSize := n }
  if FAILED hr then
    return hr
  return S_OK

/-- `safearraydata_t<T, err_policy>::access(psa)`. -/
def safearraydata_t.access (p : err_policy) (sizeofT : Nat) (psa : Handle) :
    Exec (safearraydata_t × World) result := do
  let hr ← safearraydata_t.access.body sizeofT psa
  Exec.finish (p.HResult hr)

/-- The defaulted destructor of `safearraydata_t`: it destroys the member
`m_unaccess`, the only one with a destructor that does anything. -/
def safearraydata_t.destroy : Exec (safearraydata_t × World) Unit :=
  onUnaccess (unique_any.destroy details.SafeArrayUnaccessData)

/-- `safearraydata_t::size()`. -/
def safearraydata_t.size (self : safearraydata_t) : Nat := self.m_nSize

/-- `safearraydata_t::empty()`. -/
def safearraydata_t.empty (self : safearraydata_t) : Bool := self.m_nSize == 0

/-- Pointer arithmetic `p + n` on an element pointer; a null pointer has no
element to step from. -/
def Ptr.add (p : Option Ptr) (n : Nat) : Option Ptr :=
  p.map (fun q => { q with off := q.off + n })

/-- The element a pointer designates: the element `off` of the storage of the array
`base`, if the array is there and has that many elements. -/
def World.read (w : World) (p : Option Ptr) : Option Nat :=
  p.bind (fun q => (w.deref q.base).bind (fun a => a.pvData[q.off]?))

/-- The iterator after `n` increments from `begin`, as a ranged `for` steps. -/
def nthIter (begin : Option Ptr) : Nat → Option Ptr
  | 0 => begin
  | n + 1 => Ptr.add (nthIter begin n) 1

/-- `safearraydata_t::begin()`, const and non-const. -/
def safearraydata_t.begin (self : safearraydata_t) : Exec World (Option Ptr) := do
  WI_ASSERT self.m_pBegin.isSome
  return self.m_pBegin

/-- `safearraydata_t::end()`, const and non-const. -/
def safearraydata_t.end_ (self : safearraydata_t) : Exec World (Option Ptr) := do
  WI_ASSERT self.m_pBegin.isSome
  return Ptr.add self.m_pBegin self.m_nSize

/-- `safearraydata_t::operator[](i)`, the non-const overload: the reference
returned is the address `m_pBegin + i`. -/
def safearraydata_t.index (self : safearraydata_t) (i : Nat) : Exec World (Option Ptr) := do
  WI_ASSERT (decide (i < self.m_nSize))
  return Ptr.add self.m_pBegin i

/-- `safearraydata_t::operator[](i) const`, the const overload. -/
def safearraydata_t.index_const (self : safearraydata_t) (i : Nat) :
    Exec World (Option Ptr) := do
  WI_ASSERT (decide (i < self.m_nSize))
  return Ptr.add self.m_pBegin i

/-! ### `safearray_t`, the array facade

The facade derives from its storage, a `unique_any` closing with
`details::SafeArrayDestroy`; its methods run on that storage and the world. -/

namespace safearray_t

/-- `storage_t::reset(ptr)` of the facade. -/
def reset (ptr : Handle) : Exec (unique_any × World) Unit :=
  unique_any.reset details.SafeArrayDestroy ptr

/-- The destructor of the facade. -/
def destroy : Exec (unique_any × World) Unit :=
  unique_any.destroy details.SafeArrayDestroy

/-- `safearray_t::_create(vt, cDims, sab)`. -/
def _create (vt : VARTYPE) (cDims : Nat) (sab : Option (List SAFEARRAYBOUND)) :
    Exec (unique_any × World) HRESULT := do
  let (hr, psa) ← inWorld (details.SafeArrayCreate vt cDims sab)
  if FAILED hr then
    return hr
  reset psa
  return S_OK

/-- `safearray_t::create(vt, cDims, sab)`, explicit type, any number of
dimensions. -/
def create (p : err_policy) (vt : VARTYPE) (cDims : Nat) (sab : Option (List SAFEARRAYBOUND)) :
    Exec (unique_any × World) result := do
  let hr ← _create vt cDims sab
  Exec.finish (p.HResult hr)

/-- `safearray_t::create(vt, cElements, lowerBound)`, explicit type, single
dimension. -/
def create1 (p : err_policy) (vt : VARTYPE) (cElements : Nat) (lowerBound : Int := 0) :
    Exec (unique_any × World) result := do
  let bounds : SAFEARRAYBOUND := { cElements := cElements, lLbound := lowerBound }
  let hr ← _create vt 1 (some [bounds])
  Exec.finish (p.HResult hr)

/-- `safearray_t::create<T>(cDims, sab)`, inferred type, any number of
dimensions. -/
def createT (p : err_policy) (T : CType) (cDims : Nat) (sab : Option (List SAFEARRAYBOUND)) :
    Exec (unique_any × World) result := do
  let vt := details.var_traits.vartype T
  let hr ← _create vt cDims sab
  Exec.finish (p.HResult hr)

/-- `safearray_t::create<T>(cElements, lowerBound)`, inferred type, single
dimension. -/
def createT1 (p : err_policy) (T : CType) (cElements : Nat) (lowerBound : Int := 0) :
    Exec (unique_any × World) result := do
  let vt := details.var_traits.vartype T
  let bounds : SAFEARRAYBOUND := { cElements := cElements, lLbound := lowerBound }
  let hr ← _create vt 1 (some [bounds])
  Exec.finish (p.HResult hr)

/-- The lambda inside `safearray_t::create_copy(psaSource)`. -/
def create_copy.body (psaSource : Handle) : Exec (unique_any × World) HRESULT := do
  let (hr, psa) ← inWorld (oleaut.SafeArrayCopy psaSource 0)
  if FAILED hr then
    return hr
  reset psa
  return S_OK

/-- `safearray_t::create_copy(psaSource)`. -/
def create_copy (p : err_policy) (psaSource : Handle) : Exec (unique_any × World) result := do
  inWorld (WI_ASSERT (decide (psaSource ≠ 0)))
  let hr ← create_copy.body psaSource
  Exec.finish (p.HResult hr)

/-- `safearray_t::dim()`. -/
def dim (self : unique_any) (w : World) : Nat := oleaut.SafeArrayGetDim w self.get

/-- `safearray_t::elemsize()`. -/
def elemsize (self : unique_any) (w : World) : Nat := oleaut.SafeArrayGetElemsize w self.get

/-- `safearray_t::lock_count()`. -/
def lock_count (self : unique_any) (w : World) : Nat :=
  details.SafeArrayGetLockCount w self.get

/-- `safearray_t::vartype()`. -/
def vartype (self : unique_any) (w : World) : VARTYPE :=
  details.SafeArrayGetVartype w self.get

/-- `safearray_t::lbound(nDim, pLbound)`; the second component is `*pLbound`
afterwards. -/
def lbound (p : err_policy) (nDim : Nat) (pLbound : Option Int) :
    Exec (unique_any × World) (result × Option Int) := do
  let self ← getSelf
  let w ← inWorld getWorld
  inWorld (WI_ASSERT pLbound.isSome)
  inWorld (WI_ASSERT (decide (nDim > 0) && decide (nDim ≤ dim self w)))
  match oleaut.SafeArrayGetLBound w self.get nDim pLbound with
  | (hr, out) =>
    let r ← Exec.finish (p.HResult hr)
    return (r, out)

/-- `safearray_t::ubound(nDim, pUbound)`; the second component is `*pUbound`
afterwards. -/
def ubound (p : err_policy) (nDim : Nat) (pUbound : Option Int) :
    Exec (unique_any × World) (result × Option Int) := do
  let self ← getSelf
  let w ← inWorld getWorld
  inWorld (WI_ASSERT pUbound.isSome)
  inWorld (WI_ASSERT (decide (nDim > 0) && decide (nDim ≤ dim self w)))
  match oleaut.SafeArrayGetUBound w self.get nDim pUbound with
  | (hr, out) =>
    let r ← Exec.finish (p.HResult hr)
    return (r, out)

/-- `safearray_t::lbound(pLbound)`, the one-dimensional form. -/
def lbound1 (p : err_policy) (pLbound : Option Int) :
    Exec (unique_any × World) (result × Option Int) := do
  let self ← getSelf
  let w ← inWorld getWorld
  inWorld (WI_ASSERT (decide (dim self w = 1)))
  inWorld (WI_ASSERT pLbound.isSome)
  match oleaut.SafeArrayGetLBound w self.get 1 pLbound with
  | (hr, out) =>
    let r ← Exec.finish (p.HResult hr)
    return (r, out)

/-- `safearray_t::ubound(pUbound)`, the one-dimensional form. -/
def ubound1 (p : err_policy) (pUbound : Option Int) :
    Exec (unique_any × World) (result × Option Int) := do
  let self ← getSelf
  let w ← inWorld getWorld
  inWorld (WI_ASSERT (decide (dim self w = 1)))
  inWorld (WI_ASSERT pUbound.isSome)
  match oleaut.SafeArrayGetUBound w self.get 1 pUbound with
  | (hr, out) =>
    let r ← Exec.finish (p.HResult hr)
    return (r, out)

/-- `safearray_t::count(pCount)`; the second component is `*pCount` afterwards. -/
def count (p : err_policy) (pCount : Option Nat) :
    Exec (unique_any × World) (result × Option Nat) := do
  let self ← getSelf
  let w ← inWorld getWorld
  inWorld (WI_ASSERT pCount.isSome)
  let (hr, n) ← Exec.finish (details.SafeArrayCountElements (w.deref self.get) pCount)
  let r ← Exec.finish (p.HResult hr)
  return (r, some n)

/-- `safearray_t::dim_elements(nDim, pCount)`; the second component is `*pCount`
afterwards. -/
def dim_elements (p : err_policy) (nDim : Nat) (pCount : Option Nat) :
    Exec (unique_any × World) (result × Option Nat) := do
  let self ← getSelf
  let w ← inWorld getWorld
  inWorld (WI_ASSERT pCount.isSome)
  inWorld (WI_ASSERT (decide (nDim > 0) && decide (nDim ≤ dim self w)))
  let (hr, n) ← Exec.finish (details.SafeArrayDimElementCount (w.deref self.get) nDim pCount)
  let r ← Exec.finish (p.HResult hr)
  return (r, some n)

/-- `safearray_t::scope_lock()`. -/
def scope_lock (self : unique_any) : Exec World unique_any :=
  SafeArrayUnlock_scope_exit self.get

/-- `safearray_t::put_element(nIndex, val)`, the typed one-dimensional forms (value
and pointer element types): `sizeofT` is `sizeof(val)`, `val` the value copied. -/
def put_element (p : err_policy) (sizeofT : Nat) (nIndex : Int) (val : Nat) :
    Exec (unique_any × World) result := do
  let self ← getSelf
  let w ← inWorld getWorld
  inWorld (WI_ASSERT (decide (sizeofT = elemsize self w)))
  inWorld (WI_ASSERT (decide (dim self w = 1)))
  let hr ← inWorld (oleaut.SafeArrayPutElement self.get [nIndex] (some val))
  Exec.finish (p.HResult hr)

/-- `safearray_t::get_element(nIndex, val)`, the typed one-dimensional form; `val`
is the content of the out parameter before the call, the second component its
content afterwards. -/
def get_element (p : err_policy) (sizeofT : Nat) (nIndex : Int) (val : Nat) :
    Exec (unique_any × World) (result × Nat) := do
  let self ← getSelf
  let w ← inWorld getWorld
  inWorld (WI_ASSERT (decide (sizeofT = elemsize self w)))
  inWorld (WI_ASSERT (decide (dim self w = 1)))
  let (hr, out) ← inWorld (oleaut.SafeArrayGetElement self.get [nIndex] (some val))
  let r ← Exec.finish (p.HResult hr)
  return (r, out.getD val)

/-- `safearray_t::put_element(pIndices, val)`, the typed multi-dimensional forms. -/
def put_elementN (p : err_policy) (sizeofT : Nat) (pIndices : List Int) (val : Nat) :
    Exec (unique_any × World) result := do
  let self ← getSelf
  let w ← inWorld getWorld
  inWorld (WI_ASSERT (decide (sizeofT = elemsize self w)))
  let hr ← inWorld (oleaut.SafeArrayPutElement self.get pIndices (some val))
  Exec.finish (p.HResult hr)

/-- `safearray_t::get_element(pIndices, val)`, the typed multi-dimensional form. -/
def get_elementN (p : err_policy) (sizeofT : Nat) (pIndices : List Int) (val : Nat) :
    Exec (unique_any × World) (result × Nat) := do
  let self ← getSelf
  let w ← inWorld getWorld
  inWorld (WI_ASSERT (decide (sizeofT = elemsize self w)))
  let (hr, out) ← inWorld (oleaut.SafeArrayGetElement self.get pIndices (some val))
  let r ← Exec.finish (p.HResult hr)
  return (r, out.getD val)

/-- `safearray_t::put_element(nIndex, pv)`, the lowest-level one-dimensional form
taking a `void*`; `pv` is the value the pointer designates (`none` for
`nullptr`). -/
def put_element_raw (p : err_policy) (nIndex : Int) (pv : Option Nat) :
    Exec (unique_any × World) result := do
  let self ← getSelf
  let w ← inWorld getWorld
  inWorld (WI_ASSERT (decide (dim self w = 1)))
  let hr ← inWorld (oleaut.SafeArrayPutElement self.get [nIndex] pv)
  Exec.finish (p.HResult hr)

/-- `safearray_t::get_element(nIndex, pv)`, the lowest-level one-dimensional form
taking a `void*`; `pv` is the cell the pointer designates (`none` for `nullptr`),
the second component its content afterwards. -/
def get_element_raw (p : err_policy) (nIndex : Int) (pv : Option Nat) :
    Exec (unique_any × World) (result × Option Nat) := do
  let self ← getSelf
  let w ← inWorld getWorld
  inWorld (WI_ASSERT (decide (dim self w = 1)))
  let (hr, out) ← inWorld (oleaut.SafeArrayGetElement self.get [nIndex] pv)
  let r ← Exec.finish (p.HResult hr)
  return (r, out)

end safearray_t

/-- Three dimensions of 65536, 65536 and 0 elements: the product is 0. -/
def zeroAfterOverflow : SAFEARRAY :=
  { vt := some 3, cbElements := 4, cLocks := 0, pvData := [],
    rgsabound := [⟨65536, 0⟩, ⟨65536, 0⟩, ⟨0, 0⟩] }

/-- A 2 x 3 array of 4-byte integers. -/
def twoByThree : SAFEARRAY :=
  { vt := some 3, cbElements := 4, cLocks := 0, pvData := [1, 2, 3, 4, 5, 6],
    rgsabound := [⟨3, 0⟩, ⟨2, 1⟩] }

/-- Two dimensions of 65536 elements each: the product is `2^32`. -/
def squareOverflow : SAFEARRAY :=
  { vt := some 17, cbElements := 1, cLocks := 0, pvData := [],
    rgsabound := [⟨65536, 0⟩, ⟨65536, 0⟩] }

/-- A world with nothing allocated: the first handle handed out is 1. -/
def emptyWorld : World :=
  { heap := fun _ => none, next := 1, allocFails := false, lastError := 0,
    assertsOn := true, calls := [] }

/-- A world holding one array, `twoByThree` with two locks on it, at handle 1. -/
def lockedWorld : World :=
  { heap := fun h => if h = 1 then some { twoByThree with cLocks := 2 } else none,
    next := 2, allocFails := false, lastError := 0, assertsOn := true, calls := [] }

/-- A world holding one array at handle 1, the overflowing `squareOverflow`. -/
def overflowWorld : World :=
  { heap := fun h => if h = 1 then some squareOverflow else none,
    next := 2, allocFails := false, lastError := 0, assertsOn := true, calls := [] }

/-- A world holding one array at handle 1, `zeroAfterOverflow`. -/
def zeroWorld : World :=
  { heap := fun h => if h = 1 then some zeroAfterOverflow else none,
    next := 2, allocFails := false, lastError := 0, assertsOn := true, calls := [] }

/-- An empty wrapper creates a single-dimension array of five 4-byte integers with
lower bound 0 in `emptyWorld`: the wrapper and the world afterwards. -/
def fiveInts : unique_any × World :=
  (safearray_t.create1 err_policy.returncode VT_I4 5 0 ({ m_ptr := 0 }, emptyWorld)).2

/-- The array of `fiveInts` after `put_element` of 10, 20, 30, 40, 50 at 0 to 4. -/
def fiveIntsFilled : unique_any × World :=
  let s1 := (safearray_t.put_element err_policy.returncode 4 0 10 fiveInts).2
  let s2 := (safearray_t.put_element err_policy.returncode 4 1 20 s1).2
  let s3 := (safearray_t.put_element err_policy.returncode 4 2 30 s2).2
  let s4 := (safearray_t.put_element err_policy.returncode 4 3 40 s3).2
  (safearray_t.put_element err_policy.returncode 4 4 50 s4).2

/-- What `get_element` returns at the indices 0 to 4 of `fiveIntsFilled`. -/
def roundTripScenario : List (Res (result × Nat)) :=
  [(safearray_t.get_element err_policy.returncode 4 0 0 fiveIntsFilled).1,
   (safearray_t.get_element err_policy.returncode 4 1 0 fiveIntsFilled).1,
   (safearray_t.get_element err_policy.returncode 4 2 0 fiveIntsFilled).1,
   (safearray_t.get_element err_policy.returncode 4 3 0 fiveIntsFilled).1,
   (safearray_t.get_element err_policy.returncode 4 4 0 fiveIntsFilled).1]

/-- Failure atomicity of the lambda or helper inside a creating operation, which
returns a status: from the wrapper `self` in the world `w` it either returns
`S_OK`, the wrapper then owning a non-null handle that a platform call logged
after the calls of `w` created, or leaves the wrapper as it was, with the array
it owned intact. -/
def BodyAtomic (m : Exec (unique_any × World) HRESULT) : Prop :=
  ∀ (self : unique_any) (w : World),
    ((m (self, w)).1 = Res.ok S_OK ∧ (m (self, w)).2.1.get ≠ 0
      ∧ ∃ c rest, (m (self, w)).2.2.calls = w.calls ++ c :: rest
          ∧ (c = Call.create (m (self, w)).2.1.get
              ∨ ∃ src, c = Call.copy src (m (self, w)).2.1.get))
    ∨ ((m (self, w)).2.1 = self ∧ (m (self, w)).2.2.deref self.get = w.deref self.get)

/-- Failure atomicity of a creating operation `op` of the facade under the policy
`p`, from every wrapper `self` in every world `w`: when the outcome is not the
policy's success, the wrapper is what it was and the array it owned is intact;
and when the wrapper has changed, the outcome is success, the handle now owned is
not null and the platform call that created it is in the log, after the calls of
`w`. -/
def CreationAtomic (p : err_policy) (op : Exec (unique_any × World) result) : Prop :=
  ∀ (self : unique_any) (w : World),
    ((op (self, w)).1 ≠ Res.ok p.success →
        (op (self, w)).2.1 = self ∧ (op (self, w)).2.2.deref self.get = w.deref self.get)
    ∧ ((op (self, w)).2.1 ≠ self →
        (op (self, w)).1 = Res.ok p.success ∧ (op (self, w)).2.1.get ≠ 0
        ∧ ∃ c rest, (op (self, w)).2.2.calls = w.calls ++ c :: rest
            ∧ (c = Call.create (op (self, w)).2.1.get
                ∨ ∃ src, c = Call.copy src (op (self, w)).2.1.get))

/-- The world `emptyWorld` of a build without `WI_ASSERT`. -/
def releaseWorld : World := { emptyWorld with assertsOn := false }

/-- An empty wrapper copies the array at handle 1 of `lockedWorld`: the wrapper and
the world afterwards. -/
def copiedWorld : unique_any × World :=
  (safearray_t.create_copy err_policy.returncode 1 ({ m_ptr := 0 }, lockedWorld)).2

/-- Policy independence of an operation `op` that returns the policy's `result`:
from every state there are an underlying outcome and a final state, both the same
for the three policies, such that under each policy the operation ends in that
state with the policy's translation of that outcome. -/
def PolicyFree {σ : Type} (op : err_policy → Exec σ result) : Prop :=
  ∀ s : σ, ∃ (r : Res HRESULT) (s1 : σ), ∀ p : err_policy, op p s = (p.translate r, s1)

/-- Policy independence of an operation that returns the policy's `result` and the
content of an out parameter. -/
def PolicyFreeOut {σ β : Type} (op : err_policy → Exec σ (result × β)) : Prop :=
  ∀ s : σ, ∃ (r : Res (HRESULT × β)) (s1 : σ),
    ∀ p : err_policy, op p s = (p.translateOut r, s1)

/-- A world holding a one-dimensional array of three 2-byte integers at handle 1. -/
def shortsWorld : World :=
  { heap := fun h =>
      if h = 1 then
        some { vt := some VT_I2, cbElements := 2, cLocks := 0, pvData := [7, 8, 9],
               rgsabound := [⟨3, 0⟩] }
      else none,
    next := 2, allocFails := false, lastError := 0, assertsOn := true, calls := [] }

/-- A fresh view of 4-byte elements accesses the array at handle 1 of
`lockedWorld`: the view and the world afterwards. -/
def accessedView : safearraydata_t × World :=
  (safearraydata_t.access err_policy.returncode 4 1 ({}, lockedWorld)).2

/-- A descriptor with a dimension of 3000000000 elements from -5 (stored first, so
it is dimension 2) and an empty dimension from 7 (dimension 1). -/
def hugeDims : SAFEARRAY :=
  { vt := some 17, cbElements := 1, cLocks := 0, pvData := [],
    rgsabound := [⟨3000000000, -5⟩, ⟨0, 7⟩] }

/-- A world holding one array at handle 1, `hugeDims`. -/
def hugeWorld : World :=
  { heap := fun h => if h = 1 then some hugeDims else none,
    next := 2, allocFails := false, lastError := 0, assertsOn := true, calls := [] }

/-! ### The earlier header `include/wil/Safearrays.h`

The repository also carries an earlier version of the header. Its functions are
embedded in the namespace `legacy`, over the same platform boundary. -/

def E_POINTER : HRESULT := 0x80004003

/-- The conversion of a `LONG` to `ULONGLONG` (sign extension, then the 64-bit
pattern read as unsigned). -/
def toULONGLONG (x : Int) : Nat := (x % 18446744073709551616).toNat

namespace legacy

namespace details

/-- `details::SafeArrayDestory` (so spelled) of `Safearrays.h`. -/
def SafeArrayDestory (psa : Handle) : Exec World Unit := do
  let hr ← oleaut.SafeArrayDestroy psa
  FAIL_FAST_IF_FAILED hr

/-- `details::SafeArrayUnlock` of `Safearrays.h`. -/
def SafeArrayUnlock (psa : Handle) : Exec World Unit := do
  let hr ← oleaut.SafeArrayUnlock psa
  FAIL_FAST_IF_FAILED hr

/-- The loop `for (i = 1; i <= nDims; ++i)` of `details::SafeArrayCountElements` of
`Safearrays.h`, over the dimension numbers still to visit, with the accumulator
`result` (`ULONGLONG`) and the locals `nLbound` and `nUbound` (`LONG`). The factor
`nUbound - nLbound + 1` is computed in `LONG` arithmetic (reduced to 32 bits, as
the compiler of the platform does) and converted to `ULONGLONG` for the
multiplication. -/
def SafeArrayCountElements.loop (w : World) (psa : Handle) :
    List Nat → Nat → Int → Int → Except HRESULT Nat
  | [], result, _, _ => Except.ok result
  | i :: rest, result, nLbound, nUbound =>
    match oleaut.SafeArrayGetLBound w psa i (some nLbound) with
    | (hr, pLbound) =>
      if FAILED hr then Except.error hr
      else
        let nLbound := pLbound.getD nLbound
        match oleaut.SafeArrayGetUBound w psa i (some nUbound) with
        | (hr, pUbound) =>
          if FAILED hr then Except.error hr
          else
            let nUbound := pUbound.getD nUbound
            let result :=
              (result * toULONGLONG (toLONG (toLONG (nUbound - nLbound) + 1))) % 2 ^ 64
            if result > ULONG_MAX then
              Except.error (HRESULT_FROM_WIN32 ERROR_ARITHMETIC_OVERFLOW)
            else SafeArrayCountElements.loop w psa rest result nLbound nUbound

/-- `details::SafeArrayCountElements(psa, pCount)` of `Safearrays.h`; `pCount` is
the cell the pointer designates (`none` for `nullptr`), the second component its
content afterwards. -/
def SafeArrayCountElements (w : World) (psa : Handle) (pCount : Option Nat) :
    HRESULT × Option Nat :=
  if psa = 0 then (E_INVALIDARG, pCount)
  else
    match pCount with
    | none => (E_POINTER, none)
    | some old =>
      let nDims := oleaut.SafeArrayGetDim w psa
      match SafeArrayCountElements.loop w psa (List.range' 1 nDims) 1 0 0 with
      | Except.error hr => (hr, some old)
      | Except.ok result => (S_OK, some (result % 2 ^ 32))

end details

/-- `wil::SafeArrayUnlock_scope_exit(psa)` of `Safearrays.h`; the guard returned
is a `unique_any` closing with `details::SafeArrayUnlock`. -/
def SafeArrayUnlock_scope_exit (psa : Handle) : Exec World unique_any := do
  FAIL_FAST_ASSERT (psa != 0)
  return { m_ptr := psa }

namespace safearray_t

/-- `storage_t::reset(ptr)` of the facade of `Safearrays.h`. -/
def reset (ptr : Handle) : Exec (unique_any × World) Unit :=
  unique_any.reset details.SafeArrayDestory ptr

/-- The lambda inside `safearray_t::create(vt, cDims, sab)` of `Safearrays.h`. -/
def create.body (vt : VARTYPE) (cDims : Nat) (sab : Option (List SAFEARRAYBOUND)) :
    Exec (unique_any × World) HRESULT := do
  if sab.isNone then
    return E_INVALIDARG
  if cDims < 1 then
    return E_INVALIDARG
  let sa ← inWorld (oleaut.SafeArrayCreate vt cDims sab)
  if sa = 0 then
    return GetLastErrorFailHr (← inWorld getWorld)
  reset sa
  return S_OK

/-- `safearray_t::create(vt, cDims, sab)` of `Safearrays.h`, the low-level form
with any number of dimensions. -/
def create (p : err_policy) (vt : VARTYPE) (cDims : Nat) (sab : Option (List SAFEARRAYBOUND)) :
    Exec (unique_any × World) result := do
  let hr ← create.body vt cDims sab
  Exec.finish (p.HResult hr)

/-- `safearray_t::count(pCount)` of `Safearrays.h`; the second component is
`*pCount` afterwards. -/
def count (p : err_policy) (pCount : Option Nat) :
    Exec (unique_any × World) (result × Option Nat) := do
  let self ← getSelf
  let w ← inWorld getWorld
  match details.SafeArrayCountElements w self.get pCount with
  | (hr, out) =>
    let r ← Exec.finish (p.HResult hr)
    return (r, out)

/-- `safearray_t::scope_lock()` of `Safearrays.h`. -/
def scope_lock (self : unique_any) : Exec World unique_any :=
  SafeArrayUnlock_scope_exit self.get

end safearray_t

end legacy

/-- A world holding at handle 1 a one-dimensional array of 3000000000 one-byte
elements from lower bound 0 (its storage is not spelled out). -/
def bigWorld : World :=
  { heap := fun h =>
      if h = 1 then
        some { vt := some VT_UI1, cbElements := 1, cLocks := 0, pvData := [],
               rgsabound := [⟨3000000000, 0⟩] }
      else none,
    next := 2, allocFails := false, lastError := 0, assertsOn := true, calls := [] }

/-- The world `shortsWorld` after `scope_lock()` of `Safearrays.h` on the array at
handle 1, whose lock count is 0: the outcome of destroying the guard returned. -/
def legacyGuardDropped : Res Unit × unique_any × World :=
  match legacy.safearray_t.scope_lock { m_ptr := 1 } shortsWorld with
  | (Res.ok g, w) => unique_any.destroy legacy.details.SafeArrayUnlock (g, w)
  | (_, w) => (Res.failFast, ({ m_ptr := 0 }, w))

/-- The dimensions of `zeroAfterOverflow` stored in the opposite order: 0, 65536
and 65536 elements. -/
def zeroFirst : SAFEARRAY :=
  { vt := some 3, cbElements := 4, cLocks := 0, pvData := [],
    rgsabound := [⟨0, 0⟩, ⟨65536, 0⟩, ⟨65536, 0⟩] }

/-- A world holding at handle 1 the array `zeroFirst`, an array of
65536 x 65536 x 0 elements (the bounds are stored in reverse order): it has no
element. -/
def emptyCubeWorld : World :=
  { heap := fun h => if h = 1 then some zeroFirst else none,
    next := 2, allocFails := false, lastError := 0, assertsOn := true, calls := [] }

/-- What `details::SafeArrayDimElementCount(psa, nDim, &n)` leaves in `n` when `n`
was 0 before the call: the value the facade's helper `dim_elements(nDim)`
returns. -/
def dimElements (a : SAFEARRAY) (nDim : Nat) : Nat :=
  match details.SafeArrayDimElementCount (some a) nDim (some 0) with
  | Res.ok (_, n) => n
  | _ => 0

/-! ### Moving views, and programs over several views -/

/-- Modelled from the spec (4.2): the move constructor of `unique_any`. The new
object takes over the handle and the source is left owning nothing (ownership is
exclusive). The pair is the new object and the source afterwards. -/
def unique_any.moveConstruct (src : unique_any) : unique_any × unique_any :=
  ({ m_ptr := src.m_ptr }, { m_ptr := 0 })

/-- Modelled from the spec (4.2): move assignment of `unique_any`, `*this = move(src)`,
for `src` another object than `*this`: the handle owned so far is closed as by
`reset`, the handle of `src` is taken over, and `src` is left owning nothing. The
value returned is `src` afterwards. -/
def unique_any.moveAssign (close : Handle → Exec World Unit) (src : unique_any) :
    Exec (unique_any × World) unique_any := do
  unique_any.reset close src.m_ptr
  return { m_ptr := 0 }

/-- The defaulted move constructor `safearraydata_t(safearraydata_t&&)`: member by
member, `m_unaccess` is move-constructed, and the pointer `m_pBegin` and the size
`m_nSize` are copied. The pair is the new view and the source afterwards. -/
def safearraydata_t.moveConstruct (src : safearraydata_t) : safearraydata_t × safearraydata_t :=
  match unique_any.moveConstruct src.m_unaccess with
  | (g, g0) =>
    ({ m_unaccess := g, m_pBegin := src.m_pBegin, m_nSize := src.m_nSize },
      { src with m_unaccess := g0 })

/-- The defaulted move assignment `operator=(safearraydata_t&&)`, from another view
`src`: member by member, `m_unaccess` is move-assigned, and `m_pBegin` and
`m_nSize` are copied. The value returned is `src` afterwards. -/
def safearraydata_t.moveAssign (src : safearraydata_t) :
    Exec (safearraydata_t × World) safearraydata_t := do
  let g0 ← onUnaccess (unique_any.moveAssign details.SafeArrayUnaccessData src.m_unaccess)
  let self ← getSelf
  setSelf { self with m_pBegin := src.m_pBegin, m_nSize := src.m_nSize }
  return { src with m_unaccess := g0 }

/-- A world holding two arrays of 4-byte elements: `twoByThree` at handle 1 and
`zeroAfterOverflow`, whose count overflows, at handle 2. -/
def twoArraysWorld : World :=
  { heap := fun h =>
      if h = 1 then some twoByThree else if h = 2 then some zeroAfterOverflow else none,
    next := 3, allocFails := false, lastError := 0, assertsOn := true, calls := [] }

/-- A fresh view of 4-byte elements accesses the array at handle 1 of
`twoArraysWorld` and then the array at handle 2: the outcome of the second call. -/
def reaccessedView : Res result × safearraydata_t × World :=
  safearraydata_t.access err_policy.returncode 4 2
    (safearraydata_t.access err_policy.returncode 4 1 ({}, twoArraysWorld)).2

/-- An outcome after which the program does not go on: the process was terminated
or an assertion failed. A returned value and a thrown exception leave the caller
running. -/
def Res.terminated {α : Type} : Res α → Bool
  | Res.failFast => true
  | Res.assertFail => true
  | _ => false

/-- The state invariant of a view: when its guard is empty, its begin pointer is
null and its size is 0. -/
def ViewInv (v : safearraydata_t) : Prop :=
  v.m_unaccess.get = 0 → v.m_pBegin = none ∧ v.size = 0

instance (v : safearraydata_t) : Decidable (ViewInv v) := by
  unfold ViewInv; infer_instance

/-- The operations of a program on views: default construction of a new view,
`access` on the view with the given number, move construction of a new view from
one, move assignment to one from another, and destruction of one. The views alive
are numbered from 0 in the order of their construction. -/
inductive ViewOp where
  | construct
  | access (i : Nat) (p : err_policy) (sizeofT : Nat) (psa : Handle)
  | moveConstruct (src : Nat)
  | moveAssign (dst src : Nat)
  | destroy (i : Nat)

/-- One operation on the views alive and the world. The result is `none` when the
process is terminated. An operation naming a view that is not alive is no
operation of the program and changes nothing, as does the move assignment of a
view to itself. -/
def ViewOp.step (op : ViewOp) (s : List safearraydata_t × World) :
    Option (List safearraydata_t × World) :=
  match op with
  | ViewOp.construct => some (s.1 ++ [{}], s.2)
  | ViewOp.access i p sizeofT psa =>
    match s.1[i]? with
    | none => some s
    | some v =>
      match safearraydata_t.access p sizeofT psa (v, s.2) with
      | (r, (v1, w1)) => if r.terminated then none else some (s.1.set i v1, w1)
  | ViewOp.moveConstruct src =>
    match s.1[src]? with
    | none => some s
    | some v =>
      match safearraydata_t.moveConstruct v with
      | (n, v1) => some (s.1.set src v1 ++ [n], s.2)
  | ViewOp.moveAssign dst src =>
    if dst = src then some s
    else
      match s.1[dst]?, s.1[src]? with
      | some d, some v =>
        match safearraydata_t.moveAssign v (d, s.2) with
        | (Res.ok v1, (d1, w1)) => some ((s.1.set dst d1).set src v1, w1)
        | _ => none
      | _, _ => some s
  | ViewOp.destroy i =>
    match s.1[i]? with
    | none => some s
    | some v =>
      match safearraydata_t.destroy (v, s.2) with
      | (Res.ok _, (_, w1)) => some (s.1.eraseIdx i, w1)
      | _ => none

/-- A program: its operations one after the other, until the process is
terminated. -/
def runViews : List ViewOp → List safearraydata_t × World →
    Option (List safearraydata_t × World)
  | [], s => some s
  | op :: ops, s =>
    match op.step s with
    | none => none
    | some s1 => runViews ops s1

/-- Destruction of all the views given, one after the other. -/
def destroyAll : List safearraydata_t → World → Option World
  | [], w => some w
  | v :: vs, w =>
    match safearraydata_t.destroy (v, w) with
    | (Res.ok _, (_, w1)) => destroyAll vs w1
    | _ => none

/-- Whether the guard of the view holds the array `h`: 1 if so, 0 if not. -/
def holds (v : safearraydata_t) (h : Handle) : Nat :=
  if v.m_unaccess.m_ptr = h ∧ h ≠ 0 then 1 else 0

/-- The number of views among `vs` whose guard holds the array `h`. -/
def holders (vs : List safearraydata_t) (h : Handle) : Nat :=
  (vs.map (fun v => holds v h)).sum

/-- The account of the access locks between a world `w0` and a later world `w`,
with `H h` locks on each array `h` still to release: every array is what it was
but for its lock count, which has grown by `H h`; locks are to release only on
arrays that exist; and among the platform calls made since there are, for each
array, as many access calls as unaccess calls and locks to release. -/
def Balanced (w0 : World) (H : Handle → Nat) (w : World) : Prop :=
  (∀ h, w.deref h = (w0.deref h).map (fun a => { a with cLocks := a.cLocks + H h }))
  ∧ (∀ h, 0 < H h → (w0.deref h).isSome = true)
  ∧ ∃ new, w.calls = w0.calls ++ new
      ∧ ∀ h, new.count (Call.access h) = new.count (Call.unaccess h) + H h

/-- A program over the views of `twoArraysWorld`: a view accesses the array at
handle 1, is moved into a second view, a third view accesses the array at handle
2 (which reports the overflow), the second view is move-assigned to the third, the
first view accesses the array at handle 1 again and again, and the third view is
destroyed. -/
def sampleProgram : List ViewOp :=
  [ViewOp.construct, ViewOp.access 0 err_policy.returncode 4 1, ViewOp.moveConstruct 0,
   ViewOp.construct, ViewOp.access 2 err_policy.exception 4 2, ViewOp.moveAssign 2 1,
   ViewOp.access 0 err_policy.returncode 4 1, ViewOp.access 0 err_policy.returncode 4 1,
   ViewOp.destroy 2]

/-- The world of `accessedView` in a build without `WI_ASSERT`. -/
def accessedWorldRelease : World := { accessedView.2 with assertsOn := false }

/-- The world `shortsWorld` in a build without `WI_ASSERT`. -/
def shortsWorldRelease : World := { shortsWorld with assertsOn := false }

/-- The world `lockedWorld` in a build without `WI_ASSERT`. -/
def lockedWorldRelease : World := { lockedWorld with assertsOn := false }

/-! ## Part 2: lemmas and theorems -/

/-! ### The element-count loop -/

theorem ulong_mul_lt (x y : Nat) (hx : x ≤ ULONG_MAX) (hy : y ≤ ULONG_MAX) :
    x * y < 2 ^ 64 := by
  have h : x * y ≤ ULONG_MAX * ULONG_MAX := Nat.mul_le_mul hx hy
  have h2 : ULONG_MAX * ULONG_MAX < 2 ^ 64 := by decide
  omega

theorem step_exact (acc : Nat) (b : SAFEARRAYBOUND) (hacc : acc ≤ ULONG_MAX)
    (hb : b.cElements ≤ ULONG_MAX) :
    details.SafeArrayCountElements.step acc b =
      if acc * b.cElements > ULONG_MAX then
        Except.error (HRESULT_FROM_WIN32 ERROR_ARITHMETIC_OVERFLOW)
      else Except.ok (acc * b.cElements) := by
  unfold details.SafeArrayCountElements.step
  simp only [Nat.mod_eq_of_lt (ulong_mul_lt acc b.cElements hacc hb)]

/-- The loop either returns the exact product, every partial product staying
within `ULONG`, or reports the overflow status, some partial product exceeding
`ULONG_MAX`. -/
theorem loop_spec (bs : List SAFEARRAYBOUND) :
    ∀ acc : Nat, acc ≤ ULONG_MAX → (∀ b ∈ bs, b.cElements ≤ ULONG_MAX) →
      (details.SafeArrayCountElements.loop bs acc
          = Except.ok (acc * (bs.map (fun b => b.cElements)).prod)
        ∧ ∀ k, k ≤ bs.length →
            acc * ((bs.take k).map (fun b => b.cElements)).prod ≤ ULONG_MAX)
      ∨ (details.SafeArrayCountElements.loop bs acc
          = Except.error (HRESULT_FROM_WIN32 ERROR_ARITHMETIC_OVERFLOW)
        ∧ ∃ k, k ≤ bs.length ∧
            ULONG_MAX < acc * ((bs.take k).map (fun b => b.cElements)).prod) := by
  induction bs with
  | nil =>
    intro acc hacc _
    left
    refine ⟨by simp [details.SafeArrayCountElements.loop], ?_⟩
    intro k _
    simpa using hacc
  | cons b rest ih =>
    intro acc hacc hbs
    have hb : b.cElements ≤ ULONG_MAX := hbs b (List.mem_cons_self b rest)
    have hrest : ∀ x ∈ rest, x.cElements ≤ ULONG_MAX :=
      fun x hx => hbs x (List.mem_cons_of_mem b hx)
    by_cases hov : acc * b.cElements > ULONG_MAX
    · right
      refine ⟨?_, 1, by simp, ?_⟩
      · simp [details.SafeArrayCountElements.loop, step_exact acc b hacc hb, hov]
      · simpa using hov
    · have hle : acc * b.cElements ≤ ULONG_MAX := Nat.le_of_not_gt hov
      have hloop : details.SafeArrayCountElements.loop (b :: rest) acc
          = details.SafeArrayCountElements.loop rest (acc * b.cElements) := by
        simp [details.SafeArrayCountElements.loop, step_exact acc b hacc hb, hov]
      rcases ih (acc * b.cElements) hle hrest with ⟨h1, h2⟩ | ⟨h1, k, hk, h2⟩
      · left
        refine ⟨?_, ?_⟩
        · rw [hloop, h1]; simp [Nat.mul_assoc]
        · intro k hk
          cases k with
          | zero => simpa using hacc
          | succ k =>
            have := h2 k (by simpa using hk)
            simpa [Nat.mul_assoc] using this
      · right
        refine ⟨by rw [hloop, h1], k + 1, by simpa using hk, ?_⟩
        simpa [Nat.mul_assoc] using h2

theorem wf_cElements (a : SAFEARRAY) (hwf : a.WF) :
    ∀ b ∈ a.rgsabound, b.cElements ≤ ULONG_MAX :=
  fun b hb => (hwf b hb).1

theorem overflow_hr_ne_ok : HRESULT_FROM_WIN32 ERROR_ARITHMETIC_OVERFLOW ≠ S_OK := by
  decide

theorem loop_error_eq (bs : List SAFEARRAYBOUND) :
    ∀ (acc : Nat) (e : HRESULT), details.SafeArrayCountElements.loop bs acc = Except.error e →
      e = HRESULT_FROM_WIN32 ERROR_ARITHMETIC_OVERFLOW := by
  induction bs with
  | nil => intro acc e h; simp [details.SafeArrayCountElements.loop] at h
  | cons b rest ih =>
    intro acc e h
    unfold details.SafeArrayCountElements.loop at h
    unfold details.SafeArrayCountElements.step at h
    split at h
    · rename_i hr hstep
      simp only at hstep
      split at hstep
      · cases hstep; cases h; rfl
      · cases hstep
    · exact ih _ e h

theorem lead_le_of_pos (bs : List SAFEARRAYBOUND) (hpos : ∀ b ∈ bs, b.cElements ≠ 0) (k : Nat) :
    ((bs.take k).map (fun b => b.cElements)).prod ≤ (bs.map (fun b => b.cElements)).prod := by
  have hsplit : (bs.map (fun b => b.cElements)).prod
      = ((bs.take k).map (fun b => b.cElements)).prod
        * ((bs.drop k).map (fun b => b.cElements)).prod := by
    rw [← List.prod_append, ← List.map_append, List.take_append_drop]
  have hdrop : 0 < ((bs.drop k).map (fun b => b.cElements)).prod := by
    apply Nat.pos_of_ne_zero
    intro h0
    rw [List.prod_eq_zero_iff] at h0
    obtain ⟨b, hb, hb0⟩ := List.mem_map.1 h0
    exact hpos b (List.mem_of_mem_drop hb) hb0
  rw [hsplit]
  exact Nat.le_mul_of_pos_right _ hdrop

theorem count_ok_of_lead (a : SAFEARRAY) (old : Nat) (hwf : a.WF)
    (hlead : ∀ k, k ≤ a.cDims → a.leadProduct k ≤ ULONG_MAX) :
    details.SafeArrayCountElements (some a) (some old) = Res.ok (S_OK, a.elemProduct) := by
  have hone : (1 : Nat) ≤ ULONG_MAX := by decide
  rcases loop_spec a.rgsabound 1 hone (wf_cElements a hwf) with ⟨h1, _⟩ | ⟨_, k, hk, h2⟩
  · have hfull := hlead a.cDims (Nat.le_refl _)
    have hp : a.elemProduct ≤ ULONG_MAX := by
      simpa [SAFEARRAY.leadProduct, SAFEARRAY.cDims, SAFEARRAY.elemProduct] using hfull
    have hlt : a.elemProduct < 2 ^ 32 := by
      have : ULONG_MAX < 2 ^ 32 := by decide
      omega
    simp only [details.SafeArrayCountElements, h1, Nat.one_mul]
    have hmod : (List.map (fun b => b.cElements) a.rgsabound).prod % 2 ^ 32 = a.elemProduct :=
      Nat.mod_eq_of_lt hlt
    rw [hmod]
  · exfalso
    have := hlead k hk
    simp [SAFEARRAY.leadProduct] at this
    simp at h2
    omega

theorem count_overflow_of_product (a : SAFEARRAY) (old : Nat) (hwf : a.WF)
    (hprod : ULONG_MAX < a.elemProduct) :
    details.SafeArrayCountElements (some a) (some old)
      = Res.ok (HRESULT_FROM_WIN32 ERROR_ARITHMETIC_OVERFLOW, old) := by
  have hone : (1 : Nat) ≤ ULONG_MAX := by decide
  rcases loop_spec a.rgsabound 1 hone (wf_cElements a hwf) with ⟨_, h2⟩ | ⟨h1, _⟩
  · exfalso
    have := h2 a.rgsabound.length (Nat.le_refl _)
    simp [SAFEARRAY.elemProduct] at this hprod
    omega
  · simp [details.SafeArrayCountElements, h1]

theorem count_ok_value (a : SAFEARRAY) (old v : Nat) (hwf : a.WF)
    (hok : details.SafeArrayCountElements (some a) (some old) = Res.ok (S_OK, v)) :
    v = a.elemProduct ∧ a.elemProduct ≤ ULONG_MAX := by
  have hone : (1 : Nat) ≤ ULONG_MAX := by decide
  rcases loop_spec a.rgsabound 1 hone (wf_cElements a hwf) with ⟨h1, h2⟩ | ⟨h1, _⟩
  · have hfull := h2 a.rgsabound.length (Nat.le_refl _)
    have hp : a.elemProduct ≤ ULONG_MAX := by
      simpa [SAFEARRAY.elemProduct] using hfull
    have hlt : a.elemProduct < 2 ^ 32 := by
      have : ULONG_MAX < 2 ^ 32 := by decide
      omega
    simp [details.SafeArrayCountElements, h1] at hok
    refine ⟨?_, hp⟩
    rw [← hok]
    simpa [SAFEARRAY.elemProduct] using Nat.mod_eq_of_lt hlt
  · exfalso
    simp [details.SafeArrayCountElements, h1] at hok
    exact overflow_hr_ne_ok hok.1

/-! ### The facade's `count()` -/

theorem hresult_ok (p : err_policy) : p.HResult S_OK = Res.ok p.success := by
  cases p <;> simp [err_policy.HResult, err_policy.success, FAILED, S_OK]

theorem facade_count_ok (p : err_policy) (w : World) (h : Handle) (a : SAFEARRAY)
    (old n : Nat) (ha : w.deref h = some a)
    (hcount : details.SafeArrayCountElements (some a) (some old) = Res.ok (S_OK, n)) :
    safearray_t.count p (some old) ({ m_ptr := h }, w)
      = (Res.ok (p.success, some n), ({ m_ptr := h }, w)) := by
  simp [safearray_t.count, getSelf, inWorld, getWorld, WI_ASSERT, Exec.finish, bind, Exec.bind,
    pure, unique_any.get, ha, hcount, hresult_ok]

/-! ### Claims C1 to C3: the element count -/

/-- C1, counterexample: a well-formed descriptor of three dimensions with 65536,
65536 and 0 elements has the product 0, which is at most `ULONG_MAX`, and yet
`details::SafeArrayCountElements` returns the overflow status and leaves `*pCount`
as it was; so does the facade's `count()`. -/
theorem count_zero_product_reports_overflow :
    zeroAfterOverflow.WF ∧ 1 ≤ zeroAfterOverflow.cDims
    ∧ zeroAfterOverflow.elemProduct = 0
    ∧ zeroAfterOverflow.elemProduct ≤ ULONG_MAX
    ∧ details.SafeArrayCountElements (some zeroAfterOverflow) (some 7)
        = Res.ok (HRESULT_FROM_WIN32 ERROR_ARITHMETIC_OVERFLOW, 7)
    ∧ details.SafeArrayCountElements (some zeroAfterOverflow) (some 7)
        ≠ Res.ok (S_OK, zeroAfterOverflow.elemProduct)
    ∧ (safearray_t.count err_policy.returncode (some 7) ({ m_ptr := 1 }, zeroWorld)).1
        = Res.ok (result.status (HRESULT_FROM_WIN32 ERROR_ARITHMETIC_OVERFLOW), some 7) := by
  decide

/-- C1, as amended: for a well-formed non-null descriptor in which every product of
the first `k` stored element counts is at most `ULONG_MAX` (which is the case
whenever the full product is at most `ULONG_MAX` and no dimension has 0 elements),
`details::SafeArrayCountElements` returns `S_OK` and writes exactly the product of
all per-dimension element counts to `*pCount`, and so does the facade's `count()`
under every error policy. -/
theorem count_returns_product (a : SAFEARRAY) (old : Nat) (hwf : a.WF)
    (hlead : (∀ k, k ≤ a.cDims → a.leadProduct k ≤ ULONG_MAX)
      ∨ (a.elemProduct ≤ ULONG_MAX ∧ ∀ b ∈ a.rgsabound, b.cElements ≠ 0)) :
    details.SafeArrayCountElements (some a) (some old) = Res.ok (S_OK, a.elemProduct)
    ∧ ∀ (p : err_policy) (w : World) (h : Handle), w.deref h = some a →
        safearray_t.count p (some old) ({ m_ptr := h }, w)
          = (Res.ok (p.success, some a.elemProduct), ({ m_ptr := h }, w)) := by
  have hall : ∀ k, k ≤ a.cDims → a.leadProduct k ≤ ULONG_MAX := by
    rcases hlead with h | ⟨hp, hpos⟩
    · exact h
    · intro k _
      exact Nat.le_trans (lead_le_of_pos a.rgsabound hpos k) hp
  have hcount := count_ok_of_lead a old hwf hall
  exact ⟨hcount, fun p w h ha => facade_count_ok p w h a old _ ha hcount⟩

/-- C1, witness: the 2 x 3 array has no empty dimension and 6 elements. -/
theorem count_returns_product_witness :
    twoByThree.WF
    ∧ (twoByThree.elemProduct ≤ ULONG_MAX ∧ ∀ b ∈ twoByThree.rgsabound, b.cElements ≠ 0)
    ∧ details.SafeArrayCountElements (some twoByThree) (some 7) = Res.ok (S_OK, 6) :=
  ⟨by decide, by decide,
    (count_returns_product twoByThree 7 (by decide) (Or.inr (by decide))).1⟩

/-- C2: for a well-formed non-null descriptor whose product of all per-dimension
element counts exceeds `ULONG_MAX`, `details::SafeArrayCountElements` returns
`HRESULT_FROM_WIN32(ERROR_ARITHMETIC_OVERFLOW)`, which is a failure and not `S_OK`,
and `*pCount` holds afterwards what it held before. -/
theorem count_overflow_reported (a : SAFEARRAY) (old : Nat) (hwf : a.WF)
    (hprod : ULONG_MAX < a.elemProduct) :
    details.SafeArrayCountElements (some a) (some old)
      = Res.ok (HRESULT_FROM_WIN32 ERROR_ARITHMETIC_OVERFLOW, old)
    ∧ HRESULT_FROM_WIN32 ERROR_ARITHMETIC_OVERFLOW ≠ S_OK
    ∧ FAILED (HRESULT_FROM_WIN32 ERROR_ARITHMETIC_OVERFLOW) = true
    ∧ ∀ v, details.SafeArrayCountElements (some a) (some old) ≠ Res.ok (S_OK, v) := by
  have h := count_overflow_of_product a old hwf hprod
  refine ⟨h, overflow_hr_ne_ok, by decide, ?_⟩
  intro v hv
  rw [h] at hv
  simp only [Res.ok.injEq, Prod.mk.injEq] at hv
  exact overflow_hr_ne_ok hv.1

/-- C2, witness: 65536 x 65536 elements are `2^32`, one more than `ULONG_MAX`. -/
theorem count_overflow_reported_witness :
    squareOverflow.WF ∧ ULONG_MAX < squareOverflow.elemProduct
    ∧ details.SafeArrayCountElements (some squareOverflow) (some 7) = Res.ok (0x80070216, 7) :=
  ⟨by decide, by decide, (count_overflow_reported squareOverflow 7 (by decide) (by decide)).1⟩

/-- C3: whenever `details::SafeArrayCountElements` returns `S_OK` for a well-formed
non-null descriptor, the value written to `*pCount` is the exact unbounded product
of all per-dimension element counts. The product is at most `ULONG_MAX`, so the
narrowing to `ULONG` loses nothing; and the accumulator with which the loop enters
an iteration `k` is the product of the first `k` counts, at most `ULONG_MAX`, so
that its 64-bit product with any element count is below `2^64` and does not
wrap. -/
theorem count_ok_is_exact_product (a : SAFEARRAY) (old v : Nat) (hwf : a.WF)
    (hok : details.SafeArrayCountElements (some a) (some old) = Res.ok (S_OK, v)) :
    v = a.elemProduct
    ∧ a.elemProduct ≤ ULONG_MAX
    ∧ a.elemProduct % 2 ^ 32 = a.elemProduct
    ∧ ∀ (k acc : Nat), k ≤ a.cDims →
        details.SafeArrayCountElements.loop (a.rgsabound.take k) 1 = Except.ok acc →
          acc = a.leadProduct k ∧ acc ≤ ULONG_MAX
          ∧ ∀ b ∈ a.rgsabound, acc * b.cElements < 2 ^ 64
              ∧ (acc * b.cElements) % 2 ^ 64 = acc * b.cElements := by
  obtain ⟨hv, hp⟩ := count_ok_value a old v hwf hok
  have hlt : a.elemProduct < 2 ^ 32 := by
    have : ULONG_MAX < 2 ^ 32 := by decide
    omega
  refine ⟨hv, hp, Nat.mod_eq_of_lt hlt, ?_⟩
  intro k acc _ hacc
  have hone : (1 : Nat) ≤ ULONG_MAX := by decide
  have hsub : ∀ b ∈ a.rgsabound.take k, b.cElements ≤ ULONG_MAX :=
    fun b hb => wf_cElements a hwf b (List.mem_of_mem_take hb)
  rcases loop_spec (a.rgsabound.take k) 1 hone hsub with ⟨h1, h2⟩ | ⟨h1, _⟩
  · rw [h1] at hacc
    have hacc2 : (List.map (fun b => b.cElements) (List.take k a.rgsabound)).prod = acc := by
      simpa using hacc
    have hle : acc ≤ ULONG_MAX := by
      have h3 := h2 (a.rgsabound.take k).length (Nat.le_refl _)
      rw [List.take_length, Nat.one_mul, hacc2] at h3
      exact h3
    refine ⟨hacc2.symm, hle, ?_⟩
    intro b hb
    have hlt64 := ulong_mul_lt acc b.cElements hle (wf_cElements a hwf b hb)
    exact ⟨hlt64, Nat.mod_eq_of_lt hlt64⟩
  · rw [h1] at hacc
    cases hacc

/-- C3, witness: the 2 x 3 array, for which `S_OK` and 6 are returned. -/
theorem count_ok_is_exact_product_witness :
    twoByThree.WF
    ∧ details.SafeArrayCountElements (some twoByThree) (some 7) = Res.ok (S_OK, 6)
    ∧ (6 : Nat) = twoByThree.elemProduct :=
  ⟨by decide, by decide,
    (count_ok_is_exact_product twoByThree 7 6 (by decide) (by decide)).1⟩

/-! ### The world and the primitives that lock and unlock -/

theorem deref_of_heap (w : World) (h : Handle) (a : SAFEARRAY) (hh : h ≠ 0)
    (ha : w.heap h = some a) : w.deref h = some a := by
  simp [World.deref, hh, ha]

@[simp] theorem deref_store_same (w : World) (h : Handle) (x : Option SAFEARRAY) (hh : h ≠ 0) :
    (w.store h x).deref h = x := by
  simp [World.store, World.deref, hh]

theorem deref_store_other (w : World) (h k : Handle) (x : Option SAFEARRAY) (hk : k ≠ h) :
    (w.store h x).deref k = w.deref k := by
  simp [World.store, World.deref, hk]

@[simp] theorem deref_logged (w : World) (c : Call) (h : Handle) :
    (w.logged c).deref h = w.deref h := rfl

@[simp] theorem calls_store (w : World) (h : Handle) (x : Option SAFEARRAY) :
    (w.store h x).calls = w.calls := rfl

@[simp] theorem calls_logged (w : World) (c : Call) :
    (w.logged c).calls = w.calls ++ [c] := rfl

@[simp] theorem lockCount_logged (w : World) (c : Call) (h : Handle) :
    (w.logged c).lockCount h = w.lockCount h := rfl

@[simp] theorem lockCount_store_same (w : World) (h : Handle) (a : SAFEARRAY) (hh : h ≠ 0) :
    (w.store h (some a)).lockCount h = some a.cLocks := by
  simp [World.lockCount, hh]

theorem lock_run (w : World) (h : Handle) (a : SAFEARRAY) (hh : h ≠ 0)
    (ha : w.deref h = some a) :
    details.SafeArrayLock h w
      = (Res.ok (),
          (w.store h (some { a with cLocks := a.cLocks + 1 })).logged (Call.lock h)) := by
  simp [details.SafeArrayLock, FAIL_FAST_ASSERT, oleaut.SafeArrayLock, FAIL_FAST_IF_FAILED,
    hh, ha, bind, Exec.bind, FAILED, S_OK]

theorem unlock_run (w : World) (h : Handle) (a : SAFEARRAY) (hh : h ≠ 0)
    (ha : w.deref h = some a) (hc : a.cLocks ≠ 0) :
    details.SafeArrayUnlock h w
      = (Res.ok (),
          (w.store h (some { a with cLocks := a.cLocks - 1 })).logged (Call.unlock h)) := by
  simp [details.SafeArrayUnlock, FAIL_FAST_ASSERT, oleaut.SafeArrayUnlock, FAIL_FAST_IF_FAILED,
    hh, ha, hc, bind, Exec.bind, FAILED, S_OK]

theorem accessData_run (w : World) (h : Handle) (a : SAFEARRAY) (hh : h ≠ 0)
    (ha : w.deref h = some a) :
    details.SafeArrayAccessData h w
      = (Res.ok (some ⟨h, 0⟩),
          (w.store h (some { a with cLocks := a.cLocks + 1 })).logged (Call.access h)) := by
  simp [details.SafeArrayAccessData, FAIL_FAST_ASSERT, oleaut.SafeArrayAccessData,
    FAIL_FAST_IF_FAILED, hh, ha, bind, Exec.bind, pure, FAILED, S_OK]

theorem unaccessData_run (w : World) (h : Handle) (a : SAFEARRAY) (hh : h ≠ 0)
    (ha : w.deref h = some a) (hc : a.cLocks ≠ 0) :
    details.SafeArrayUnaccessData h w
      = (Res.ok (),
          (w.store h (some { a with cLocks := a.cLocks - 1 })).logged (Call.unaccess h)) := by
  simp [details.SafeArrayUnaccessData, FAIL_FAST_ASSERT, oleaut.SafeArrayUnaccessData,
    FAIL_FAST_IF_FAILED, hh, ha, hc, bind, Exec.bind, FAILED, S_OK]

theorem reset_run (close : Handle → Exec World Unit) (g : unique_any) (ptr : Handle)
    (w w1 : World) (hg : g.m_ptr ≠ 0) (hclose : close g.m_ptr w = (Res.ok (), w1)) :
    unique_any.reset close ptr (g, w) = (Res.ok (), ({ m_ptr := ptr }, w1)) := by
  simp [unique_any.reset, getSelf, setSelf, inWorld, bind, Exec.bind, hg, hclose]

theorem reset_empty (close : Handle → Exec World Unit) (ptr : Handle) (w : World) :
    unique_any.reset close ptr ({ m_ptr := 0 }, w) = (Res.ok (), ({ m_ptr := ptr }, w)) := by
  simp [unique_any.reset, getSelf, setSelf, bind, Exec.bind, pure]

theorem release_run (g : unique_any) (w : World) :
    unique_any.release (g, w) = (Res.ok g.m_ptr, ({ m_ptr := 0 }, w)) := by
  simp [unique_any.release, getSelf, setSelf, bind, Exec.bind, pure]

theorem ne_zero_of_deref (w : World) (h : Handle) (a : SAFEARRAY) (ha : w.deref h = some a) :
    h ≠ 0 := by
  intro h0
  simp [World.deref, h0] at ha

theorem count_total (a : SAFEARRAY) (n : Nat) :
    ∃ hr m, details.SafeArrayCountElements (some a) (some n) = Res.ok (hr, m)
      ∧ (FAILED hr = true ∨ hr = S_OK) := by
  cases hloop : details.SafeArrayCountElements.loop a.rgsabound 1 with
  | error e =>
    have he := loop_error_eq a.rgsabound 1 e hloop
    subst he
    exact ⟨HRESULT_FROM_WIN32 ERROR_ARITHMETIC_OVERFLOW, n,
      by simp [details.SafeArrayCountElements, hloop], Or.inl (by decide)⟩
  | ok r =>
    exact ⟨S_OK, r % 2 ^ 32, by simp [details.SafeArrayCountElements, hloop], Or.inr rfl⟩

/-- What `access` does on a view that holds no lock, for an array whose element
size is `sizeof(T)`: the lock is taken, the guard holds the handle, the begin
pointer is set, and the status is that of the element count. -/
theorem access_run (p : err_policy) (w : World) (h : Handle) (a : SAFEARRAY)
    (pb : Option Ptr) (n : Nat) (ha : w.deref h = some a) :
    ∃ hr m,
      details.SafeArrayCountElements (some a) (some n) = Res.ok (hr, m)
      ∧ safearraydata_t.access p a.cbElements h
          ({ m_unaccess := { m_ptr := 0 }, m_pBegin := pb, m_nSize := n }, w)
        = (p.HResult hr,
            ({ m_unaccess := { m_ptr := h }, m_pBegin := some ⟨h, 0⟩, m_nSize := m },
              (w.store h (some { a with cLocks := a.cLocks + 1 })).logged (Call.access h))) := by
  have hh := ne_zero_of_deref w h a ha
  obtain ⟨hr, m, hcount, hcases⟩ := count_total a n
  have hcount2 : details.SafeArrayCountElements
      (some { a with cLocks := a.cLocks + 1 }) (some n) = Res.ok (hr, m) := by
    simpa [details.SafeArrayCountElements] using hcount
  refine ⟨hr, m, hcount, ?_⟩
  rcases hcases with hf | hs
  · simp [safearraydata_t.access, safearraydata_t.access.body, inWorld, getWorld, WI_ASSERT,
      oleaut.SafeArrayGetElemsize, ha, accessData_run w h a hh ha, onUnaccess, reset_empty,
      getSelf, setSelf, Exec.finish, bind, Exec.bind, pure, unique_any.get, hh, hcount2, hf]
  · subst hs
    simp [safearraydata_t.access, safearraydata_t.access.body, inWorld, getWorld, WI_ASSERT,
      oleaut.SafeArrayGetElemsize, ha, accessData_run w h a hh ha, onUnaccess, reset_empty,
      getSelf, setSelf, Exec.finish, bind, Exec.bind, pure, unique_any.get, hh, hcount2,
      FAILED, S_OK]

theorem view_destroy_run (v : safearraydata_t) (w : World) (a : SAFEARRAY)
    (ha : w.deref v.m_unaccess.m_ptr = some a) (hc : a.cLocks ≠ 0) :
    safearraydata_t.destroy (v, w)
      = (Res.ok (),
          ({ v with m_unaccess := { m_ptr := 0 } },
            (w.store v.m_unaccess.m_ptr (some { a with cLocks := a.cLocks - 1 })).logged
              (Call.unaccess v.m_unaccess.m_ptr))) := by
  have hh := ne_zero_of_deref w _ a ha
  simp [safearraydata_t.destroy, onUnaccess, unique_any.destroy,
    reset_run details.SafeArrayUnaccessData v.m_unaccess 0 w _ hh
      (unaccessData_run w _ a hh ha hc)]

/-! ### Claims C4 and C5: lock balance of the view and of the scoped guard -/

/-- C4: for a live array `h` with lock count `c` whose element size is `sizeof(T)`,
`access(h)` on a view that holds no lock takes exactly one access lock: the lock
count is `c + 1`, the only platform call made is one access of `h`, and the view's
guard holds `h`. The outcome is the policy's translation of the status of the
element count, so the call returns under the status-returning policy also when
that status is the overflow error. In every case destroying the view performs
exactly one unaccess of `h` and the lock count is `c` again. -/
theorem view_access_lock_balance (p : err_policy) (w : World) (h : Handle) (a : SAFEARRAY)
    (v0 : safearraydata_t) (ha : w.deref h = some a) (hv : v0.m_unaccess.get = 0) :
    ∃ (v : safearraydata_t) (w1 : World) (hr : HRESULT) (m : Nat),
      safearraydata_t.access p a.cbElements h (v0, w) = (p.HResult hr, (v, w1))
      ∧ details.SafeArrayCountElements (some a) (some v0.m_nSize) = Res.ok (hr, m)
      ∧ (a.WF → ULONG_MAX < a.elemProduct →
          hr = HRESULT_FROM_WIN32 ERROR_ARITHMETIC_OVERFLOW
          ∧ err_policy.returncode.HResult hr = Res.ok (result.status hr))
      ∧ v.m_unaccess.get = h
      ∧ w1.lockCount h = some (a.cLocks + 1)
      ∧ w1.calls = w.calls ++ [Call.access h]
      ∧ ∃ w2 : World,
          safearraydata_t.destroy (v, w1)
            = (Res.ok (), ({ v with m_unaccess := { m_ptr := 0 } }, w2))
          ∧ w2.lockCount h = some a.cLocks
          ∧ w2.calls = w1.calls ++ [Call.unaccess h] := by
  have hh := ne_zero_of_deref w h a ha
  obtain ⟨⟨g⟩, pb, n⟩ := v0
  simp only [unique_any.get] at hv
  subst hv
  obtain ⟨hr, m, hcount, hrun⟩ := access_run p w h a pb n ha
  refine ⟨_, _, hr, m, hrun, hcount, ?_, rfl, ?_, ?_, ?_⟩
  · intro hwf hprod
    have hov := count_overflow_of_product a n hwf hprod
    rw [hov] at hcount
    simp only [Res.ok.injEq, Prod.mk.injEq] at hcount
    exact ⟨hcount.1.symm, rfl⟩
  · simp [hh]
  · simp
  · have hd : ((w.store h (some { a with cLocks := a.cLocks + 1 })).logged (Call.access h)).deref h
        = some { a with cLocks := a.cLocks + 1 } := by simp [hh]
    refine ⟨_, view_destroy_run _ _ _ hd (by simp), ?_, ?_⟩
    · simp [hh]
    · simp

/-- C4, witness: a fresh view under the status-returning policy on the array of
`overflowWorld`, whose element count overflows: `access` returns the overflow
status and the lock is held. -/
theorem view_access_lock_balance_witness :
    overflowWorld.deref 1 = some squareOverflow
    ∧ ∃ (v : safearraydata_t) (w1 : World),
        safearraydata_t.access err_policy.returncode 1 1 ({}, overflowWorld)
          = (Res.ok (result.status 0x80070216), (v, w1))
        ∧ w1.lockCount 1 = some 1 := by
  refine ⟨by decide, ?_⟩
  obtain ⟨v, w1, hr, m, hrun, hcount, _, _, hlock, _⟩ :=
    view_access_lock_balance err_policy.returncode overflowWorld 1 squareOverflow {}
      (by decide) (by decide)
  have hhr : hr = 0x80070216 := by
    have h2 : details.SafeArrayCountElements (some squareOverflow) (some 0)
        = Res.ok (0x80070216, 0) := by decide
    have h3 : Res.ok (hr, m) = (Res.ok (0x80070216, 0) : Res (HRESULT × Nat)) := by
      rw [← hcount, ← h2]
    simp only [Res.ok.injEq, Prod.mk.injEq] at h3
    exact h3.1
  subst hhr
  exact ⟨v, w1, hrun, hlock⟩

/-- C5: for a live array `h` with lock count `c`, `SafeArrayUnlock_scope_exit(h)`,
and the facade's `scope_lock()` on a wrapper owning `h`, make one lock call, raise
the lock count to `c + 1` and return a guard holding `h`. Destroying the guard
makes exactly one unlock call and the count is `c` again; so does `reset()`, after
which the destructor does nothing; after `release()` the guard is empty, the
destructor does nothing and the count stays `c + 1`. -/
theorem scope_exit_guard_unlocks_once (w : World) (h : Handle) (a : SAFEARRAY)
    (ha : w.deref h = some a) :
    ∃ w1 : World,
      SafeArrayUnlock_scope_exit h w = (Res.ok { m_ptr := h }, w1)
      ∧ safearray_t.scope_lock { m_ptr := h } w = (Res.ok { m_ptr := h }, w1)
      ∧ w1.lockCount h = some (a.cLocks + 1)
      ∧ w1.calls = w.calls ++ [Call.lock h]
      ∧ (∃ w2 : World,
          unique_any.destroy details.SafeArrayUnlock ({ m_ptr := h }, w1)
            = (Res.ok (), ({ m_ptr := 0 }, w2))
          ∧ w2.lockCount h = some a.cLocks
          ∧ w2.calls = w1.calls ++ [Call.unlock h])
      ∧ (∃ w2 : World,
          unique_any.reset details.SafeArrayUnlock 0 ({ m_ptr := h }, w1)
            = (Res.ok (), ({ m_ptr := 0 }, w2))
          ∧ w2.lockCount h = some a.cLocks
          ∧ w2.calls = w1.calls ++ [Call.unlock h]
          ∧ unique_any.destroy details.SafeArrayUnlock ({ m_ptr := 0 }, w2)
            = (Res.ok (), ({ m_ptr := 0 }, w2)))
      ∧ unique_any.release ({ m_ptr := h }, w1) = (Res.ok h, ({ m_ptr := 0 }, w1))
      ∧ unique_any.destroy details.SafeArrayUnlock ({ m_ptr := 0 }, w1)
          = (Res.ok (), ({ m_ptr := 0 }, w1)) := by
  have hh := ne_zero_of_deref w h a ha
  have hrun : SafeArrayUnlock_scope_exit h w
      = (Res.ok { m_ptr := h },
          (w.store h (some { a with cLocks := a.cLocks + 1 })).logged (Call.lock h)) := by
    simp [SafeArrayUnlock_scope_exit, lock_run w h a hh ha, bind, Exec.bind, pure]
  have hd : ((w.store h (some { a with cLocks := a.cLocks + 1 })).logged (Call.lock h)).deref h
      = some { a with cLocks := a.cLocks + 1 } := by simp [hh]
  have hreset := reset_run details.SafeArrayUnlock { m_ptr := h } 0 _ _ hh
    (unlock_run _ h _ hh hd (by simp))
  refine ⟨_, hrun, ?_, ?_, ?_, ?_, ?_, ?_, ?_⟩
  · simpa [safearray_t.scope_lock, unique_any.get] using hrun
  · simp [hh]
  · simp
  · exact ⟨_, hreset, by simp [hh], by simp⟩
  · exact ⟨_, hreset, by simp [hh], by simp, by exact reset_empty _ _ _⟩
  · exact release_run _ _
  · exact reset_empty _ _ _

/-- C5, witness: the array of `lockedWorld` has two locks; the guard takes a
third. -/
theorem scope_exit_guard_unlocks_once_witness :
    lockedWorld.deref 1 = some { twoByThree with cLocks := 2 }
    ∧ ∃ w1 : World,
        SafeArrayUnlock_scope_exit 1 lockedWorld = (Res.ok { m_ptr := 1 }, w1)
        ∧ w1.lockCount 1 = some 3 := by
  refine ⟨by decide, ?_⟩
  obtain ⟨w1, hrun, _, hlock, _⟩ :=
    scope_exit_guard_unlocks_once lockedWorld 1 { twoByThree with cLocks := 2 } (by decide)
  exact ⟨w1, hrun, hlock⟩

/-! ### Element access on a one-dimensional array -/

theorem elemOffset_single (b : SAFEARRAYBOUND) (i : Int) (hlo : b.lLbound ≤ i)
    (hhi : i < b.lLbound + b.cElements) :
    oleaut.elemOffset [b] [i] = some (i - b.lLbound).toNat := by
  simp [oleaut.elemOffset, hlo, hhi]

theorem offset_lt (b : SAFEARRAYBOUND) (i : Int) (hlo : b.lLbound ≤ i)
    (hhi : i < b.lLbound + b.cElements) : (i - b.lLbound).toNat < b.cElements := by
  omega

theorem offset_ne (b : SAFEARRAYBOUND) (i j : Int) (hi : b.lLbound ≤ i) (hj : b.lLbound ≤ j)
    (hij : j ≠ i) : (i - b.lLbound).toNat ≠ (j - b.lLbound).toNat := by
  omega

theorem put_run (p : err_policy) (w : World) (h : Handle) (a : SAFEARRAY) (b : SAFEARRAYBOUND)
    (i : Int) (v : Nat) (ha : w.deref h = some a) (hdim : a.rgsabound = [b])
    (hdata : a.pvData.length = b.cElements) (hlo : b.lLbound ≤ i)
    (hhi : i < b.lLbound + b.cElements) :
    safearray_t.put_element p a.cbElements i v ({ m_ptr := h }, w)
      = (Res.ok p.success,
          ({ m_ptr := h },
            (w.store h (some { a with pvData := a.pvData.set (i - b.lLbound).toNat v })).logged
              (Call.putElement h))) := by
  have hoff := offset_lt b i hlo hhi
  simp [safearray_t.put_element, getSelf, inWorld, getWorld, WI_ASSERT, Exec.finish, bind,
    Exec.bind, safearray_t.elemsize, safearray_t.dim, oleaut.SafeArrayGetElemsize,
    oleaut.SafeArrayGetDim, unique_any.get, ha, SAFEARRAY.cDims, hdim,
    oleaut.SafeArrayPutElement, elemOffset_single b i hlo hhi, hdata, hoff, hresult_ok]

theorem get_run (p : err_policy) (w : World) (h : Handle) (a : SAFEARRAY) (b : SAFEARRAYBOUND)
    (i : Int) (old x sz : Nat) (ha : w.deref h = some a) (hsz : sz = a.cbElements)
    (hdim : a.rgsabound = [b]) (hlo : b.lLbound ≤ i) (hhi : i < b.lLbound + b.cElements)
    (hx : a.pvData[(i - b.lLbound).toNat]? = some x) :
    safearray_t.get_element p sz i old ({ m_ptr := h }, w)
      = (Res.ok (p.success, x), ({ m_ptr := h }, w.logged (Call.getElement h))) := by
  simp [safearray_t.get_element, getSelf, inWorld, getWorld, WI_ASSERT, Exec.finish, bind,
    Exec.bind, pure, safearray_t.elemsize, safearray_t.dim, oleaut.SafeArrayGetElemsize,
    oleaut.SafeArrayGetDim, unique_any.get, ha, SAFEARRAY.cDims, hdim,
    oleaut.SafeArrayGetElement, elemOffset_single b i hlo hhi, hx, hresult_ok, hsz]

/-! ### Claim C6: round trip of `put_element` and `get_element` -/

/-- C6: on a one-dimensional array owned by the facade, for every index `i` within
the bounds and every value `v` of a type whose size is the array's element size,
`put_element(i, v)` succeeds under every error policy and a following
`get_element(i, w)` succeeds and yields `v`; at every other index within the
bounds `get_element` yields after the put what it yielded before. -/
theorem put_get_round_trip (p : err_policy) (w : World) (h : Handle) (a : SAFEARRAY)
    (b : SAFEARRAYBOUND) (i : Int) (v old : Nat) (ha : w.deref h = some a)
    (hdim : a.rgsabound = [b]) (hdata : a.pvData.length = b.cElements)
    (hlo : b.lLbound ≤ i) (hhi : i < b.lLbound + b.cElements) :
    ∃ w1 w2 : World,
      safearray_t.put_element p a.cbElements i v ({ m_ptr := h }, w)
        = (Res.ok p.success, ({ m_ptr := h }, w1))
      ∧ safearray_t.get_element p a.cbElements i old ({ m_ptr := h }, w1)
        = (Res.ok (p.success, v), ({ m_ptr := h }, w2))
      ∧ ∀ (j : Int) (oldj : Nat), b.lLbound ≤ j → j < b.lLbound + b.cElements → j ≠ i →
          ∃ (x : Nat) (w3 w4 : World),
            safearray_t.get_element p a.cbElements j oldj ({ m_ptr := h }, w)
              = (Res.ok (p.success, x), ({ m_ptr := h }, w3))
            ∧ safearray_t.get_element p a.cbElements j oldj ({ m_ptr := h }, w1)
              = (Res.ok (p.success, x), ({ m_ptr := h }, w4)) := by
  have hh := ne_zero_of_deref w h a ha
  have hoff := offset_lt b i hlo hhi
  have hd : ((w.store h (some { a with pvData := a.pvData.set (i - b.lLbound).toNat v })).logged
      (Call.putElement h)).deref h
        = some { a with pvData := a.pvData.set (i - b.lLbound).toNat v } := by simp [hh]
  refine ⟨(w.store h (some { a with pvData := a.pvData.set (i - b.lLbound).toNat v })).logged
      (Call.putElement h),
    ((w.store h (some { a with pvData := a.pvData.set (i - b.lLbound).toNat v })).logged
      (Call.putElement h)).logged (Call.getElement h),
    put_run p w h a b i v ha hdim hdata hlo hhi, ?_, ?_⟩
  · refine get_run p _ h _ b i old v _ hd rfl hdim hlo hhi ?_
    simp [List.getElem?_set, hdata, hoff]
  · intro j oldj hjlo hjhi hji
    have hoffj := offset_lt b j hjlo hjhi
    have hlt : (j - b.lLbound).toNat < a.pvData.length := by rw [hdata]; exact hoffj
    refine ⟨a.pvData[(j - b.lLbound).toNat], w.logged (Call.getElement h),
      ((w.store h (some { a with pvData := a.pvData.set (i - b.lLbound).toNat v })).logged
        (Call.putElement h)).logged (Call.getElement h),
      get_run p w h a b j oldj _ _ ha rfl hdim hjlo hjhi (List.getElem?_eq_getElem hlt), ?_⟩
    refine get_run p _ h _ b j oldj _ _ hd rfl hdim hjlo hjhi ?_
    simp [List.getElem?_set, offset_ne b i j hlo hjlo hji, List.getElem?_eq_getElem hlt]

/-- C6, witness: the scenario of the spec. A single-dimension array of five 4-byte
integers with lower bound 0 is created; 10, 20, 30, 40, 50 are put at the indices
0 to 4 and read back, and `count()` is 5 and `ubound()` is 4. The round trip at
index 2 is the theorem at that array. -/
theorem put_get_round_trip_witness :
    fiveInts.2.deref 1 = some (oleaut.newArray VT_I4 4 [⟨5, 0⟩])
    ∧ (∃ w1 w2 : World,
        safearray_t.put_element err_policy.returncode 4 2 30 ({ m_ptr := 1 }, fiveInts.2)
          = (Res.ok (result.status S_OK), ({ m_ptr := 1 }, w1))
        ∧ safearray_t.get_element err_policy.returncode 4 2 0 ({ m_ptr := 1 }, w1)
          = (Res.ok (result.status S_OK, 30), ({ m_ptr := 1 }, w2)))
    ∧ fiveInts.1 = { m_ptr := 1 }
    ∧ roundTripScenario
        = [Res.ok (result.status S_OK, 10), Res.ok (result.status S_OK, 20),
           Res.ok (result.status S_OK, 30), Res.ok (result.status S_OK, 40),
           Res.ok (result.status S_OK, 50)]
    ∧ (safearray_t.count err_policy.returncode (some 0) fiveIntsFilled).1
        = Res.ok (result.status S_OK, some 5)
    ∧ (safearray_t.ubound1 err_policy.returncode (some 0) fiveIntsFilled).1
        = Res.ok (result.status S_OK, some 4) := by
  refine ⟨by decide, ?_, by decide, by decide, by decide, by decide⟩
  obtain ⟨w1, w2, hput, hget, _⟩ :=
    put_get_round_trip err_policy.returncode fiveInts.2 1 (oleaut.newArray VT_I4 4 [⟨5, 0⟩])
      ⟨5, 0⟩ 2 30 0 (by decide) (by decide) (by decide) (by decide) (by decide)
  exact ⟨w1, w2, hput, hget⟩

/-! ### Creation -/

/-- The owned handle is destroyed by `reset`: what happens for each state of the
handle owned so far. -/
theorem facade_reset_eq (psa : Handle) (self : unique_any) (w : World) :
    safearray_t.reset psa (self, w) =
      if self.m_ptr = 0 then (Res.ok (), ({ m_ptr := psa }, w))
      else
        match w.deref self.m_ptr with
        | some old =>
          if old.cLocks = 0 then
            (Res.ok (),
              ({ m_ptr := psa }, (w.store self.m_ptr none).logged (Call.destroy self.m_ptr)))
          else (Res.failFast, (self, w.logged (Call.destroy self.m_ptr)))
        | none => (Res.failFast, (self, w.logged (Call.destroy self.m_ptr))) := by
  by_cases h0 : self.m_ptr = 0
  · simp [safearray_t.reset, unique_any.reset, getSelf, setSelf, bind, Exec.bind, pure, h0]
  · cases hd : w.deref self.m_ptr with
    | none =>
      simp [safearray_t.reset, unique_any.reset, getSelf, setSelf, inWorld, bind, Exec.bind,
        h0, details.SafeArrayDestroy, FAIL_FAST_ASSERT, oleaut.SafeArrayDestroy, hd,
        FAIL_FAST_IF_FAILED, FAILED, E_INVALIDARG]
    | some old =>
      by_cases hc : old.cLocks = 0
      · simp [safearray_t.reset, unique_any.reset, getSelf, setSelf, inWorld, bind, Exec.bind,
          h0, details.SafeArrayDestroy, FAIL_FAST_ASSERT, oleaut.SafeArrayDestroy, hd, hc,
          FAIL_FAST_IF_FAILED, FAILED, S_OK]
      · simp [safearray_t.reset, unique_any.reset, getSelf, setSelf, inWorld, bind, Exec.bind,
          h0, details.SafeArrayDestroy, FAIL_FAST_ASSERT, oleaut.SafeArrayDestroy, hd, hc,
          FAIL_FAST_IF_FAILED, FAILED, DISP_E_ARRAYISLOCKED]

theorem lastErrorHr_failed (w : World) : FAILED (GetLastErrorFailHr w) = true := by
  unfold GetLastErrorFailHr
  split
  · assumption
  · decide

/-- The platform allocation either fails, returning `nullptr` and changing nothing
but the log, or puts the new array at the next handle. -/
theorem platform_create_eq (vt : VARTYPE) (cDims : Nat) (sab : Option (List SAFEARRAYBOUND))
    (w : World) :
    oleaut.SafeArrayCreate vt cDims sab w = (Res.ok 0, w.logged (Call.create 0))
    ∨ ∃ l size, sab = some l ∧ oleaut.elemSizeOf vt = some size ∧ cDims ≠ 0
        ∧ cDims ≤ l.length ∧ w.next ≠ 0
        ∧ oleaut.SafeArrayCreate vt cDims sab w
          = (Res.ok w.next,
              (w.alloc (oleaut.newArray vt size (l.take cDims))).logged (Call.create w.next)) := by
  unfold oleaut.SafeArrayCreate
  split
  · rename_i l size hsz
    split
    · left; rfl
    · rename_i hc
      right
      simp only [not_or] at hc
      exact ⟨l, size, rfl, hsz, hc.1, by omega, hc.2.2.2.2, rfl⟩
  · left; rfl

theorem deref_alloc_next (w : World) (a : SAFEARRAY) (hn : w.next ≠ 0) :
    (w.alloc a).deref w.next = some a := by
  simp [World.alloc, World.deref, hn]

theorem deref_alloc_other (w : World) (a : SAFEARRAY) (h : Handle) (hh : h ≠ w.next) :
    (w.alloc a).deref h = w.deref h := by
  simp [World.alloc, World.deref, hh]

/-- The outcomes of `details::SafeArrayCreate`: an assertion failure that leaves
the world as it was; a failure status, with `nullptr` and nothing but a log entry
added; or `S_OK` with the new array at the next handle. -/
theorem details_create_eq (vt : VARTYPE) (cDims : Nat) (sab : Option (List SAFEARRAYBOUND))
    (w : World) :
    (w.assertsOn = true ∧ (sab = none ∨ cDims = 0)
      ∧ details.SafeArrayCreate vt cDims sab w = (Res.assertFail, w))
    ∨ ((w.assertsOn = false ∨ (sab ≠ none ∧ cDims ≠ 0))
      ∧ details.SafeArrayCreate vt cDims sab w
        = (Res.ok (GetLastErrorFailHr w, 0), w.logged (Call.create 0)))
    ∨ ∃ l size, sab = some l ∧ oleaut.elemSizeOf vt = some size ∧ cDims ≠ 0
        ∧ cDims ≤ l.length ∧ w.next ≠ 0
        ∧ details.SafeArrayCreate vt cDims sab w
          = (Res.ok (S_OK, w.next),
              (w.alloc (oleaut.newArray vt size (l.take cDims))).logged (Call.create w.next)) := by
  by_cases hassert : w.assertsOn = true ∧ (sab = none ∨ cDims = 0)
  · left
    refine ⟨hassert.1, hassert.2, ?_⟩
    rcases hassert with ⟨hon, hs | hc⟩
    · subst hs
      simp [details.SafeArrayCreate, WI_ASSERT, bind, Exec.bind, hon]
    · subst hc
      cases sab <;> simp [details.SafeArrayCreate, WI_ASSERT, bind, Exec.bind, hon]
  · right
    have hpass : w.assertsOn = false ∨ (sab ≠ none ∧ cDims ≠ 0) := by
      by_cases hon : w.assertsOn = true
      · right
        have hno : ¬ (sab = none ∨ cDims = 0) := fun h => hassert ⟨hon, h⟩
        simp only [not_or] at hno
        exact hno
      · left; simpa using hon
    have h1 : ¬ (w.assertsOn = true ∧ sab = none) := by
      rcases hpass with h | ⟨h, _⟩
      · simp [h]
      · exact fun hx => h hx.2
    have h2 : ¬ (w.assertsOn = true ∧ cDims = 0) := by
      rcases hpass with h | ⟨_, h⟩
      · simp [h]
      · exact fun hx => h hx.2
    rcases platform_create_eq vt cDims sab w with hp | ⟨l, size, hs, hsz, hc, hl, hn, hp⟩
    · left
      refine ⟨hpass, ?_⟩
      simp [details.SafeArrayCreate, WI_ASSERT, bind, Exec.bind, pure, h1, h2, hp, getWorld,
        GetLastErrorFailHr, World.logged]
    · right
      refine ⟨l, size, hs, hsz, hc, hl, hn, ?_⟩
      have hvt : details.SafeArrayGetVartype
          ((w.alloc (oleaut.newArray vt size (l.take cDims))).logged (Call.create w.next))
          w.next = vt := by
        simp [details.SafeArrayGetVartype, oleaut.SafeArrayGetVartype, hn,
          deref_alloc_next w _ hn, oleaut.newArray, FAILED, S_OK]
      simp [details.SafeArrayCreate, WI_ASSERT, bind, Exec.bind, pure, h1, h2, hp, getWorld,
        hn, hvt]

/-- The world after a successful platform allocation for `_create`. -/
theorem create_outcome (vt : VARTYPE) (cDims : Nat) (sab : Option (List SAFEARRAYBOUND))
    (self : unique_any) (w : World) :
    (w.assertsOn = true ∧ (sab = none ∨ cDims = 0)
      ∧ safearray_t._create vt cDims sab (self, w) = (Res.assertFail, (self, w)))
    ∨ ((w.assertsOn = false ∨ (sab ≠ none ∧ cDims ≠ 0))
      ∧ safearray_t._create vt cDims sab (self, w)
        = (Res.ok (GetLastErrorFailHr w), (self, w.logged (Call.create 0))))
    ∨ ∃ l size, sab = some l ∧ oleaut.elemSizeOf vt = some size ∧ cDims ≠ 0
        ∧ cDims ≤ l.length ∧ w.next ≠ 0
        ∧ safearray_t._create vt cDims sab (self, w)
          = (if self.m_ptr = 0 then
              (Res.ok S_OK,
                ({ m_ptr := w.next },
                  (w.alloc (oleaut.newArray vt size (l.take cDims))).logged
                    (Call.create w.next)))
            else
              match ((w.alloc (oleaut.newArray vt size (l.take cDims))).logged
                  (Call.create w.next)).deref self.m_ptr with
              | some old =>
                if old.cLocks = 0 then
                  (Res.ok S_OK,
                    ({ m_ptr := w.next },
                      (((w.alloc (oleaut.newArray vt size (l.take cDims))).logged
                        (Call.create w.next)).store self.m_ptr none).logged
                          (Call.destroy self.m_ptr)))
                else
                  (Res.failFast,
                    (self,
                      ((w.alloc (oleaut.newArray vt size (l.take cDims))).logged
                        (Call.create w.next)).logged (Call.destroy self.m_ptr)))
              | none =>
                (Res.failFast,
                  (self,
                    ((w.alloc (oleaut.newArray vt size (l.take cDims))).logged
                      (Call.create w.next)).logged (Call.destroy self.m_ptr)))) := by
  rcases details_create_eq vt cDims sab w with ⟨h1, h2, h3⟩ | ⟨h1, h2⟩
    | ⟨l, size, hs, hsz, hc, hl, hn, h⟩
  · left
    refine ⟨h1, h2, ?_⟩
    simp [safearray_t._create, inWorld, bind, Exec.bind, h3]
  · right; left
    refine ⟨h1, ?_⟩
    simp [safearray_t._create, inWorld, bind, Exec.bind, pure, h2, lastErrorHr_failed]
  · right; right
    refine ⟨l, size, hs, hsz, hc, hl, hn, ?_⟩
    have hS : FAILED S_OK = false := by decide
    simp only [safearray_t._create, inWorld, bind, Exec.bind, pure, h, hS, facade_reset_eq]
    by_cases h0 : self.m_ptr = 0
    · simp [h0, Exec.bind, facade_reset_eq]
    · simp only [h0, if_false]
      cases hd : ((w.alloc (oleaut.newArray vt size (l.take cDims))).logged
          (Call.create w.next)).deref self.m_ptr with
      | none => simp [h0, hd, Exec.bind, facade_reset_eq]
      | some old =>
        by_cases hcl : old.cLocks = 0
        · simp [h0, hd, hcl, Exec.bind, facade_reset_eq]
        · simp [h0, hd, hcl, Exec.bind, facade_reset_eq]

theorem newArray_unlocked (vt : VARTYPE) (size : Nat) (dims : List SAFEARRAYBOUND) :
    (oleaut.newArray vt size dims).cLocks = 0 := rfl

theorem create_body_atomic (vt : VARTYPE) (cDims : Nat) (sab : Option (List SAFEARRAYBOUND)) :
    BodyAtomic (safearray_t._create vt cDims sab) := by
  intro self w
  rcases create_outcome vt cDims sab self w with ⟨_, _, h⟩ | ⟨_, h⟩
    | ⟨l, size, _, _, _, _, hn, h⟩
  · right; rw [h]; exact ⟨rfl, rfl⟩
  · right; rw [h]; exact ⟨rfl, rfl⟩
  · rw [h]
    by_cases h0 : self.m_ptr = 0
    · left
      rw [if_pos h0]
      exact ⟨rfl, hn, Call.create w.next, [], by simp [World.alloc], Or.inl rfl⟩
    · rw [if_neg h0]
      have hne : ∀ x : Option SAFEARRAY,
          ((w.alloc (oleaut.newArray vt size (l.take cDims))).logged
            (Call.create w.next)).deref self.m_ptr = x →
          (x = none ∨ ∃ old, x = some old ∧ old.cLocks ≠ 0) →
          ((w.alloc (oleaut.newArray vt size (l.take cDims))).logged
            (Call.create w.next)).deref self.m_ptr = w.deref self.m_ptr := by
        intro x hx hbad
        have hneq : self.m_ptr ≠ w.next := by
          intro heq
          rw [deref_logged, heq, deref_alloc_next w _ hn] at hx
          rcases hbad with hb | ⟨old, hb, hcl⟩
          · rw [hb] at hx; cases hx
          · rw [hb] at hx
            cases hx
            exact hcl (newArray_unlocked vt size _)
        rw [deref_logged, deref_alloc_other w _ _ hneq]
      cases hd : ((w.alloc (oleaut.newArray vt size (l.take cDims))).logged
          (Call.create w.next)).deref self.m_ptr with
      | none =>
        right
        refine ⟨rfl, ?_⟩
        have := hne none hd (Or.inl rfl)
        simpa [unique_any.get] using this
      | some old =>
        by_cases hcl : old.cLocks = 0
        · left
          dsimp only
          rw [if_pos hcl]
          exact ⟨rfl, hn, Call.create w.next, [Call.destroy self.m_ptr],
            by simp [World.alloc], Or.inl rfl⟩
        · right
          dsimp only
          rw [if_neg hcl]
          refine ⟨rfl, ?_⟩
          have := hne (some old) hd (Or.inr ⟨old, rfl, hcl⟩)
          simpa [unique_any.get] using this

theorem policy_bind_eq {σ : Type} (p : err_policy) (m : Exec σ HRESULT) (s : σ) :
    (m >>= fun hr => Exec.finish (p.HResult hr)) s
      = match m s with
        | (Res.ok hr, s1) => (p.HResult hr, s1)
        | (Res.failFast, s1) => (Res.failFast, s1)
        | (Res.assertFail, s1) => (Res.assertFail, s1)
        | (Res.thrown e, s1) => (Res.thrown e, s1) := by
  simp only [bind, Exec.bind, Exec.finish]
  rcases m s with ⟨r, s1⟩
  cases r <;> rfl

theorem policy_bind_state {σ : Type} (p : err_policy) (m : Exec σ HRESULT) (s : σ) :
    ((m >>= fun hr => Exec.finish (p.HResult hr)) s).2 = (m s).2 := by
  rw [policy_bind_eq]
  rcases m s with ⟨r, s1⟩
  cases r <;> rfl

theorem policy_bind_ok {σ : Type} (p : err_policy) (m : Exec σ HRESULT) (s : σ)
    (h : (m s).1 = Res.ok S_OK) :
    ((m >>= fun hr => Exec.finish (p.HResult hr)) s).1 = Res.ok p.success := by
  rw [policy_bind_eq]
  rcases hm : m s with ⟨r, s1⟩
  rw [hm] at h
  simp only at h
  subst h
  exact hresult_ok p

theorem atomic_of_body (p : err_policy) (m : Exec (unique_any × World) HRESULT)
    (hm : BodyAtomic m) :
    CreationAtomic p (m >>= fun hr => Exec.finish (p.HResult hr)) := by
  intro self w
  have hst := policy_bind_state p m (self, w)
  rcases hm self w with ⟨hok, hnz, c, rest, hcalls, hc⟩ | ⟨hself, hderef⟩
  · have hres := policy_bind_ok p m (self, w) hok
    refine ⟨fun hne => absurd hres hne, fun _ => ⟨hres, ?_, c, rest, ?_, ?_⟩⟩
    · rw [hst]; exact hnz
    · rw [hst]; exact hcalls
    · rw [hst]; exact hc
  · refine ⟨fun _ => ?_, fun hne => ?_⟩
    · rw [hst]; exact ⟨hself, hderef⟩
    · rw [hst] at hne; exact absurd hself hne

/-- The outcomes of the lambda of `create_copy`: a failure status of the platform
copy, with nothing but a log entry added, or the copy at the next handle followed
by the `reset` of the wrapper. -/
theorem copy_outcome (src : Handle) (self : unique_any) (w : World) :
    (∃ hr, FAILED hr = true
      ∧ safearray_t.create_copy.body src (self, w)
        = (Res.ok hr, (self, w.logged (Call.copy src 0))))
    ∨ ∃ a, w.deref src = some a ∧ w.allocFails = false ∧ w.next ≠ 0
        ∧ safearray_t.create_copy.body src (self, w)
          = (if self.m_ptr = 0 then
              (Res.ok S_OK,
                ({ m_ptr := w.next },
                  (w.alloc { a with cLocks := 0 }).logged (Call.copy src w.next)))
            else
              match ((w.alloc { a with cLocks := 0 }).logged
                  (Call.copy src w.next)).deref self.m_ptr with
              | some old =>
                if old.cLocks = 0 then
                  (Res.ok S_OK,
                    ({ m_ptr := w.next },
                      (((w.alloc { a with cLocks := 0 }).logged
                        (Call.copy src w.next)).store self.m_ptr none).logged
                          (Call.destroy self.m_ptr)))
                else
                  (Res.failFast,
                    (self,
                      ((w.alloc { a with cLocks := 0 }).logged
                        (Call.copy src w.next)).logged (Call.destroy self.m_ptr)))
              | none =>
                (Res.failFast,
                  (self,
                    ((w.alloc { a with cLocks := 0 }).logged
                      (Call.copy src w.next)).logged (Call.destroy self.m_ptr)))) := by
  cases hsrc : w.deref src with
  | none =>
    left
    refine ⟨E_INVALIDARG, by decide, ?_⟩
    have hf : FAILED E_INVALIDARG = true := by decide
    simp [safearray_t.create_copy.body, inWorld, bind, Exec.bind, pure, oleaut.SafeArrayCopy,
      hsrc, hf]
  | some a =>
    by_cases hfail : w.allocFails = true ∨ w.next = 0
    · left
      refine ⟨E_OUTOFMEMORY, by decide, ?_⟩
      have hf : FAILED E_OUTOFMEMORY = true := by decide
      simp [safearray_t.create_copy.body, inWorld, bind, Exec.bind, pure,
        oleaut.SafeArrayCopy, hsrc, hfail, hf]
    · right
      simp only [not_or] at hfail
      refine ⟨a, rfl, by simpa using hfail.1, hfail.2, ?_⟩
      have hS : FAILED S_OK = false := by decide
      have hcopy : oleaut.SafeArrayCopy src 0 w
          = (Res.ok (S_OK, w.next),
              (w.alloc { a with cLocks := 0 }).logged (Call.copy src w.next)) := by
        simp [oleaut.SafeArrayCopy, hsrc, hfail.1, hfail.2]
      by_cases h0 : self.m_ptr = 0
      · simp [safearray_t.create_copy.body, inWorld, bind, Exec.bind, pure, hcopy, hS, h0,
          facade_reset_eq]
      · rw [if_neg h0]
        cases hd : ((w.alloc { a with cLocks := 0 }).logged
            (Call.copy src w.next)).deref self.m_ptr with
        | none =>
          simp [safearray_t.create_copy.body, inWorld, bind, Exec.bind, pure, hcopy, hS, h0,
            hd, facade_reset_eq]
        | some old =>
          by_cases hcl : old.cLocks = 0
          · simp [safearray_t.create_copy.body, inWorld, bind, Exec.bind, pure, hcopy, hS, h0,
              hd, hcl, facade_reset_eq]
          · simp [safearray_t.create_copy.body, inWorld, bind, Exec.bind, pure, hcopy, hS, h0,
              hd, hcl, facade_reset_eq]

theorem copy_body_atomic (src : Handle) : BodyAtomic (safearray_t.create_copy.body src) := by
  intro self w
  rcases copy_outcome src self w with ⟨hr, _, h⟩ | ⟨a, _, _, hn, h⟩
  · right; rw [h]; exact ⟨rfl, rfl⟩
  · rw [h]
    by_cases h0 : self.m_ptr = 0
    · left
      rw [if_pos h0]
      exact ⟨rfl, hn, Call.copy src w.next, [], by simp [World.alloc], Or.inr ⟨src, rfl⟩⟩
    · rw [if_neg h0]
      have hne : ∀ x : Option SAFEARRAY,
          ((w.alloc { a with cLocks := 0 }).logged (Call.copy src w.next)).deref self.m_ptr = x →
          (x = none ∨ ∃ old, x = some old ∧ old.cLocks ≠ 0) →
          ((w.alloc { a with cLocks := 0 }).logged (Call.copy src w.next)).deref self.m_ptr
            = w.deref self.m_ptr := by
        intro x hx hbad
        have hneq : self.m_ptr ≠ w.next := by
          intro heq
          rw [deref_logged, heq, deref_alloc_next w _ hn] at hx
          rcases hbad with hb | ⟨old, hb, hcl⟩
          · rw [hb] at hx; cases hx
          · rw [hb] at hx
            cases hx
            exact hcl rfl
        rw [deref_logged, deref_alloc_other w _ _ hneq]
      cases hd : ((w.alloc { a with cLocks := 0 }).logged
          (Call.copy src w.next)).deref self.m_ptr with
      | none =>
        right
        refine ⟨rfl, ?_⟩
        have := hne none hd (Or.inl rfl)
        simpa [unique_any.get] using this
      | some old =>
        by_cases hcl : old.cLocks = 0
        · left
          dsimp only
          rw [if_pos hcl]
          exact ⟨rfl, hn, Call.copy src w.next, [Call.destroy self.m_ptr],
            by simp [World.alloc], Or.inr ⟨src, rfl⟩⟩
        · right
          dsimp only
          rw [if_neg hcl]
          refine ⟨rfl, ?_⟩
          have := hne (some old) hd (Or.inr ⟨old, rfl, hcl⟩)
          simpa [unique_any.get] using this

theorem atomic_after_assert (p : err_policy) (cond : Bool)
    (op : Exec (unique_any × World) result) (hop : CreationAtomic p op) :
    CreationAtomic p (inWorld (WI_ASSERT cond) >>= fun _ => op) := by
  intro self w
  by_cases hfail : (w.assertsOn && !cond) = true
  · have hrun : (inWorld (WI_ASSERT cond) >>= fun _ => op) (self, w)
        = (Res.assertFail, (self, w)) := by
      simp only [bind, Exec.bind, inWorld, WI_ASSERT, hfail, if_true]
    rw [hrun]
    exact ⟨fun _ => ⟨rfl, rfl⟩, fun hne => absurd rfl hne⟩
  · have hrun : (inWorld (WI_ASSERT cond) >>= fun _ => op) (self, w) = op (self, w) := by
      simp only [bind, Exec.bind, inWorld, WI_ASSERT, hfail]
      rfl
    rw [hrun]
    exact hop self w

/-! ### Claim C9: failure atomicity of creation -/

/-- C9: every `create` overload (explicit or inferred type, any number of
dimensions or one) and `create_copy` is failure-atomic under every error policy:
whenever the outcome is not success (a failure status, an exception, a failed
assertion or a fail-fast termination) the wrapper owns exactly the handle it owned
before and the array at that handle is intact; and the owned handle is replaced
only on success, by a non-null handle that the platform allocate or copy call,
made within this call, returned. -/
theorem creation_is_failure_atomic (p : err_policy) :
    (∀ vt cDims sab, CreationAtomic p (safearray_t.create p vt cDims sab))
    ∧ (∀ T cDims sab, CreationAtomic p (safearray_t.createT p T cDims sab))
    ∧ (∀ vt cElements lowerBound,
        CreationAtomic p (safearray_t.create1 p vt cElements lowerBound))
    ∧ (∀ T cElements lowerBound,
        CreationAtomic p (safearray_t.createT1 p T cElements lowerBound))
    ∧ (∀ psaSource, CreationAtomic p (safearray_t.create_copy p psaSource)) := by
  refine ⟨?_, ?_, ?_, ?_, ?_⟩
  · intro vt cDims sab
    exact atomic_of_body p _ (create_body_atomic vt cDims sab)
  · intro T cDims sab
    exact atomic_of_body p _ (create_body_atomic _ cDims sab)
  · intro vt cElements lowerBound
    exact atomic_of_body p _ (create_body_atomic vt 1 _)
  · intro T cElements lowerBound
    exact atomic_of_body p _ (create_body_atomic _ 1 _)
  · intro psaSource
    exact atomic_after_assert p _ _ (atomic_of_body p _ (copy_body_atomic psaSource))

/-! ### Claims C7 and C8: what `create` produces -/

theorem toLONG_of_range (x : Int) (hlo : LONG_MIN ≤ x) (hhi : x ≤ LONG_MAX) : toLONG x = x := by
  unfold toLONG
  unfold LONG_MIN at hlo
  unfold LONG_MAX at hhi
  omega

/-- The shape queries of the facade on a one-dimensional array. -/
theorem single_dim_queries (p : err_policy) (w : World) (h : Handle) (a : SAFEARRAY)
    (b : SAFEARRAYBOUND) (oldL oldU : Int) (oldC oldD : Nat) (ha : w.deref h = some a)
    (hdim : a.rgsabound = [b]) (hN : b.cElements ≤ ULONG_MAX) :
    safearray_t.dim { m_ptr := h } w = 1
    ∧ safearray_t.lbound1 p (some oldL) ({ m_ptr := h }, w)
        = (Res.ok (p.success, some b.lLbound), ({ m_ptr := h }, w))
    ∧ safearray_t.lbound p 1 (some oldL) ({ m_ptr := h }, w)
        = (Res.ok (p.success, some b.lLbound), ({ m_ptr := h }, w))
    ∧ safearray_t.ubound1 p (some oldU) ({ m_ptr := h }, w)
        = (Res.ok (p.success, some (toLONG (b.lLbound + b.cElements - 1))), ({ m_ptr := h }, w))
    ∧ safearray_t.ubound p 1 (some oldU) ({ m_ptr := h }, w)
        = (Res.ok (p.success, some (toLONG (b.lLbound + b.cElements - 1))), ({ m_ptr := h }, w))
    ∧ safearray_t.count p (some oldC) ({ m_ptr := h }, w)
        = (Res.ok (p.success, some b.cElements), ({ m_ptr := h }, w))
    ∧ safearray_t.dim_elements p 1 (some oldD) ({ m_ptr := h }, w)
        = (Res.ok (p.success, some b.cElements), ({ m_ptr := h }, w)) := by
  have hcount : details.SafeArrayCountElements (some a) (some oldC)
      = Res.ok (S_OK, b.cElements) := by
    have hlt : b.cElements < 18446744073709551616 := by
      unfold ULONG_MAX at hN
      omega
    have hlt32 : b.cElements < 4294967296 := by
      unfold ULONG_MAX at hN
      omega
    have hno : ¬ ULONG_MAX < b.cElements := by omega
    simp [details.SafeArrayCountElements, details.SafeArrayCountElements.loop,
      details.SafeArrayCountElements.step, hdim, Nat.mod_eq_of_lt hlt, hno,
      Nat.mod_eq_of_lt hlt32]
  have hbound : oleaut.boundOf a 1 = some b := by
    simp [oleaut.boundOf, SAFEARRAY.cDims, hdim]
  refine ⟨?_, ?_, ?_, ?_, ?_, facade_count_ok p w h a oldC _ ha hcount, ?_⟩
  · simp [safearray_t.dim, oleaut.SafeArrayGetDim, unique_any.get, ha, SAFEARRAY.cDims, hdim]
  · simp [safearray_t.lbound1, getSelf, inWorld, getWorld, WI_ASSERT, Exec.finish, bind,
      Exec.bind, pure, safearray_t.dim, oleaut.SafeArrayGetDim, unique_any.get, ha,
      SAFEARRAY.cDims, hdim, oleaut.SafeArrayGetLBound, hbound, hresult_ok]
  · simp [safearray_t.lbound, getSelf, inWorld, getWorld, WI_ASSERT, Exec.finish, bind,
      Exec.bind, pure, safearray_t.dim, oleaut.SafeArrayGetDim, unique_any.get, ha,
      SAFEARRAY.cDims, hdim, oleaut.SafeArrayGetLBound, hbound, hresult_ok]
  · simp [safearray_t.ubound1, getSelf, inWorld, getWorld, WI_ASSERT, Exec.finish, bind,
      Exec.bind, pure, safearray_t.dim, oleaut.SafeArrayGetDim, unique_any.get, ha,
      SAFEARRAY.cDims, hdim, oleaut.SafeArrayGetUBound, hbound, hresult_ok]
  · simp [safearray_t.ubound, getSelf, inWorld, getWorld, WI_ASSERT, Exec.finish, bind,
      Exec.bind, pure, safearray_t.dim, oleaut.SafeArrayGetDim, unique_any.get, ha,
      SAFEARRAY.cDims, hdim, oleaut.SafeArrayGetUBound, hbound, hresult_ok]
  · simp [safearray_t.dim_elements, getSelf, inWorld, getWorld, WI_ASSERT, Exec.finish, bind,
      Exec.bind, pure, safearray_t.dim, oleaut.SafeArrayGetDim, unique_any.get, ha,
      SAFEARRAY.cDims, hdim, details.SafeArrayDimElementCount, hresult_ok]

theorem hresult_success_inv (p : err_policy) (hr : HRESULT)
    (h : p.HResult hr = Res.ok p.success) : FAILED hr = false := by
  cases p
  · simp only [err_policy.HResult, err_policy.success, Res.ok.injEq, result.status.injEq] at h
    subst h; decide
  · simp only [err_policy.HResult] at h
    split at h
    · cases h
    · simpa using ‹¬FAILED hr = true›
  · simp only [err_policy.HResult] at h
    split at h
    · cases h
    · simpa using ‹¬FAILED hr = true›

theorem owned_ne_next (w : World) (self : unique_any) (hwf : w.WF)
    (hown : self.get = 0 ∨ (w.deref self.get).isSome = true) : self.m_ptr ≠ w.next := by
  intro heq
  rcases hown with h0 | hlive
  · have h1 : 0 < w.next := hwf.1
    simp only [unique_any.get] at h0
    rw [← heq, h0] at h1
    exact Nat.lt_irrefl 0 h1
  · have hnone := hwf.2 w.next (Nat.le_refl _)
    simp [unique_any.get, World.deref, heq, hnone] at hlive

theorem deref_store_none_other (w : World) (h k : Handle) (hk : k ≠ h) :
    ((w.store h none).logged (Call.destroy h)).deref k = w.deref k := by
  rw [deref_logged, deref_store_other w h k none hk]

/-- A `create` that succeeded, from a wrapper that owned nothing or a live array in
a well-formed world: the wrapper owns the next handle, at which the new array
is. -/
theorem create_success_state (p : err_policy) (vt : VARTYPE) (cDims : Nat)
    (sab : Option (List SAFEARRAYBOUND)) (self self1 : unique_any) (w w1 : World)
    (hwf : w.WF) (hown : self.get = 0 ∨ (w.deref self.get).isSome = true)
    (hrun : (safearray_t._create vt cDims sab >>= fun hr => Exec.finish (p.HResult hr))
        (self, w) = (Res.ok p.success, (self1, w1))) :
    ∃ l size, sab = some l ∧ oleaut.elemSizeOf vt = some size ∧ cDims ≠ 0
      ∧ cDims ≤ l.length ∧ w.next ≠ 0 ∧ self1 = { m_ptr := w.next }
      ∧ w1.deref w.next = some (oleaut.newArray vt size (l.take cDims)) := by
  have hne := owned_ne_next w self hwf hown
  rw [policy_bind_eq] at hrun
  rcases create_outcome vt cDims sab self w with ⟨_, _, h⟩ | ⟨_, h⟩
    | ⟨l, size, hs, hsz, hc, hl, hn, h⟩
  · rw [h] at hrun
    cases hrun
  · rw [h] at hrun
    simp only [Prod.mk.injEq] at hrun
    have := hresult_success_inv p _ hrun.1
    rw [lastErrorHr_failed] at this
    cases this
  · refine ⟨l, size, hs, hsz, hc, hl, hn, ?_⟩
    rw [h] at hrun
    by_cases h0 : self.m_ptr = 0
    · rw [if_pos h0] at hrun
      simp only [Prod.mk.injEq] at hrun
      obtain ⟨_, hself, hw⟩ := hrun
      refine ⟨hself.symm, ?_⟩
      rw [← hw, deref_logged, deref_alloc_next w _ hn]
    · rw [if_neg h0] at hrun
      have hnext : w.next ≠ self.m_ptr := fun hx => hne hx.symm
      cases hd : ((w.alloc (oleaut.newArray vt size (l.take cDims))).logged
          (Call.create w.next)).deref self.m_ptr with
      | none =>
        rw [hd] at hrun
        cases hrun
      | some old =>
        rw [hd] at hrun
        by_cases hcl : old.cLocks = 0
        · simp only [hcl, if_true, Prod.mk.injEq] at hrun
          obtain ⟨_, hself, hw⟩ := hrun
          refine ⟨hself.symm, ?_⟩
          rw [← hw, deref_store_none_other _ _ _ hnext, deref_logged,
            deref_alloc_next w _ hn]
        · simp only [hcl, if_false] at hrun
          cases hrun

/-- C7, counterexample: `create(VT_I4, 2, LONG_MAX)` on an empty wrapper succeeds,
with a 32-bit unsigned count `N = 2 > 0` and the `LONG` lower bound
`L = 2147483647`, and `ubound()` then yields `-2147483648`, which is not
`L + N - 1 = 2147483648` (a value no `LONG` holds). -/
theorem create_ubound_wraps :
    (2 : Nat) ≤ ULONG_MAX ∧ LONG_MIN ≤ (2147483647 : Int) ∧ (2147483647 : Int) ≤ LONG_MAX
    ∧ (safearray_t.create1 err_policy.returncode VT_I4 2 2147483647
        ({ m_ptr := 0 }, emptyWorld)).1 = Res.ok (result.status S_OK)
    ∧ (safearray_t.ubound1 err_policy.returncode (some 0)
        (safearray_t.create1 err_policy.returncode VT_I4 2 2147483647
          ({ m_ptr := 0 }, emptyWorld)).2).1
        = Res.ok (result.status S_OK, some (-2147483648))
    ∧ (2147483647 : Int) + (2 : Nat) - 1 ≠ -2147483648 := by
  decide

/-- C7, as amended: when the single-dimension `create(vt, N, L)` succeeds, from a
wrapper that owned nothing or a live array, the owned array satisfies
`dim() == 1`, `lbound() == L`, `count() == N`, `dim_elements(1) == N`, and
`ubound()` is `L + N - 1` reduced to a 32-bit `LONG`, which is `L + N - 1` itself
when `N > 0` and `L + N - 1 <= LONG_MAX`. The typed `create<T>(N, L)` is the
same call with the tag of `T`, and an omitted lower bound is 0. -/
theorem create_single_dimension_shape (p : err_policy) (vt : VARTYPE) (N : Nat) (L : Int)
    (self self1 : unique_any) (w w1 : World) (oldL oldU : Int) (oldC oldD : Nat)
    (hN : N ≤ ULONG_MAX) (hL : LONG_MIN ≤ L) (hwf : w.WF)
    (hown : self.get = 0 ∨ (w.deref self.get).isSome = true)
    (hrun : safearray_t.create1 p vt N L (self, w) = (Res.ok p.success, (self1, w1))) :
    safearray_t.dim self1 w1 = 1
    ∧ safearray_t.lbound1 p (some oldL) (self1, w1) = (Res.ok (p.success, some L), (self1, w1))
    ∧ safearray_t.count p (some oldC) (self1, w1) = (Res.ok (p.success, some N), (self1, w1))
    ∧ safearray_t.dim_elements p 1 (some oldD) (self1, w1)
        = (Res.ok (p.success, some N), (self1, w1))
    ∧ safearray_t.ubound1 p (some oldU) (self1, w1)
        = (Res.ok (p.success, some (toLONG (L + N - 1))), (self1, w1))
    ∧ (0 < N → L + N - 1 ≤ LONG_MAX → toLONG (L + N - 1) = L + N - 1)
    ∧ (∀ T : CType, safearray_t.createT1 p T N L
        = safearray_t.create1 p (details.var_traits.vartype T) N L)
    ∧ safearray_t.create1 p vt N = safearray_t.create1 p vt N 0 := by
  obtain ⟨l, size, hs, _, _, _, _, hself, hderef⟩ :=
    create_success_state p vt 1 (some [⟨N, L⟩]) self self1 w w1 hwf hown hrun
  cases hs
  subst hself
  have hq := single_dim_queries p w1 w.next _ ⟨N, L⟩ oldL oldU oldC oldD hderef
    (by simp [oleaut.newArray]) hN
  obtain ⟨h1, h2, _, h4, _, h6, h7⟩ := hq
  refine ⟨h1, h2, h6, h7, h4, ?_, fun _ => rfl, rfl⟩
  intro hpos hhi
  apply toLONG_of_range _ _ hhi
  omega

/-- C7, witness: five 4-byte integers with lower bound 0, created in the empty
world. -/
theorem create_single_dimension_shape_witness :
    safearray_t.dim fiveInts.1 fiveInts.2 = 1
    ∧ safearray_t.lbound1 err_policy.returncode (some 7) (fiveInts.1, fiveInts.2)
        = (Res.ok (result.status S_OK, some 0), (fiveInts.1, fiveInts.2))
    ∧ safearray_t.count err_policy.returncode (some 7) (fiveInts.1, fiveInts.2)
        = (Res.ok (result.status S_OK, some 5), (fiveInts.1, fiveInts.2))
    ∧ safearray_t.ubound1 err_policy.returncode (some 7) (fiveInts.1, fiveInts.2)
        = (Res.ok (result.status S_OK, some 4), (fiveInts.1, fiveInts.2)) := by
  have h := create_single_dimension_shape err_policy.returncode VT_I4 5 0 { m_ptr := 0 }
    fiveInts.1 emptyWorld fiveInts.2 7 7 7 7 (by decide) (by decide)
    ⟨by decide, fun _ _ => rfl⟩ (Or.inl rfl) (Prod.ext (by decide) rfl)
  exact ⟨h.1, h.2.1, h.2.2.1, h.2.2.2.2.1⟩

theorem platform_put_frame (h k : Handle) (idx : List Int) (pv : Option Nat) (w : World)
    (hk : k ≠ h) :
    ∃ hr w2, oleaut.SafeArrayPutElement h idx pv w = (Res.ok hr, w2)
      ∧ w2.deref k = w.deref k := by
  unfold oleaut.SafeArrayPutElement
  split
  · split
    · exact ⟨_, _, rfl, rfl⟩
    · split
      · refine ⟨_, _, rfl, ?_⟩
        simp only [deref_logged]
        exact deref_store_other w h k _ hk
      · exact ⟨_, _, rfl, rfl⟩
  · exact ⟨_, _, rfl, rfl⟩

theorem wi_assert_fail (cond : Bool) (w : World) (h : (w.assertsOn && !cond) = true) :
    WI_ASSERT cond w = (Res.assertFail, w) := by
  simp only [WI_ASSERT, h, if_true]

theorem wi_assert_pass (cond : Bool) (w : World) (h : ¬ (w.assertsOn && !cond) = true) :
    WI_ASSERT cond w = (Res.ok (), w) := by
  simp only [WI_ASSERT, h, if_false]
  rfl

/-- A `put_element` through a wrapper owning `h` leaves every other array as it
was, whatever the outcome. -/
theorem put_frame (q : err_policy) (sz : Nat) (h k : Handle) (w : World) (hk : k ≠ h) :
    (∀ (i : Int) (v : Nat),
      (safearray_t.put_element q sz i v ({ m_ptr := h }, w)).2.2.deref k = w.deref k)
    ∧ ∀ (idx : List Int) (v : Nat),
      (safearray_t.put_elementN q sz idx v ({ m_ptr := h }, w)).2.2.deref k = w.deref k := by
  constructor
  · intro i v
    obtain ⟨hr, w2, hrun, hp⟩ := platform_put_frame h k [i] (some v) w hk
    by_cases h1 : (w.assertsOn
        && !decide (sz = safearray_t.elemsize { m_ptr := h } w)) = true
    · simp [safearray_t.put_element, getSelf, inWorld, getWorld, Exec.finish, bind, Exec.bind,
        wi_assert_fail _ w h1]
    · by_cases h2 : (w.assertsOn && !decide (safearray_t.dim { m_ptr := h } w = 1)) = true
      · simp [safearray_t.put_element, getSelf, inWorld, getWorld, Exec.finish, bind,
          Exec.bind, wi_assert_pass _ w h1, wi_assert_fail _ w h2]
      · simp [safearray_t.put_element, getSelf, inWorld, getWorld, Exec.finish, bind,
          Exec.bind, wi_assert_pass _ w h1, wi_assert_pass _ w h2, unique_any.get, hrun, hp]
  · intro idx v
    obtain ⟨hr, w2, hrun, hp⟩ := platform_put_frame h k idx (some v) w hk
    by_cases h1 : (w.assertsOn
        && !decide (sz = safearray_t.elemsize { m_ptr := h } w)) = true
    · simp [safearray_t.put_elementN, getSelf, inWorld, getWorld, Exec.finish, bind,
        Exec.bind, wi_assert_fail _ w h1]
    · simp [safearray_t.put_elementN, getSelf, inWorld, getWorld, Exec.finish, bind,
        Exec.bind, wi_assert_pass _ w h1, unique_any.get, hrun, hp]

theorem copy_success_state (p : err_policy) (src : Handle) (a : SAFEARRAY)
    (self self1 : unique_any) (w w1 : World) (hwf : w.WF)
    (hown : self.get = 0 ∨ (w.deref self.get).isSome = true) (ha : w.deref src = some a)
    (hrun : safearray_t.create_copy p src (self, w) = (Res.ok p.success, (self1, w1))) :
    w.next ≠ 0 ∧ w.next ≠ src ∧ self1 = { m_ptr := w.next }
    ∧ w1.deref w.next = some { a with cLocks := 0 }
    ∧ (self.get ≠ src → w1.deref src = some a) := by
  have hne := owned_ne_next w self hwf hown
  have hsrc0 := ne_zero_of_deref w src a ha
  have hnsrc : w.next ≠ src := by
    intro heq
    have hnone := hwf.2 w.next (Nat.le_refl _)
    rw [← heq] at ha
    simp [World.deref, hnone] at ha
  have hpass : ¬ (w.assertsOn && !decide (src ≠ 0)) = true := by simp [hsrc0]
  have heq : safearray_t.create_copy p src (self, w)
      = (safearray_t.create_copy.body src >>= fun hr => Exec.finish (p.HResult hr))
          (self, w) := by
    simp only [safearray_t.create_copy, bind, Exec.bind, inWorld, wi_assert_pass _ w hpass]
  rw [heq, policy_bind_eq] at hrun
  rcases copy_outcome src self w with ⟨hr, hf, h⟩ | ⟨a2, ha2, _, hn, h⟩
  · rw [h] at hrun
    simp only [Prod.mk.injEq] at hrun
    have := hresult_success_inv p _ hrun.1
    rw [hf] at this
    cases this
  · rw [ha] at ha2
    cases ha2
    refine ⟨hn, hnsrc, ?_⟩
    rw [h] at hrun
    by_cases h0 : self.m_ptr = 0
    · rw [if_pos h0] at hrun
      simp only [Prod.mk.injEq] at hrun
      obtain ⟨_, hself, hw⟩ := hrun
      refine ⟨hself.symm, ?_, fun _ => ?_⟩
      · rw [← hw, deref_logged, deref_alloc_next w _ hn]
      · rw [← hw, deref_logged, deref_alloc_other w _ _ hnsrc.symm, ha]
    · rw [if_neg h0] at hrun
      have hnext : w.next ≠ self.m_ptr := fun hx => hne hx.symm
      cases hd : ((w.alloc { a with cLocks := 0 }).logged
          (Call.copy src w.next)).deref self.m_ptr with
      | none =>
        rw [hd] at hrun
        cases hrun
      | some old =>
        rw [hd] at hrun
        by_cases hcl : old.cLocks = 0
        · simp only [hcl, if_true, Prod.mk.injEq] at hrun
          obtain ⟨_, hself, hw⟩ := hrun
          refine ⟨hself.symm, ?_, fun hsne => ?_⟩
          · rw [← hw, deref_store_none_other _ _ _ hnext, deref_logged,
              deref_alloc_next w _ hn]
          · have hsne2 : src ≠ self.m_ptr := fun hx => hsne hx.symm
            rw [← hw, deref_store_none_other _ _ _ hsne2, deref_logged,
              deref_alloc_other w _ _ hnsrc.symm, ha]
        · simp only [hcl, if_false] at hrun
          cases hrun

/-- C10: a successful `create_copy(s)` of a live array `s`, from a wrapper that
owned nothing or a live array, leaves the wrapper owning a non-null handle
distinct from `s`, at which there is an unlocked array with the descriptor of `s`:
the same bounds, element size, tag and element values. When the wrapper did not
own `s` itself, `s` is what it was, and the two are independent: whatever its
outcome, a `put_element` on the copy (single or multiple index, any value, any
policy) leaves the array `s` as it was, and a `put_element` on `s` leaves the copy
as it was. -/
theorem copy_is_independent (p q : err_policy) (src : Handle) (a : SAFEARRAY)
    (self self1 : unique_any) (w w1 : World) (hwf : w.WF)
    (hown : self.get = 0 ∨ (w.deref self.get).isSome = true) (ha : w.deref src = some a)
    (hrun : safearray_t.create_copy p src (self, w) = (Res.ok p.success, (self1, w1))) :
    self1.get ≠ src ∧ self1.get ≠ 0
    ∧ w1.deref self1.get = some { a with cLocks := 0 }
    ∧ (self.get ≠ src →
        w1.deref src = some a
        ∧ (∀ (sz : Nat) (i : Int) (v : Nat),
            (safearray_t.put_element q sz i v (self1, w1)).2.2.deref src = some a)
        ∧ (∀ (sz : Nat) (idx : List Int) (v : Nat),
            (safearray_t.put_elementN q sz idx v (self1, w1)).2.2.deref src = some a)
        ∧ (∀ (sz : Nat) (i : Int) (v : Nat),
            (safearray_t.put_element q sz i v ({ m_ptr := src }, w1)).2.2.deref self1.get
              = some { a with cLocks := 0 })
        ∧ ∀ (sz : Nat) (idx : List Int) (v : Nat),
            (safearray_t.put_elementN q sz idx v ({ m_ptr := src }, w1)).2.2.deref self1.get
              = some { a with cLocks := 0 }) := by
  obtain ⟨hn, hnsrc, hself, hcopy, hsrc⟩ :=
    copy_success_state p src a self self1 w w1 hwf hown ha hrun
  subst hself
  refine ⟨hnsrc, hn, hcopy, fun hsne => ?_⟩
  have hs := hsrc hsne
  refine ⟨hs, ?_, ?_, ?_, ?_⟩
  · intro sz i v
    rw [(put_frame q sz w.next src w1 hnsrc.symm).1 i v, hs]
  · intro sz idx v
    rw [(put_frame q sz w.next src w1 hnsrc.symm).2 idx v, hs]
  · intro sz i v
    simp only [unique_any.get]
    rw [(put_frame q sz src w.next w1 hnsrc).1 i v, hcopy]
  · intro sz idx v
    simp only [unique_any.get]
    rw [(put_frame q sz src w.next w1 hnsrc).2 idx v, hcopy]

/-- C10, witness: the 2 x 3 array at handle 1 of `lockedWorld`, which has two
locks, is copied by an empty wrapper; the copy is at handle 2. Putting 99 at the
indices (1, 0) of the copy changes the first element of the copy and none of the
source. -/
theorem copy_is_independent_witness :
    copiedWorld.1 = { m_ptr := 2 }
    ∧ copiedWorld.2.deref 2 = some { twoByThree with cLocks := 0 }
    ∧ copiedWorld.2.deref 1 = some { twoByThree with cLocks := 2 }
    ∧ (safearray_t.put_elementN err_policy.returncode 4 [1, 0] 99 copiedWorld).1
        = Res.ok (result.status S_OK)
    ∧ ((safearray_t.put_elementN err_policy.returncode 4 [1, 0] 99 copiedWorld).2.2.deref 2).map
        (fun c => c.pvData) = some [99, 2, 3, 4, 5, 6]
    ∧ (safearray_t.put_elementN err_policy.returncode 4 [1, 0] 99
        (copiedWorld.1, copiedWorld.2)).2.2.deref 1 = some { twoByThree with cLocks := 2 } := by
  have h := copy_is_independent err_policy.returncode err_policy.returncode 1
    { twoByThree with cLocks := 2 } { m_ptr := 0 } copiedWorld.1 lockedWorld copiedWorld.2
    ⟨by decide, fun h hh => by
      have h2 : (2 : Nat) ≤ h := hh
      have h1 : h ≠ 1 := by
        intro e
        rw [e] at h2
        exact absurd h2 (by decide)
      simp [lockedWorld, h1]⟩
    (Or.inl rfl) (by decide) (Prod.ext (by decide) rfl)
  exact ⟨by decide, by decide, by decide, by decide, by decide,
    (h.2.2.2 (by decide)).2.2.1 4 [1, 0] 99⟩

/-! ### Claim C11: `access` with a null handle -/

theorem access_null_eq (p : err_policy) (sizeofT : Nat) (v0 : safearraydata_t) (w : World) :
    safearraydata_t.access p sizeofT 0 (v0, w)
      = (if (w.assertsOn && !decide (sizeofT = 0)) = true then Res.assertFail
          else Res.failFast, (v0, w)) := by
  have hsz : oleaut.SafeArrayGetElemsize w 0 = 0 := by
    simp [oleaut.SafeArrayGetElemsize, World.deref]
  by_cases h1 : (w.assertsOn && !decide (sizeofT = 0)) = true
  · rw [if_pos h1]
    simp [safearraydata_t.access, safearraydata_t.access.body, inWorld, getWorld, bind,
      Exec.bind, hsz, wi_assert_fail _ w h1]
  · rw [if_neg h1]
    simp [safearraydata_t.access, safearraydata_t.access.body, inWorld, getWorld, bind,
      Exec.bind, hsz, wi_assert_pass _ w h1, details.SafeArrayAccessData, FAIL_FAST_ASSERT]

/-- C11, counterexample: under the status-returning policy, `access(nullptr)` on a
fresh view of 4-byte elements does not return `E_INVALIDARG`: where `WI_ASSERT` is
compiled in the element-size assertion fails (a null handle has element size 0),
and where it is not the call terminates the process at the non-null check of
`details::SafeArrayAccessData`. -/
theorem access_null_not_invalidarg :
    (safearraydata_t.access err_policy.returncode 4 0 ({}, emptyWorld)).1 = Res.assertFail
    ∧ (safearraydata_t.access err_policy.returncode 4 0 ({}, releaseWorld)).1 = Res.failFast
    ∧ (safearraydata_t.access err_policy.returncode 4 0 ({}, emptyWorld)).1
        ≠ Res.ok (result.status E_INVALIDARG)
    ∧ (safearraydata_t.access err_policy.returncode 4 0 ({}, releaseWorld)).1
        ≠ Res.ok (result.status E_INVALIDARG) := by
  decide

/-- C11, as amended: `safearraydata_t::access` called with a null handle never
returns and reports no recoverable status or exception, under any error policy:
where `WI_ASSERT` is compiled in (and `sizeof(T)` is not 0) the element-size
assertion fails, and otherwise the call is terminated by the fail-fast check of
`details::SafeArrayAccessData`. In either case no platform call is made, so no
access lock is taken, and the view is left as it was (empty, if it was). -/
theorem access_null_is_fatal (p : err_policy) (sizeofT : Nat) (v0 : safearraydata_t)
    (w : World) :
    (w.assertsOn = true → sizeofT ≠ 0 →
        safearraydata_t.access p sizeofT 0 (v0, w) = (Res.assertFail, (v0, w)))
    ∧ (w.assertsOn = false →
        safearraydata_t.access p sizeofT 0 (v0, w) = (Res.failFast, (v0, w)))
    ∧ ((safearraydata_t.access p sizeofT 0 (v0, w)).1 = Res.assertFail
        ∨ (safearraydata_t.access p sizeofT 0 (v0, w)).1 = Res.failFast)
    ∧ (safearraydata_t.access p sizeofT 0 (v0, w)).2 = (v0, w)
    ∧ (safearraydata_t.access p sizeofT 0 ({}, w)).2.1.size = 0
    ∧ (safearraydata_t.access p sizeofT 0 ({}, w)).2.1.m_unaccess.get = 0 := by
  refine ⟨?_, ?_, ?_, ?_, ?_, ?_⟩
  · intro hon hsz
    rw [access_null_eq, if_pos (by simp [hon, hsz])]
  · intro hoff
    rw [access_null_eq, if_neg (by simp [hoff])]
  · rw [access_null_eq]
    by_cases h1 : (w.assertsOn && !decide (sizeofT = 0)) = true
    · left; rw [if_pos h1]
    · right; rw [if_neg h1]
  · rw [access_null_eq]
  · rw [access_null_eq]; rfl
  · rw [access_null_eq]; rfl

/-! ### Claim C12: the range of a view after a successful `access` -/

theorem reset_eq (close : Handle → Exec World Unit) (g : unique_any) (ptr : Handle)
    (w : World) :
    unique_any.reset close ptr (g, w) =
      if g.m_ptr = 0 then (Res.ok (), ({ m_ptr := ptr }, w))
      else
        match close g.m_ptr w with
        | (Res.ok _, w1) => (Res.ok (), ({ m_ptr := ptr }, w1))
        | (Res.failFast, w1) => (Res.failFast, (g, w1))
        | (Res.assertFail, w1) => (Res.assertFail, (g, w1))
        | (Res.thrown e, w1) => (Res.thrown e, (g, w1)) := by
  by_cases h0 : g.m_ptr = 0
  · simp [unique_any.reset, getSelf, setSelf, bind, Exec.bind, pure, h0]
  · rw [if_neg h0]
    rcases hc : close g.m_ptr w with ⟨r, w1⟩
    cases r <;>
      simp [unique_any.reset, getSelf, setSelf, inWorld, bind, Exec.bind, h0, hc]

/-- Releasing an access lock either terminates the process or returns, and leaves
the bounds of every array as they were. -/
theorem unaccess_outcome (g : Handle) (w : World) :
    ∃ w1, (details.SafeArrayUnaccessData g w = (Res.failFast, w1)
        ∨ details.SafeArrayUnaccessData g w = (Res.ok (), w1))
      ∧ ∀ k a, w.deref k = some a →
          ∃ a2, w1.deref k = some a2 ∧ a2.rgsabound = a.rgsabound := by
  by_cases hg : g = 0
  · refine ⟨w, Or.inl ?_, fun k a hk => ⟨a, hk, rfl⟩⟩
    simp [details.SafeArrayUnaccessData, FAIL_FAST_ASSERT, bind, Exec.bind, hg]
  · cases hd : w.deref g with
    | none =>
      refine ⟨w.logged (Call.unaccess g), Or.inl ?_, fun k a hk => ⟨a, hk, rfl⟩⟩
      simp [details.SafeArrayUnaccessData, FAIL_FAST_ASSERT, oleaut.SafeArrayUnaccessData,
        FAIL_FAST_IF_FAILED, bind, Exec.bind, hg, hd, FAILED, E_INVALIDARG]
    | some b =>
      by_cases hc : b.cLocks = 0
      · refine ⟨w.logged (Call.unaccess g), Or.inl ?_, fun k a hk => ⟨a, hk, rfl⟩⟩
        simp [details.SafeArrayUnaccessData, FAIL_FAST_ASSERT, oleaut.SafeArrayUnaccessData,
          FAIL_FAST_IF_FAILED, bind, Exec.bind, hg, hd, hc, FAILED, E_UNEXPECTED]
      · refine ⟨_, Or.inr (unaccessData_run w g b hg hd hc), ?_⟩
        intro k a hk
        by_cases hkg : k = g
        · subst hkg
          rw [hd] at hk
          cases hk
          refine ⟨{ b with cLocks := b.cLocks - 1 }, ?_, rfl⟩
          simp [hg]
        · refine ⟨a, ?_, rfl⟩
          rw [deref_logged, deref_store_other w g k _ hkg, hk]

theorem count_congr (a b : SAFEARRAY) (x : Option Nat) (h : a.rgsabound = b.rgsabound) :
    details.SafeArrayCountElements (some a) x = details.SafeArrayCountElements (some b) x := by
  cases x <;> simp [details.SafeArrayCountElements, h]

/-- A successful `access(h)` on any view: the begin pointer is the start of the
storage of `h`, the guard holds `h`, and the size is the element count that
`details::SafeArrayCountElements` computes with `S_OK`. -/
theorem access_success_view (p : err_policy) (sz : Nat) (h : Handle) (a : SAFEARRAY)
    (v0 v : safearraydata_t) (w w1 : World) (ha : w.deref h = some a)
    (hrun : safearraydata_t.access p sz h (v0, w) = (Res.ok p.success, (v, w1))) :
    v.m_pBegin = some ⟨h, 0⟩ ∧ v.m_unaccess = { m_ptr := h }
    ∧ details.SafeArrayCountElements (some a) (some v0.m_nSize) = Res.ok (S_OK, v.m_nSize)
    ∧ ∃ a1, w1.deref h = some a1 ∧ a1.rgsabound = a.rgsabound := by
  have hh := ne_zero_of_deref w h a ha
  have heq : safearraydata_t.access p sz h (v0, w)
      = (safearraydata_t.access.body sz h >>= fun hr => Exec.finish (p.HResult hr))
          (v0, w) := rfl
  rw [heq, policy_bind_eq] at hrun
  by_cases hassert : (w.assertsOn && !decide (sz = oleaut.SafeArrayGetElemsize w h)) = true
  · simp [safearraydata_t.access.body, inWorld, getWorld, bind, Exec.bind,
      wi_assert_fail _ w hassert] at hrun
  · have hd1 : ((w.store h (some { a with cLocks := a.cLocks + 1 })).logged
        (Call.access h)).deref h = some { a with cLocks := a.cLocks + 1 } := by simp [hh]
    by_cases g0 : v0.m_unaccess.m_ptr = 0
    · obtain ⟨hr, m, hcount, hcases⟩ := count_total { a with cLocks := a.cLocks + 1 } v0.m_nSize
      have hcount0 := hcount
      rw [count_congr { a with cLocks := a.cLocks + 1 } a _ rfl] at hcount0
      rcases hcases with hf | hs
      · simp [safearraydata_t.access.body, inWorld, getWorld, bind, Exec.bind, pure,
          wi_assert_pass _ w hassert, accessData_run w h a hh ha, getSelf, setSelf,
          onUnaccess, reset_eq, g0, Exec.finish, unique_any.get, hd1, hcount, hf] at hrun
        have := hresult_success_inv p _ hrun.1
        rw [hf] at this
        cases this
      · subst hs
        simp [safearraydata_t.access.body, inWorld, getWorld, bind, Exec.bind, pure,
          wi_assert_pass _ w hassert, accessData_run w h a hh ha, getSelf, setSelf,
          onUnaccess, reset_eq, g0, Exec.finish, unique_any.get, hd1, hcount, FAILED,
          S_OK] at hrun
        obtain ⟨_, hv, hw⟩ := hrun
        subst hv
        refine ⟨rfl, rfl, hcount0, { a with cLocks := a.cLocks + 1 }, ?_, rfl⟩
        rw [← hw]
        exact hd1
    · obtain ⟨w2, hcl, hbounds⟩ := unaccess_outcome v0.m_unaccess.m_ptr
        ((w.store h (some { a with cLocks := a.cLocks + 1 })).logged (Call.access h))
      rcases hcl with hcl | hcl
      · simp [safearraydata_t.access.body, inWorld, getWorld, bind, Exec.bind, pure,
          wi_assert_pass _ w hassert, accessData_run w h a hh ha, getSelf, setSelf,
          onUnaccess, reset_eq, g0, hcl] at hrun
      · obtain ⟨a2, hd2, hb2⟩ := hbounds h _ hd1
        obtain ⟨hr, m, hcount, hcases⟩ := count_total a2 v0.m_nSize
        have hcount0 := hcount
        rw [count_congr a2 a _ hb2] at hcount0
        rcases hcases with hf | hs
        · simp [safearraydata_t.access.body, inWorld, getWorld, bind, Exec.bind, pure,
            wi_assert_pass _ w hassert, accessData_run w h a hh ha, getSelf, setSelf,
            onUnaccess, reset_eq, g0, hcl, Exec.finish, unique_any.get, hd2, hcount,
            hf] at hrun
          have := hresult_success_inv p _ hrun.1
          rw [hf] at this
          cases this
        · subst hs
          simp [safearraydata_t.access.body, inWorld, getWorld, bind, Exec.bind, pure,
            wi_assert_pass _ w hassert, accessData_run w h a hh ha, getSelf, setSelf,
            onUnaccess, reset_eq, g0, hcl, Exec.finish, unique_any.get, hd2, hcount,
            FAILED, S_OK] at hrun
          obtain ⟨_, hv, hw⟩ := hrun
          subst hv
          refine ⟨rfl, rfl, hcount0, a2, ?_, hb2⟩
          rw [← hw]
          exact hd2

theorem nthIter_some (h : Handle) (o n : Nat) :
    nthIter (some ⟨h, o⟩) n = some ⟨h, o + n⟩ := by
  induction n with
  | zero => rfl
  | succ n ih => simp [nthIter, ih, Ptr.add, Nat.add_assoc]

/-- C12: after a successful `access(h)` on a live array `h` with a well-formed
descriptor, under any error policy and on any view, `size()` is the product of the
per-dimension element counts of `h` (which is then at most `ULONG_MAX`), `begin()`
is the start of the storage of `h`, `end()` is `begin() + size()`, so that
stepping from `begin()` reaches `end()` after exactly `size()` steps and not
before, and `empty()` is true iff that count is 0. -/
theorem view_range_after_access (p : err_policy) (sz : Nat) (h : Handle) (a : SAFEARRAY)
    (v0 v : safearraydata_t) (w w1 : World) (ha : w.deref h = some a) (hwf : a.WF)
    (hrun : safearraydata_t.access p sz h (v0, w) = (Res.ok p.success, (v, w1))) :
    v.size = a.elemProduct
    ∧ a.elemProduct ≤ ULONG_MAX
    ∧ v.begin w1 = (Res.ok (some ⟨h, 0⟩), w1)
    ∧ v.end_ w1 = (Res.ok (Ptr.add (some ⟨h, 0⟩) v.size), w1)
    ∧ nthIter (some ⟨h, 0⟩) v.size = Ptr.add (some ⟨h, 0⟩) v.size
    ∧ (∀ i, i < v.size → nthIter (some ⟨h, 0⟩) i ≠ Ptr.add (some ⟨h, 0⟩) v.size)
    ∧ (v.empty = true ↔ a.elemProduct = 0) := by
  obtain ⟨hb, _, hcount, _⟩ := access_success_view p sz h a v0 v w w1 ha hrun
  obtain ⟨hsize, hle⟩ := count_ok_value a v0.m_nSize v.m_nSize hwf hcount
  refine ⟨hsize, hle, ?_, ?_, ?_, ?_, ?_⟩
  · simp [safearraydata_t.begin, WI_ASSERT, bind, Exec.bind, pure, hb]
  · simp [safearraydata_t.end_, safearraydata_t.size, WI_ASSERT, bind, Exec.bind, pure, hb]
  · rw [nthIter_some]; rfl
  · intro i hi
    rw [nthIter_some]
    simp only [Ptr.add, Option.map_some', ne_eq, Option.some.injEq, Ptr.mk.injEq, true_and]
    omega
  · simp [safearraydata_t.empty, ← hsize]

/-- C12, witness: a fresh view on the 2 x 3 array of `lockedWorld` has 6 elements
in a row. -/
theorem view_range_after_access_witness :
    accessedView.1.size = 6
    ∧ accessedView.1.begin accessedView.2 = (Res.ok (some ⟨1, 0⟩), accessedView.2)
    ∧ accessedView.1.end_ accessedView.2 = (Res.ok (some ⟨1, 6⟩), accessedView.2)
    ∧ accessedView.1.empty = false := by
  have h := view_range_after_access err_policy.returncode 4 1 { twoByThree with cLocks := 2 }
    {} accessedView.1 lockedWorld accessedView.2 (by decide) (by decide)
    (Prod.ext (by decide) rfl)
  have hsize : accessedView.1.size = 6 := by decide
  refine ⟨hsize, h.2.2.1, ?_, by decide⟩
  have hend := h.2.2.2.1
  rw [hsize] at hend
  exact hend

/-! ### Claims C13 and C14: indexing a view, and the guard on a null handle -/

theorem nthIter_eq_add (b : Option Ptr) (n : Nat) : nthIter b n = Ptr.add b n := by
  induction n with
  | zero => cases b <;> rfl
  | succ n ih =>
    cases b with
    | none => simp [nthIter, ih, Ptr.add]
    | some q => simp [nthIter, ih, Ptr.add, Nat.add_assoc]

/-- C13, counterexample: the view `accessedView` has size 6; in a build without
`WI_ASSERT`, `operator[](6)` does not fail: both overloads return the address
`begin() + 6`, one past the last element, where the array has no element. With
`WI_ASSERT` compiled in the same call ends in the failed bounds assertion. -/
theorem index_unchecked_without_asserts :
    accessedView.1.size = 6
    ∧ accessedWorldRelease.assertsOn = false
    ∧ accessedView.1.m_pBegin = some ⟨1, 0⟩
    ∧ (accessedView.1.index 6 accessedWorldRelease).1 = Res.ok (some ⟨1, 6⟩)
    ∧ (accessedView.1.index_const 6 accessedWorldRelease).1 = Res.ok (some ⟨1, 6⟩)
    ∧ (accessedView.1.index 6 accessedWorldRelease).1 ≠ Res.assertFail
    ∧ accessedWorldRelease.read (some ⟨1, 6⟩) = none
    ∧ (accessedView.1.index 6 accessedView.2).1 = Res.assertFail := by
  decide

/-- C13, as amended: for every view and every index `i`, `operator[](i)` with
`i < size()` yields the element at offset `i` from `begin()`: the address
`begin() + i`, which is where the `i`-th step of iterating from `begin()` stands,
which comes before `end()`, and which designates element `i` of the storage of the
accessed array. With `i >= size()`, where `WI_ASSERT` is compiled in, the
defensive bounds assertion fails and no element is yielded; where it is not
compiled in, no check is made and the address `begin() + i` is returned for every
`i`. The const and non-const overloads agree. -/
theorem index_is_bounds_checked (v : safearraydata_t) (w : World) (i : Nat) :
    (i < v.size →
        v.index i w = (Res.ok (Ptr.add v.m_pBegin i), w)
        ∧ Ptr.add v.m_pBegin i = nthIter v.m_pBegin i
        ∧ (∀ b, v.begin w = (Res.ok b, w) → Ptr.add b i = Ptr.add v.m_pBegin i)
        ∧ (∀ b e, b ≠ none → v.begin w = (Res.ok b, w) → v.end_ w = (Res.ok e, w) →
            nthIter b i ≠ e)
        ∧ ∀ h a, v.m_pBegin = some ⟨h, 0⟩ → w.deref h = some a →
            w.read (Ptr.add v.m_pBegin i) = a.pvData[i]?)
    ∧ (v.size ≤ i → w.assertsOn = true → v.index i w = (Res.assertFail, w))
    ∧ (w.assertsOn = false → v.index i w = (Res.ok (Ptr.add v.m_pBegin i), w))
    ∧ v.index_const i = v.index i := by
  refine ⟨fun hi => ⟨?_, (nthIter_eq_add _ _).symm, ?_, ?_, ?_⟩, ?_, ?_, rfl⟩
  · have hi2 : i < v.m_nSize := hi
    simp [safearraydata_t.index, WI_ASSERT, bind, Exec.bind, pure, hi2]
  · intro b hb
    by_cases hassert : (w.assertsOn && !v.m_pBegin.isSome) = true
    · simp [safearraydata_t.begin, bind, Exec.bind, wi_assert_fail _ w hassert] at hb
    · simp [safearraydata_t.begin, bind, Exec.bind, pure, wi_assert_pass _ w hassert] at hb
      rw [hb]
  · intro b e hne hb he
    by_cases hassert : (w.assertsOn && !v.m_pBegin.isSome) = true
    · simp [safearraydata_t.begin, bind, Exec.bind, wi_assert_fail _ w hassert] at hb
    · simp [safearraydata_t.begin, bind, Exec.bind, pure, wi_assert_pass _ w hassert] at hb
      simp [safearraydata_t.end_, bind, Exec.bind, pure, wi_assert_pass _ w hassert] at he
      subst hb
      subst he
      rw [nthIter_eq_add]
      cases hq : v.m_pBegin with
      | none => exact absurd hq hne
      | some q =>
        have hi2 : i < v.m_nSize := hi
        simp only [Ptr.add, Option.map_some', ne_eq, Option.some.injEq, Ptr.mk.injEq,
          true_and]
        omega
  · intro h a hb ha
    simp [World.read, Ptr.add, hb, ha]
  · intro hi hon
    have hi2 : ¬ i < v.m_nSize := Nat.not_lt.2 hi
    simp [safearraydata_t.index, WI_ASSERT, bind, Exec.bind, hi2, hon]
  · intro hoff
    simp [safearraydata_t.index, WI_ASSERT, bind, Exec.bind, pure, hoff]

/-- C14: `SafeArrayUnlock_scope_exit` and the facade's `scope_lock()` on a null
handle terminate the process (fail fast). Neither takes an error policy, so this
is the outcome under every one: no guard is returned, no status and no exception,
and the world is what it was, so no lock or unlock primitive was invoked. -/
theorem scope_exit_null_is_fatal (w : World) :
    SafeArrayUnlock_scope_exit 0 w = (Res.failFast, w)
    ∧ safearray_t.scope_lock { m_ptr := 0 } w = (Res.failFast, w)
    ∧ (SafeArrayUnlock_scope_exit 0 w).2.calls = w.calls
    ∧ (∀ g, (SafeArrayUnlock_scope_exit 0 w).1 ≠ Res.ok g)
    ∧ (∀ e, (SafeArrayUnlock_scope_exit 0 w).1 ≠ Res.thrown e) := by
  have h : SafeArrayUnlock_scope_exit 0 w = (Res.failFast, w) := by
    simp [SafeArrayUnlock_scope_exit, details.SafeArrayLock, FAIL_FAST_ASSERT, bind, Exec.bind]
  refine ⟨h, ?_, ?_, ?_, ?_⟩
  · simpa [safearray_t.scope_lock, unique_any.get] using h
  · rw [h]
  · intro g; rw [h]; exact fun hx => by cases hx
  · intro e; rw [h]; exact fun hx => by cases hx

/-! ### Claim C15: destroying a locked array is fatal -/

theorem policy_bind_translate {σ : Type} (p : err_policy) (m : Exec σ HRESULT) (s : σ) :
    (m >>= fun hr => Exec.finish (p.HResult hr)) s = (p.translate (m s).1, (m s).2) := by
  rw [policy_bind_eq]
  rcases m s with ⟨r, s1⟩
  cases r <;> rfl

theorem boundOf_some (a : SAFEARRAY) (nDim : Nat) (h1 : 1 ≤ nDim) (h2 : nDim ≤ a.cDims) :
    ∃ b, oleaut.boundOf a nDim = some b ∧ a.rgsabound[a.cDims - nDim]? = some b
      ∧ a.rgsabound.getD (a.cDims - nDim) ⟨0, 0⟩ = b ∧ b ∈ a.rgsabound := by
  have hlt : a.cDims - nDim < a.rgsabound.length := by
    unfold SAFEARRAY.cDims at *
    omega
  have hno : ¬ (nDim = 0 ∨ a.cDims < nDim) := by omega
  refine ⟨a.rgsabound[a.cDims - nDim], ?_, List.getElem?_eq_getElem hlt, ?_,
    List.getElem_mem _⟩
  · simp only [oleaut.boundOf, hno, if_false]
    exact List.getElem?_eq_getElem hlt
  · simp [List.getD, List.getElem?_eq_getElem hlt]

theorem details_dim_count_in (a : SAFEARRAY) (nDim old : Nat) (h1 : 1 ≤ nDim)
    (h2 : nDim ≤ a.cDims) (b : SAFEARRAYBOUND)
    (hb : a.rgsabound.getD (a.cDims - nDim) ⟨0, 0⟩ = b) :
    details.SafeArrayDimElementCount (some a) nDim (some old) = Res.ok (S_OK, b.cElements) := by
  have hno : ¬ (nDim = 0 ∨ nDim > a.cDims) := by omega
  simp only [details.SafeArrayDimElementCount, hno, if_false, hb]

theorem details_dim_count_out (a : SAFEARRAY) (nDim old : Nat)
    (hout : ¬ (1 ≤ nDim ∧ nDim ≤ a.cDims)) :
    details.SafeArrayDimElementCount (some a) nDim (some old) = Res.ok (E_INVALIDARG, old) := by
  have hyes : nDim = 0 ∨ nDim > a.cDims := by omega
  simp only [details.SafeArrayDimElementCount, hyes, if_true]

theorem invalidarg_ne_ok : E_INVALIDARG ≠ S_OK := by decide

/-- C16, counterexample: on the 2 x 3 array of `lockedWorld`, the facade's
`dim_elements(0)` and `dim_elements(3)` under the status-returning policy do not
return `E_INVALIDARG`: the defensive assertion `nDim > 0 && nDim <= dim()` fails
first. `details::SafeArrayDimElementCount` itself does return `E_INVALIDARG` for
these. -/
theorem dim_elements_out_of_range_asserts :
    (safearray_t.dim_elements err_policy.returncode 0 (some 7)
        ({ m_ptr := 1 }, lockedWorld)).1 = Res.assertFail
    ∧ (safearray_t.dim_elements err_policy.returncode 3 (some 7)
        ({ m_ptr := 1 }, lockedWorld)).1 = Res.assertFail
    ∧ (safearray_t.dim_elements err_policy.returncode 0 (some 7)
        ({ m_ptr := 1 }, lockedWorld)).1 ≠ Res.ok (result.status E_INVALIDARG, some 7)
    ∧ details.SafeArrayDimElementCount (lockedWorld.deref 1) 0 (some 7)
        = Res.ok (E_INVALIDARG, 7)
    ∧ details.SafeArrayDimElementCount (lockedWorld.deref 1) 3 (some 7)
        = Res.ok (E_INVALIDARG, 7) := by
  decide

/-- C16, as amended: for every non-null array with `cDims` dimensions and every
`nDim`, `details::SafeArrayDimElementCount` returns `S_OK` iff
`1 <= nDim <= cDims`; in that case the index `cDims - nDim` lies within the bounds
of `rgsabound` and `*pCount` is the `cElements` stored there, which is the element
count of the `nDim`-th dimension the array was created with; otherwise it returns
`E_INVALIDARG` and leaves `*pCount` unchanged. The facade's `dim_elements(nDim)`
gives the same value, reported as success through the policy, when
`1 <= nDim <= dim()`; for any other `nDim` its defensive assertion fails before
the count is looked up (where `WI_ASSERT` is not compiled in, it reports
`E_INVALIDARG` through the policy and leaves `*pCount` unchanged). -/
theorem dim_element_count_spec (a : SAFEARRAY) (nDim old : Nat) :
    (1 ≤ nDim ∧ nDim ≤ a.cDims →
        a.cDims - nDim < a.cDims
        ∧ ∃ b, a.rgsabound[a.cDims - nDim]? = some b
            ∧ details.SafeArrayDimElementCount (some a) nDim (some old)
                = Res.ok (S_OK, b.cElements))
    ∧ (¬ (1 ≤ nDim ∧ nDim ≤ a.cDims) →
        details.SafeArrayDimElementCount (some a) nDim (some old)
          = Res.ok (E_INVALIDARG, old))
    ∧ ((∃ v, details.SafeArrayDimElementCount (some a) nDim (some old) = Res.ok (S_OK, v))
        ↔ (1 ≤ nDim ∧ nDim ≤ a.cDims))
    ∧ (∀ (vt : VARTYPE) (size : Nat) (dims : List SAFEARRAYBOUND),
        1 ≤ nDim → nDim ≤ dims.length →
          ∃ b, dims[nDim - 1]? = some b
            ∧ details.SafeArrayDimElementCount (some (oleaut.newArray vt size dims)) nDim
                (some old) = Res.ok (S_OK, b.cElements))
    ∧ ∀ (p : err_policy) (w : World) (h : Handle), w.deref h = some a →
        (1 ≤ nDim ∧ nDim ≤ a.cDims →
          ∃ b, a.rgsabound[a.cDims - nDim]? = some b
            ∧ safearray_t.dim_elements p nDim (some old) ({ m_ptr := h }, w)
                = (Res.ok (p.success, some b.cElements), ({ m_ptr := h }, w)))
        ∧ (¬ (1 ≤ nDim ∧ nDim ≤ a.cDims) → w.assertsOn = true →
            safearray_t.dim_elements p nDim (some old) ({ m_ptr := h }, w)
              = (Res.assertFail, ({ m_ptr := h }, w)))
        ∧ (¬ (1 ≤ nDim ∧ nDim ≤ a.cDims) → w.assertsOn = false →
            safearray_t.dim_elements p nDim (some old) ({ m_ptr := h }, w)
              = (p.translateOut (Res.ok (E_INVALIDARG, some old)), ({ m_ptr := h }, w))) := by
  refine ⟨?_, details_dim_count_out a nDim old, ?_, ?_, ?_⟩
  · rintro ⟨h1, h2⟩
    obtain ⟨b, _, hb, hd, _⟩ := boundOf_some a nDim h1 h2
    exact ⟨by omega, b, hb, details_dim_count_in a nDim old h1 h2 b hd⟩
  · constructor
    · rintro ⟨v, hv⟩
      by_contra hout
      rw [details_dim_count_out a nDim old hout] at hv
      simp only [Res.ok.injEq, Prod.mk.injEq] at hv
      exact invalidarg_ne_ok hv.1
    · rintro ⟨h1, h2⟩
      obtain ⟨b, _, _, hd, _⟩ := boundOf_some a nDim h1 h2
      exact ⟨_, details_dim_count_in a nDim old h1 h2 b hd⟩
  · intro vt size dims h1 h2
    have hlen : (oleaut.newArray vt size dims).cDims = dims.length := by
      simp [SAFEARRAY.cDims, oleaut.newArray]
    obtain ⟨b, _, hb, hd, _⟩ := boundOf_some (oleaut.newArray vt size dims) nDim h1
      (by rw [hlen]; exact h2)
    refine ⟨b, ?_, details_dim_count_in _ nDim old h1 (by rw [hlen]; exact h2) b hd⟩
    rw [hlen] at hb
    have hlt : dims.length - nDim < dims.length := by omega
    have hrev : (oleaut.newArray vt size dims).rgsabound[dims.length - nDim]?
        = dims[dims.length - 1 - (dims.length - nDim)]? := by
      simp only [oleaut.newArray]
      exact List.getElem?_reverse hlt
    rw [hrev] at hb
    have hidx : dims.length - 1 - (dims.length - nDim) = nDim - 1 := by omega
    rw [hidx] at hb
    exact hb
  · intro p w h ha
    have hdim : safearray_t.dim { m_ptr := h } w = a.cDims := by
      simp [safearray_t.dim, oleaut.SafeArrayGetDim, unique_any.get, ha]
    refine ⟨?_, ?_, ?_⟩
    · rintro ⟨h1, h2⟩
      obtain ⟨b, _, hb, hd, _⟩ := boundOf_some a nDim h1 h2
      refine ⟨b, hb, ?_⟩
      have hpos : 0 < nDim := h1
      simp [safearray_t.dim_elements, getSelf, inWorld, getWorld, WI_ASSERT, Exec.finish,
        bind, Exec.bind, pure, unique_any.get, ha, hdim, hpos, h2,
        details_dim_count_in a nDim old h1 h2 b hd, hresult_ok]
    · intro hout hon
      have hcond : (decide (nDim > 0) && decide (nDim ≤ a.cDims)) = false := by
        simp only [Bool.and_eq_false_iff, decide_eq_false_iff_not]
        omega
      simp [safearray_t.dim_elements, getSelf, inWorld, getWorld, WI_ASSERT, Exec.finish,
        bind, Exec.bind, unique_any.get, hdim, hon, hcond]
    · intro hout hoff
      cases p <;>
        simp [safearray_t.dim_elements, getSelf, inWorld, getWorld, WI_ASSERT, Exec.finish,
          bind, Exec.bind, pure, unique_any.get, ha, hdim, hoff,
          details_dim_count_out a nDim old hout, err_policy.translateOut,
          err_policy.HResult, FAILED, E_INVALIDARG]

/-- C16, witness: the 2 x 3 array stores the bounds of its second dimension first;
dimension 1 has 2 elements and dimension 2 has 3. -/
theorem dim_element_count_spec_witness :
    details.SafeArrayDimElementCount (some twoByThree) 1 (some 7) = Res.ok (S_OK, 2)
    ∧ details.SafeArrayDimElementCount (some twoByThree) 2 (some 7) = Res.ok (S_OK, 3)
    ∧ details.SafeArrayDimElementCount (some twoByThree) 3 (some 7)
        = Res.ok (E_INVALIDARG, 7) := by
  refine ⟨by decide, by decide, ?_⟩
  exact (dim_element_count_spec twoByThree 3 7).2.1 (by decide)

theorem ulong_of_bounds (lb : Int) (c : Nat) (hc : c ≤ ULONG_MAX) :
    toULONG (toLONG (lb + c - 1) - lb + 1) = c := by
  unfold toULONG toLONG
  unfold ULONG_MAX at hc
  omega

/-- C17: for every live array with a well-formed descriptor and every `nDim` with
`1 <= nDim <= dim()`, under every error policy `dim_elements(nDim)`,
`lbound(nDim)` and `ubound(nDim)` succeed, and the element count is
`ubound(nDim) - lbound(nDim) + 1` as a 32-bit unsigned value, the bounds being
those of the descriptor entry of the dimension (`lLbound`, and
`lLbound + cElements - 1` as a `LONG`). No restriction is put on the element
count, which may be 0 or more than `2^31 - 1`. -/
theorem dim_elements_matches_bounds (p : err_policy) (w : World) (h : Handle)
    (a : SAFEARRAY) (nDim oldC : Nat) (oldL oldU : Int) (ha : w.deref h = some a)
    (hwf : a.WF) (h1 : 1 ≤ nDim) (h2 : nDim ≤ safearray_t.dim { m_ptr := h } w) :
    ∃ (c : Nat) (lb ub : Int),
      safearray_t.dim_elements p nDim (some oldC) ({ m_ptr := h }, w)
        = (Res.ok (p.success, some c), ({ m_ptr := h }, w))
      ∧ safearray_t.lbound p nDim (some oldL) ({ m_ptr := h }, w)
        = (Res.ok (p.success, some lb), ({ m_ptr := h }, w))
      ∧ safearray_t.ubound p nDim (some oldU) ({ m_ptr := h }, w)
        = (Res.ok (p.success, some ub), ({ m_ptr := h }, w))
      ∧ c = toULONG (ub - lb + 1)
      ∧ (∃ b, oleaut.boundOf a nDim = some b ∧ c = b.cElements ∧ lb = b.lLbound
          ∧ ub = toLONG (b.lLbound + b.cElements - 1)) := by
  have hdim : safearray_t.dim { m_ptr := h } w = a.cDims := by
    simp [safearray_t.dim, oleaut.SafeArrayGetDim, unique_any.get, ha]
  rw [hdim] at h2
  obtain ⟨b, hbound, _, hd, hmem⟩ := boundOf_some a nDim h1 h2
  have hpos : 0 < nDim := h1
  refine ⟨b.cElements, b.lLbound, toLONG (b.lLbound + b.cElements - 1), ?_, ?_, ?_,
    (ulong_of_bounds _ _ (hwf b hmem).1).symm, b, hbound, rfl, rfl, rfl⟩
  · simp [safearray_t.dim_elements, getSelf, inWorld, getWorld, WI_ASSERT, Exec.finish,
      bind, Exec.bind, pure, unique_any.get, ha, hdim, hpos, h2,
      details_dim_count_in a nDim oldC h1 h2 b hd, hresult_ok]
  · simp [safearray_t.lbound, getSelf, inWorld, getWorld, WI_ASSERT, Exec.finish,
      bind, Exec.bind, pure, unique_any.get, ha, hdim, hpos, h2,
      oleaut.SafeArrayGetLBound, hbound, hresult_ok]
  · simp [safearray_t.ubound, getSelf, inWorld, getWorld, WI_ASSERT, Exec.finish,
      bind, Exec.bind, pure, unique_any.get, ha, hdim, hpos, h2,
      oleaut.SafeArrayGetUBound, hbound, hresult_ok]

/-- C17, witness: dimension 2 of `hugeDims` has 3000000000 elements from -5, so
its upper bound as a `LONG` is -1294967302, and dimension 1 has no element. -/
theorem dim_elements_matches_bounds_witness :
    hugeWorld.deref 1 = some hugeDims ∧ hugeDims.WF
    ∧ safearray_t.dim_elements err_policy.returncode 2 (some 7) ({ m_ptr := 1 }, hugeWorld)
        = (Res.ok (result.status S_OK, some 3000000000), ({ m_ptr := 1 }, hugeWorld))
    ∧ safearray_t.ubound err_policy.returncode 2 (some 7) ({ m_ptr := 1 }, hugeWorld)
        = (Res.ok (result.status S_OK, some (-1294967302)), ({ m_ptr := 1 }, hugeWorld))
    ∧ toULONG (-1294967302 - -5 + 1) = 3000000000
    ∧ (safearray_t.dim_elements err_policy.returncode 1 (some 7)
        ({ m_ptr := 1 }, hugeWorld)).1 = Res.ok (result.status S_OK, some 0)
    ∧ (safearray_t.ubound err_policy.returncode 1 (some 7)
        ({ m_ptr := 1 }, hugeWorld)).1 = Res.ok (result.status S_OK, some 6) := by
  obtain ⟨c, lb, ub, hc, _, hu, _, b, hb, hcb, _, hub⟩ :=
    dim_elements_matches_bounds err_policy.returncode hugeWorld 1 hugeDims 2 7 7 7
      (by decide) (by decide) (by decide) (by decide)
  have hb2 : oleaut.boundOf hugeDims 2 = some ⟨3000000000, -5⟩ := by decide
  rw [hb2] at hb
  cases hb
  subst hcb
  subst hub
  exact ⟨by decide, by decide, hc, hu, by decide, by decide, by decide⟩

/-! ### Claim C19: the sizes of the `var_traits` table -/

theorem hresult_ne_assert (p : err_policy) (hr : HRESULT) : p.HResult hr ≠ Res.assertFail := by
  cases p
  · intro h; cases h
  · simp only [err_policy.HResult]
    split <;> exact fun h => by cases h
  · simp only [err_policy.HResult]
    split <;> exact fun h => by cases h

theorem platform_put_ok (h : Handle) (idx : List Int) (pv : Option Nat) (w : World) :
    ∃ hr w2, oleaut.SafeArrayPutElement h idx pv w = (Res.ok hr, w2) := by
  obtain ⟨hr, w2, hrun, _⟩ := platform_put_frame h (h + 1) idx pv w (Nat.succ_ne_self h)
  exact ⟨hr, w2, hrun⟩

theorem platform_get_ok (h : Handle) (idx : List Int) (pv : Option Nat) (w : World) :
    ∃ hr out, oleaut.SafeArrayGetElement h idx pv w
      = (Res.ok (hr, out), w.logged (Call.getElement h)) := by
  unfold oleaut.SafeArrayGetElement
  split
  · split
    · exact ⟨_, _, rfl⟩
    · split
      · exact ⟨_, _, rfl⟩
      · exact ⟨_, _, rfl⟩
  · exact ⟨_, _, rfl⟩

theorem var_traits_size (T : CType) :
    oleaut.elemSizeOf (details.var_traits.vartype T) = some T.sizeof := by
  cases T <;> decide

/-- The typed element accessors on a wrapper whose array has the element size
`sz` never end in a failed assertion, the one-dimensional forms provided the
array has one dimension. -/
theorem typed_access_no_assert (q : err_policy) (sz : Nat) (h : Handle) (w : World)
    (hsz : safearray_t.elemsize { m_ptr := h } w = sz) :
    (∀ idx v, (safearray_t.put_elementN q sz idx v ({ m_ptr := h }, w)).1 ≠ Res.assertFail)
    ∧ (∀ idx old,
        (safearray_t.get_elementN q sz idx old ({ m_ptr := h }, w)).1 ≠ Res.assertFail)
    ∧ (safearray_t.dim { m_ptr := h } w = 1 →
        (∀ i v, (safearray_t.put_element q sz i v ({ m_ptr := h }, w)).1 ≠ Res.assertFail)
        ∧ ∀ i old,
            (safearray_t.get_element q sz i old ({ m_ptr := h }, w)).1 ≠ Res.assertFail) := by
  refine ⟨?_, ?_, fun hdim => ⟨?_, ?_⟩⟩
  · intro idx v
    obtain ⟨hr, w2, hrun⟩ := platform_put_ok h idx (some v) w
    simp [safearray_t.put_elementN, getSelf, inWorld, getWorld, WI_ASSERT, Exec.finish, bind,
      Exec.bind, unique_any.get, hsz, hrun, hresult_ne_assert]
  · intro idx old
    obtain ⟨hr, out, hrun⟩ := platform_get_ok h idx (some old) w
    have hne := hresult_ne_assert q hr
    simp only [safearray_t.get_elementN, getSelf, inWorld, getWorld, WI_ASSERT, Exec.finish,
      bind, Exec.bind, pure, unique_any.get, hsz, hrun, decide_True, Bool.not_true,
      Bool.and_false, if_false]
    cases hq : q.HResult hr with
    | ok r => simp [hrun, hq]
    | failFast => simp [hrun, hq]
    | assertFail => exact absurd hq hne
    | thrown e => simp [hrun, hq]
  · intro i v
    obtain ⟨hr, w2, hrun⟩ := platform_put_ok h [i] (some v) w
    simp [safearray_t.put_element, getSelf, inWorld, getWorld, WI_ASSERT, Exec.finish, bind,
      Exec.bind, unique_any.get, hsz, hdim, hrun, hresult_ne_assert]
  · intro i old
    obtain ⟨hr, out, hrun⟩ := platform_get_ok h [i] (some old) w
    have hne := hresult_ne_assert q hr
    simp only [safearray_t.get_element, getSelf, inWorld, getWorld, WI_ASSERT, Exec.finish,
      bind, Exec.bind, pure, unique_any.get, hsz, hdim, hrun, decide_True, Bool.not_true,
      Bool.and_false, if_false]
    cases hq : q.HResult hr with
    | ok r => simp [hrun, hq]
    | failFast => simp [hrun, hq]
    | assertFail => exact absurd hq hne
    | thrown e => simp [hrun, hq]

/-- C19: for every element type `T` of the `var_traits` table, `sizeof(T)` is the
element byte size the platform gives the tag `var_traits<T>::vartype`. Hence on an
array created by the typed `create<T>` (any number of dimensions, or the
single-dimension form), from a wrapper that owned nothing or a live array,
`elemsize()` is `sizeof(T)`, and the defensive element-size checks do not fail:
under every policy the typed `put_element` and `get_element` (with one index when
the array has one dimension, and with an index list) and `access` of a fresh
`safearraydata_t<T>` never end in a failed assertion. -/
theorem var_traits_sizes_match (T : CType) :
    oleaut.elemSizeOf (details.var_traits.vartype T) = some T.sizeof
    ∧ (∀ p N L, safearray_t.createT1 p T N L = safearray_t.createT p T 1 (some [⟨N, L⟩]))
    ∧ ∀ (p q : err_policy) (cDims : Nat) (sab : Option (List SAFEARRAYBOUND))
        (self self1 : unique_any) (w w1 : World),
        w.WF → (self.get = 0 ∨ (w.deref self.get).isSome = true) →
        safearray_t.createT p T cDims sab (self, w) = (Res.ok p.success, (self1, w1)) →
          safearray_t.elemsize self1 w1 = T.sizeof
          ∧ (∀ idx v,
              (safearray_t.put_elementN q T.sizeof idx v (self1, w1)).1 ≠ Res.assertFail)
          ∧ (∀ idx old,
              (safearray_t.get_elementN q T.sizeof idx old (self1, w1)).1 ≠ Res.assertFail)
          ∧ (safearray_t.dim self1 w1 = 1 →
              (∀ i v,
                (safearray_t.put_element q T.sizeof i v (self1, w1)).1 ≠ Res.assertFail)
              ∧ ∀ i old,
                (safearray_t.get_element q T.sizeof i old (self1, w1)).1 ≠ Res.assertFail)
          ∧ (safearraydata_t.access q T.sizeof self1.get ({}, w1)).1 ≠ Res.assertFail := by
  refine ⟨var_traits_size T, fun _ _ _ => rfl, ?_⟩
  intro p q cDims sab self self1 w w1 hwf hown hrun
  obtain ⟨l, size, _, hsize, _, _, hn, hself, hderef⟩ :=
    create_success_state p (details.var_traits.vartype T) cDims sab self self1 w w1 hwf hown
      hrun
  rw [var_traits_size T] at hsize
  cases hsize
  subst hself
  have hsz : safearray_t.elemsize { m_ptr := w.next } w1 = T.sizeof := by
    simp [safearray_t.elemsize, oleaut.SafeArrayGetElemsize, unique_any.get, hderef,
      oleaut.newArray]
  obtain ⟨h1, h2, h3⟩ := typed_access_no_assert q T.sizeof w.next w1 hsz
  refine ⟨hsz, h1, h2, h3, ?_⟩
  obtain ⟨hr, m, _, hacc⟩ := access_run q w1 w.next _ none 0 hderef
  have hacc2 : (safearraydata_t.access q T.sizeof w.next ({}, w1)).1 = q.HResult hr :=
    congrArg Prod.fst hacc
  show (safearraydata_t.access q T.sizeof w.next ({}, w1)).1 ≠ Res.assertFail
  rw [hacc2]
  exact hresult_ne_assert q hr

/-- C19, witness: `create<int>(5)` in the empty world gives an array of 4-byte
elements, and `sizeof(int)` is 4. -/
theorem var_traits_sizes_match_witness :
    oleaut.elemSizeOf (details.var_traits.vartype CType.int) = some 4
    ∧ safearray_t.elemsize
        (safearray_t.createT1 err_policy.returncode CType.int 5 0
          ({ m_ptr := 0 }, emptyWorld)).2.1
        (safearray_t.createT1 err_policy.returncode CType.int 5 0
          ({ m_ptr := 0 }, emptyWorld)).2.2 = 4 := by
  have h := var_traits_sizes_match CType.int
  refine ⟨h.1, ?_⟩
  exact (h.2.2 err_policy.returncode err_policy.returncode 1 (some [⟨5, 0⟩]) { m_ptr := 0 }
    _ emptyWorld _ ⟨by decide, fun _ _ => rfl⟩ (Or.inl rfl) (Prod.ext (by decide) rfl)).1

/-! ### Claim C20: the single-index element accessors check `dim() == 1` -/

/-- C20, counterexample: `shortsWorld` holds a one-dimensional array of 2-byte
elements, so `dim() == 1`; the typed `put_element(0, val)` and
`get_element(0, val)` with a 4-byte `val` end in the failed element-size
assertion, and the platform element primitive is not called. In a build without
`WI_ASSERT` no assertion fails: on the 2 x 3 array of `lockedWorldRelease`, whose
`dim()` is 2, the raw and the typed single-index `put_element` both call the
platform element primitive, as does the typed `put_element` with a 4-byte `val`
on the array of 2-byte elements. -/
theorem typed_put_size_mismatch_asserts :
    safearray_t.dim { m_ptr := 1 } shortsWorld = 1
    ∧ safearray_t.elemsize { m_ptr := 1 } shortsWorld = 2
    ∧ (safearray_t.put_element err_policy.returncode 4 0 5
        ({ m_ptr := 1 }, shortsWorld)).1 = Res.assertFail
    ∧ (safearray_t.put_element err_policy.returncode 4 0 5
        ({ m_ptr := 1 }, shortsWorld)).2.2.calls = []
    ∧ (safearray_t.get_element err_policy.returncode 4 0 5
        ({ m_ptr := 1 }, shortsWorld)).1 = Res.assertFail
    ∧ (safearray_t.get_element err_policy.returncode 4 0 5
        ({ m_ptr := 1 }, shortsWorld)).2.2.calls = []
    ∧ (oleaut.SafeArrayPutElement 1 [0] (some 5) shortsWorld).2.calls = [Call.putElement 1]
    ∧ safearray_t.dim { m_ptr := 1 } lockedWorldRelease = 2
    ∧ (safearray_t.put_element_raw err_policy.returncode 0 (some 5)
        ({ m_ptr := 1 }, lockedWorldRelease)).1 ≠ Res.assertFail
    ∧ (safearray_t.put_element_raw err_policy.returncode 0 (some 5)
        ({ m_ptr := 1 }, lockedWorldRelease)).2.2.calls = [Call.putElement 1]
    ∧ (safearray_t.put_element err_policy.returncode 4 0 5
        ({ m_ptr := 1 }, lockedWorldRelease)).2.2.calls = [Call.putElement 1]
    ∧ (safearray_t.put_element err_policy.returncode 4 0 5
        ({ m_ptr := 1 }, shortsWorldRelease)).1 ≠ Res.assertFail
    ∧ (safearray_t.put_element err_policy.returncode 4 0 5
        ({ m_ptr := 1 }, shortsWorldRelease)).2.2.calls = [Call.putElement 1] := by
  decide

/-- C20, as amended: where `WI_ASSERT` is compiled in, every single-index form of
`put_element` and `get_element` (the typed forms, for value and pointer element
types, and the raw `void*` forms) checks `dim() == 1` before any element is
touched: on an array with `dim() != 1` the call ends in a failed defensive
assertion and the world is what it was, so nothing is read or written and the
platform is not called; and a typed form whose `sizeof(val)` is not `elemsize()`
ends in the failed element-size assertion, which is checked first, and touches
nothing. On an array with `dim() == 1`, in either build, the raw forms, and the
typed forms when `sizeof(val) == elemsize()`, pass `nIndex` as the sole index to
the platform element primitive and return its status through the policy. Where
`WI_ASSERT` is not compiled in, no check is made: every form passes `nIndex` as the
sole index to the platform element primitive, whatever `dim()` and `elemsize()`
are, and returns its status through the policy. -/
theorem single_index_forms_check_dim (p : err_policy) (sz : Nat) (h : Handle) (w : World)
    (i : Int) (val : Nat) (pv : Option Nat) :
    (safearray_t.dim { m_ptr := h } w ≠ 1 → w.assertsOn = true →
        safearray_t.put_element p sz i val ({ m_ptr := h }, w)
          = (Res.assertFail, ({ m_ptr := h }, w))
        ∧ safearray_t.get_element p sz i val ({ m_ptr := h }, w)
          = (Res.assertFail, ({ m_ptr := h }, w))
        ∧ safearray_t.put_element_raw p i pv ({ m_ptr := h }, w)
          = (Res.assertFail, ({ m_ptr := h }, w))
        ∧ safearray_t.get_element_raw p i pv ({ m_ptr := h }, w)
          = (Res.assertFail, ({ m_ptr := h }, w)))
    ∧ (safearray_t.dim { m_ptr := h } w = 1 →
        (∃ hr w2, oleaut.SafeArrayPutElement h [i] pv w = (Res.ok hr, w2)
          ∧ safearray_t.put_element_raw p i pv ({ m_ptr := h }, w)
            = (p.HResult hr, ({ m_ptr := h }, w2)))
        ∧ (∃ hr out w2, oleaut.SafeArrayGetElement h [i] pv w = (Res.ok (hr, out), w2)
          ∧ safearray_t.get_element_raw p i pv ({ m_ptr := h }, w)
            = (p.translateOut (Res.ok (hr, out)), ({ m_ptr := h }, w2)))
        ∧ (sz = safearray_t.elemsize { m_ptr := h } w →
            (∃ hr w2, oleaut.SafeArrayPutElement h [i] (some val) w = (Res.ok hr, w2)
              ∧ safearray_t.put_element p sz i val ({ m_ptr := h }, w)
                = (p.HResult hr, ({ m_ptr := h }, w2)))
            ∧ ∃ hr out w2,
                oleaut.SafeArrayGetElement h [i] (some val) w = (Res.ok (hr, out), w2)
                ∧ safearray_t.get_element p sz i val ({ m_ptr := h }, w)
                  = (p.translateOut (Res.ok (hr, out.getD val)), ({ m_ptr := h }, w2)))
        ∧ (sz ≠ safearray_t.elemsize { m_ptr := h } w → w.assertsOn = true →
            safearray_t.put_element p sz i val ({ m_ptr := h }, w)
              = (Res.assertFail, ({ m_ptr := h }, w))
            ∧ safearray_t.get_element p sz i val ({ m_ptr := h }, w)
              = (Res.assertFail, ({ m_ptr := h }, w))))
    ∧ (w.assertsOn = false →
        (∃ hr w2, oleaut.SafeArrayPutElement h [i] (some val) w = (Res.ok hr, w2)
          ∧ safearray_t.put_element p sz i val ({ m_ptr := h }, w)
            = (p.HResult hr, ({ m_ptr := h }, w2)))
        ∧ (∃ hr out w2,
            oleaut.SafeArrayGetElement h [i] (some val) w = (Res.ok (hr, out), w2)
            ∧ safearray_t.get_element p sz i val ({ m_ptr := h }, w)
              = (p.translateOut (Res.ok (hr, out.getD val)), ({ m_ptr := h }, w2)))
        ∧ (∃ hr w2, oleaut.SafeArrayPutElement h [i] pv w = (Res.ok hr, w2)
          ∧ safearray_t.put_element_raw p i pv ({ m_ptr := h }, w)
            = (p.HResult hr, ({ m_ptr := h }, w2)))
        ∧ ∃ hr out w2, oleaut.SafeArrayGetElement h [i] pv w = (Res.ok (hr, out), w2)
          ∧ safearray_t.get_element_raw p i pv ({ m_ptr := h }, w)
            = (p.translateOut (Res.ok (hr, out)), ({ m_ptr := h }, w2))) := by
  refine ⟨?_, ?_, ?_⟩
  · intro hdim hon
    refine ⟨?_, ?_, ?_, ?_⟩
    · by_cases hsz : sz = safearray_t.elemsize { m_ptr := h } w
      · simp [safearray_t.put_element, getSelf, inWorld, getWorld, WI_ASSERT, bind, Exec.bind,
          hsz, hdim, hon]
      · simp [safearray_t.put_element, getSelf, inWorld, getWorld, WI_ASSERT, bind, Exec.bind,
          hsz, hon]
    · by_cases hsz : sz = safearray_t.elemsize { m_ptr := h } w
      · simp [safearray_t.get_element, getSelf, inWorld, getWorld, WI_ASSERT, bind, Exec.bind,
          hsz, hdim, hon]
      · simp [safearray_t.get_element, getSelf, inWorld, getWorld, WI_ASSERT, bind, Exec.bind,
          hsz, hon]
    · simp [safearray_t.put_element_raw, getSelf, inWorld, getWorld, WI_ASSERT, bind,
        Exec.bind, hdim, hon]
    · simp [safearray_t.get_element_raw, getSelf, inWorld, getWorld, WI_ASSERT, bind,
        Exec.bind, hdim, hon]
  · intro hdim
    refine ⟨?_, ?_, ?_, ?_⟩
    · obtain ⟨hr, w2, hrun⟩ := platform_put_ok h [i] pv w
      refine ⟨hr, w2, hrun, ?_⟩
      simp [safearray_t.put_element_raw, getSelf, inWorld, getWorld, WI_ASSERT, Exec.finish,
        bind, Exec.bind, unique_any.get, hdim, hrun]
    · obtain ⟨hr, out, hrun⟩ := platform_get_ok h [i] pv w
      refine ⟨hr, out, _, hrun, ?_⟩
      simp only [safearray_t.get_element_raw, getSelf, inWorld, getWorld, WI_ASSERT,
        Exec.finish, bind, Exec.bind, pure, unique_any.get, hdim, decide_True, Bool.not_true,
        Bool.and_false, if_false, err_policy.translateOut]
      cases hq : p.HResult hr <;> simp [hrun, hq]
    · intro hsz
      constructor
      · obtain ⟨hr, w2, hrun⟩ := platform_put_ok h [i] (some val) w
        refine ⟨hr, w2, hrun, ?_⟩
        simp [safearray_t.put_element, getSelf, inWorld, getWorld, WI_ASSERT, Exec.finish,
          bind, Exec.bind, unique_any.get, hdim, hsz, hrun]
      · obtain ⟨hr, out, hrun⟩ := platform_get_ok h [i] (some val) w
        refine ⟨hr, out, _, hrun, ?_⟩
        simp only [safearray_t.get_element, getSelf, inWorld, getWorld, WI_ASSERT,
          Exec.finish, bind, Exec.bind, pure, unique_any.get, hdim, hsz, decide_True,
          Bool.not_true, Bool.and_false, if_false, err_policy.translateOut]
        cases hq : p.HResult hr <;> simp [hrun, hq]
    · intro hsz hon
      constructor
      · simp [safearray_t.put_element, getSelf, inWorld, getWorld, WI_ASSERT, bind, Exec.bind,
          hsz, hon]
      · simp [safearray_t.get_element, getSelf, inWorld, getWorld, WI_ASSERT, bind, Exec.bind,
          hsz, hon]
  · intro hoff
    refine ⟨?_, ?_, ?_, ?_⟩
    · obtain ⟨hr, w2, hrun⟩ := platform_put_ok h [i] (some val) w
      refine ⟨hr, w2, hrun, ?_⟩
      simp [safearray_t.put_element, getSelf, inWorld, getWorld, WI_ASSERT, Exec.finish,
        bind, Exec.bind, unique_any.get, hoff, hrun]
    · obtain ⟨hr, out, hrun⟩ := platform_get_ok h [i] (some val) w
      refine ⟨hr, out, _, hrun, ?_⟩
      simp only [safearray_t.get_element, getSelf, inWorld, getWorld, WI_ASSERT,
        Exec.finish, bind, Exec.bind, pure, unique_any.get, hoff, Bool.false_and,
        Bool.false_eq_true, if_false, err_policy.translateOut]
      cases hq : p.HResult hr <;> simp [hrun, hq]
    · obtain ⟨hr, w2, hrun⟩ := platform_put_ok h [i] pv w
      refine ⟨hr, w2, hrun, ?_⟩
      simp [safearray_t.put_element_raw, getSelf, inWorld, getWorld, WI_ASSERT, Exec.finish,
        bind, Exec.bind, unique_any.get, hoff, hrun]
    · obtain ⟨hr, out, hrun⟩ := platform_get_ok h [i] pv w
      refine ⟨hr, out, _, hrun, ?_⟩
      simp only [safearray_t.get_element_raw, getSelf, inWorld, getWorld, WI_ASSERT,
        Exec.finish, bind, Exec.bind, pure, unique_any.get, hoff, Bool.false_and,
        Bool.false_eq_true, if_false, err_policy.translateOut]
      cases hq : p.HResult hr <;> simp [hrun, hq]

/-- C20, witness: on the 2 x 3 array of `lockedWorld`, whose `dim()` is 2, the raw
single-index `put_element` ends in the failed assertion and changes nothing. -/
theorem single_index_forms_check_dim_witness :
    safearray_t.dim { m_ptr := 1 } lockedWorld ≠ 1
    ∧ safearray_t.put_element_raw err_policy.returncode 0 (some 5) ({ m_ptr := 1 }, lockedWorld)
        = (Res.assertFail, ({ m_ptr := 1 }, lockedWorld)) :=
  ⟨by decide,
    ((single_index_forms_check_dim err_policy.returncode 4 1 lockedWorld 0 5 (some 5)).1
      (by decide) rfl).2.2.1⟩

/-! ### Claim C18: the error policy changes nothing but the failure boundary -/

theorem policyFree_base {σ : Type} (hr : HRESULT) :
    PolicyFree (fun p => (Exec.finish (p.HResult hr) : Exec σ result)) :=
  fun s => ⟨Res.ok hr, s, fun _ => rfl⟩

theorem policyFree_bind {σ α : Type} (m : Exec σ α) (f : err_policy → α → Exec σ result)
    (hf : ∀ a, PolicyFree (fun p => f p a)) : PolicyFree (fun p => m >>= f p) := by
  intro s
  show ∃ (r : Res HRESULT) (s1 : σ), ∀ p : err_policy, Exec.bind m (f p) s = (p.translate r, s1)
  unfold Exec.bind
  rcases m s with ⟨r, s1⟩
  cases r with
  | ok a => exact hf a s1
  | failFast => exact ⟨Res.failFast, s1, fun _ => rfl⟩
  | assertFail => exact ⟨Res.assertFail, s1, fun _ => rfl⟩
  | thrown e => exact ⟨Res.thrown e, s1, fun _ => rfl⟩

theorem policyFreeOut_base {σ β : Type} (hr : HRESULT) (b : β) :
    PolicyFreeOut (fun p =>
      ((Exec.finish (p.HResult hr) : Exec σ result) >>= fun r => pure (r, b))) := by
  intro s
  refine ⟨Res.ok (hr, b), s, fun p => ?_⟩
  show Exec.bind (Exec.finish (p.HResult hr)) (fun r => pure (r, b)) s
    = (p.translateOut (Res.ok (hr, b)), s)
  simp only [Exec.bind, Exec.finish, err_policy.translateOut]
  cases p.HResult hr <;> rfl

theorem policyFreeOut_bind {σ α β : Type} (m : Exec σ α)
    (f : err_policy → α → Exec σ (result × β))
    (hf : ∀ a, PolicyFreeOut (fun p => f p a)) : PolicyFreeOut (fun p => m >>= f p) := by
  intro s
  show ∃ (r : Res (HRESULT × β)) (s1 : σ),
    ∀ p : err_policy, Exec.bind m (f p) s = (p.translateOut r, s1)
  unfold Exec.bind
  rcases m s with ⟨r, s1⟩
  cases r with
  | ok a => exact hf a s1
  | failFast => exact ⟨Res.failFast, s1, fun _ => rfl⟩
  | assertFail => exact ⟨Res.assertFail, s1, fun _ => rfl⟩
  | thrown e => exact ⟨Res.thrown e, s1, fun _ => rfl⟩

theorem translate_returncode (hr : HRESULT) :
    err_policy.returncode.translate (Res.ok hr) = Res.ok (result.status hr) := rfl

theorem translate_success (p : err_policy) (hr : HRESULT) (h : FAILED hr = false) :
    p.translate (Res.ok hr) = Res.ok (p.wrap hr) := by
  cases p <;> simp [err_policy.translate, err_policy.HResult, err_policy.wrap, h]

theorem translateOut_success {β : Type} (p : err_policy) (hr : HRESULT) (b : β)
    (h : FAILED hr = false) :
    p.translateOut (Res.ok (hr, b)) = Res.ok (p.wrap hr, b) := by
  cases p <;> simp [err_policy.translateOut, err_policy.HResult, err_policy.wrap, h]

theorem create_policyFree (vt : VARTYPE) (cDims : Nat) (sab : Option (List SAFEARRAYBOUND)) :
    PolicyFree (fun p => safearray_t.create p vt cDims sab) :=
  policyFree_bind _ _ (fun hr => policyFree_base hr)

theorem create1_policyFree (vt : VARTYPE) (n : Nat) (lb : Int) :
    PolicyFree (fun p => safearray_t.create1 p vt n lb) :=
  policyFree_bind _ _ (fun hr => policyFree_base hr)

theorem createT_policyFree (T : CType) (cDims : Nat) (sab : Option (List SAFEARRAYBOUND)) :
    PolicyFree (fun p => safearray_t.createT p T cDims sab) :=
  policyFree_bind _ _ (fun hr => policyFree_base hr)

theorem createT1_policyFree (T : CType) (n : Nat) (lb : Int) :
    PolicyFree (fun p => safearray_t.createT1 p T n lb) :=
  policyFree_bind _ _ (fun hr => policyFree_base hr)

theorem create_copy_policyFree (src : Handle) :
    PolicyFree (fun p => safearray_t.create_copy p src) :=
  policyFree_bind _ _ (fun _ => policyFree_bind _ _ (fun hr => policyFree_base hr))

theorem access_policyFree (sz : Nat) (psa : Handle) :
    PolicyFree (fun p => safearraydata_t.access p sz psa) :=
  policyFree_bind _ _ (fun hr => policyFree_base hr)

theorem put_element_policyFree (sz : Nat) (i : Int) (val : Nat) :
    PolicyFree (fun p => safearray_t.put_element p sz i val) :=
  policyFree_bind _ _ (fun _ => policyFree_bind _ _ (fun _ => policyFree_bind _ _ (fun _ =>
    policyFree_bind _ _ (fun _ => policyFree_bind _ _ (fun hr => policyFree_base hr)))))

theorem put_elementN_policyFree (sz : Nat) (idx : List Int) (val : Nat) :
    PolicyFree (fun p => safearray_t.put_elementN p sz idx val) :=
  policyFree_bind _ _ (fun _ => policyFree_bind _ _ (fun _ => policyFree_bind _ _ (fun _ =>
    policyFree_bind _ _ (fun hr => policyFree_base hr))))

theorem put_element_raw_policyFree (i : Int) (pv : Option Nat) :
    PolicyFree (fun p => safearray_t.put_element_raw p i pv) :=
  policyFree_bind _ _ (fun _ => policyFree_bind _ _ (fun _ => policyFree_bind _ _ (fun _ =>
    policyFree_bind _ _ (fun hr => policyFree_base hr))))

theorem count_policyFree (pc : Option Nat) :
    PolicyFreeOut (fun p => safearray_t.count p pc) :=
  policyFreeOut_bind _ _ (fun _ => policyFreeOut_bind _ _ (fun _ =>
    policyFreeOut_bind _ _ (fun _ => policyFreeOut_bind _ _ (fun x =>
      policyFreeOut_base x.1 (some x.2)))))

theorem dim_elements_policyFree (nDim : Nat) (pc : Option Nat) :
    PolicyFreeOut (fun p => safearray_t.dim_elements p nDim pc) :=
  policyFreeOut_bind _ _ (fun _ => policyFreeOut_bind _ _ (fun _ =>
    policyFreeOut_bind _ _ (fun _ => policyFreeOut_bind _ _ (fun _ =>
      policyFreeOut_bind _ _ (fun x => policyFreeOut_base x.1 (some x.2))))))

theorem lbound_policyFree (nDim : Nat) (pl : Option Int) :
    PolicyFreeOut (fun p => safearray_t.lbound p nDim pl) :=
  policyFreeOut_bind _ _ (fun self => policyFreeOut_bind _ _ (fun w =>
    policyFreeOut_bind _ _ (fun _ => policyFreeOut_bind _ _ (fun _ =>
      policyFreeOut_base (oleaut.SafeArrayGetLBound w self.get nDim pl).1
        (oleaut.SafeArrayGetLBound w self.get nDim pl).2))))

theorem ubound_policyFree (nDim : Nat) (pu : Option Int) :
    PolicyFreeOut (fun p => safearray_t.ubound p nDim pu) :=
  policyFreeOut_bind _ _ (fun self => policyFreeOut_bind _ _ (fun w =>
    policyFreeOut_bind _ _ (fun _ => policyFreeOut_bind _ _ (fun _ =>
      policyFreeOut_base (oleaut.SafeArrayGetUBound w self.get nDim pu).1
        (oleaut.SafeArrayGetUBound w self.get nDim pu).2))))

theorem lbound1_policyFree (pl : Option Int) :
    PolicyFreeOut (fun p => safearray_t.lbound1 p pl) :=
  policyFreeOut_bind _ _ (fun self => policyFreeOut_bind _ _ (fun w =>
    policyFreeOut_bind _ _ (fun _ => policyFreeOut_bind _ _ (fun _ =>
      policyFreeOut_base (oleaut.SafeArrayGetLBound w self.get 1 pl).1
        (oleaut.SafeArrayGetLBound w self.get 1 pl).2))))

theorem ubound1_policyFree (pu : Option Int) :
    PolicyFreeOut (fun p => safearray_t.ubound1 p pu) :=
  policyFreeOut_bind _ _ (fun self => policyFreeOut_bind _ _ (fun w =>
    policyFreeOut_bind _ _ (fun _ => policyFreeOut_bind _ _ (fun _ =>
      policyFreeOut_base (oleaut.SafeArrayGetUBound w self.get 1 pu).1
        (oleaut.SafeArrayGetUBound w self.get 1 pu).2))))

theorem get_element_policyFree (sz : Nat) (i : Int) (val : Nat) :
    PolicyFreeOut (fun p => safearray_t.get_element p sz i val) :=
  policyFreeOut_bind _ _ (fun _ => policyFreeOut_bind _ _ (fun _ =>
    policyFreeOut_bind _ _ (fun _ => policyFreeOut_bind _ _ (fun _ =>
      policyFreeOut_bind _ _ (fun x => policyFreeOut_base x.1 (x.2.getD val))))))

theorem get_elementN_policyFree (sz : Nat) (idx : List Int) (val : Nat) :
    PolicyFreeOut (fun p => safearray_t.get_elementN p sz idx val) :=
  policyFreeOut_bind _ _ (fun _ => policyFreeOut_bind _ _ (fun _ =>
    policyFreeOut_bind _ _ (fun _ =>
      policyFreeOut_bind _ _ (fun x => policyFreeOut_base x.1 (x.2.getD val)))))

theorem get_element_raw_policyFree (i : Int) (pv : Option Nat) :
    PolicyFreeOut (fun p => safearray_t.get_element_raw p i pv) :=
  policyFreeOut_bind _ _ (fun _ => policyFreeOut_bind _ _ (fun _ =>
    policyFreeOut_bind _ _ (fun _ =>
      policyFreeOut_bind _ _ (fun x => policyFreeOut_base x.1 x.2))))

/-- C18: every facade and view operation that takes the error policy (`create` in
its four forms, `create_copy`, `count`, `dim_elements`, `lbound` and `ubound` in
both forms, `put_element` and `get_element` in their typed, multi-index and raw
forms, and `access` of the view) is independent of the policy: from every state
there are one underlying outcome and one final state (owned handle, heap with its
lock counts, the view's begin and size) such that under each of the three policies
the operation ends in that same state with the policy's translation of that same
outcome, the content of the out parameter included. The translation under the
status-returning policy returns exactly the underlying status, and on an
underlying success every policy returns normally. -/
theorem policy_independence :
    (∀ vt cDims sab, PolicyFree (fun p => safearray_t.create p vt cDims sab))
    ∧ (∀ vt n lb, PolicyFree (fun p => safearray_t.create1 p vt n lb))
    ∧ (∀ T cDims sab, PolicyFree (fun p => safearray_t.createT p T cDims sab))
    ∧ (∀ T n lb, PolicyFree (fun p => safearray_t.createT1 p T n lb))
    ∧ (∀ src, PolicyFree (fun p => safearray_t.create_copy p src))
    ∧ (∀ pc, PolicyFreeOut (fun p => safearray_t.count p pc))
    ∧ (∀ nDim pc, PolicyFreeOut (fun p => safearray_t.dim_elements p nDim pc))
    ∧ (∀ nDim pl, PolicyFreeOut (fun p => safearray_t.lbound p nDim pl))
    ∧ (∀ nDim pu, PolicyFreeOut (fun p => safearray_t.ubound p nDim pu))
    ∧ (∀ pl, PolicyFreeOut (fun p => safearray_t.lbound1 p pl))
    ∧ (∀ pu, PolicyFreeOut (fun p => safearray_t.ubound1 p pu))
    ∧ (∀ sz i val, PolicyFree (fun p => safearray_t.put_element p sz i val))
    ∧ (∀ sz idx val, PolicyFree (fun p => safearray_t.put_elementN p sz idx val))
    ∧ (∀ i pv, PolicyFree (fun p => safearray_t.put_element_raw p i pv))
    ∧ (∀ sz i val, PolicyFreeOut (fun p => safearray_t.get_element p sz i val))
    ∧ (∀ sz idx val, PolicyFreeOut (fun p => safearray_t.get_elementN p sz idx val))
    ∧ (∀ i pv, PolicyFreeOut (fun p => safearray_t.get_element_raw p i pv))
    ∧ (∀ sz psa, PolicyFree (fun p => safearraydata_t.access p sz psa))
    ∧ (∀ hr, err_policy.returncode.translate (Res.ok hr) = Res.ok (result.status hr))
    ∧ (∀ (p : err_policy) hr, FAILED hr = false →
        p.translate (Res.ok hr) = Res.ok (p.wrap hr))
    ∧ (∀ (β : Type) hr (b : β),
        err_policy.returncode.translateOut (Res.ok (hr, b)) = Res.ok (result.status hr, b))
    ∧ (∀ (β : Type) (p : err_policy) hr (b : β), FAILED hr = false →
        p.translateOut (Res.ok (hr, b)) = Res.ok (p.wrap hr, b)) :=
  ⟨create_policyFree, create1_policyFree, createT_policyFree, createT1_policyFree,
    create_copy_policyFree, count_policyFree, dim_elements_policyFree, lbound_policyFree,
    ubound_policyFree, lbound1_policyFree, ubound1_policyFree, put_element_policyFree,
    put_elementN_policyFree, put_element_raw_policyFree, get_element_policyFree,
    get_elementN_policyFree, get_element_raw_policyFree, access_policyFree,
    translate_returncode, translate_success, fun _ _ _ => rfl,
    fun _ p hr b h => translateOut_success p hr b h⟩

/-! ### Claim C21: `create` of the earlier header checks its arguments -/

theorem platform_create_ok (vt : VARTYPE) (cDims : Nat) (sab : Option (List SAFEARRAYBOUND))
    (w : World) : ∃ sa w1, oleaut.SafeArrayCreate vt cDims sab w = (Res.ok sa, w1) := by
  rcases platform_create_eq vt cDims sab w with h | ⟨l, size, _, _, _, _, _, h⟩
  · exact ⟨_, _, h⟩
  · exact ⟨_, _, h⟩

theorem legacy_body_invalid (vt : VARTYPE) (cDims : Nat) (sab : Option (List SAFEARRAYBOUND))
    (self : unique_any) (w : World) (hbad : sab = none ∨ cDims < 1) :
    legacy.safearray_t.create.body vt cDims sab (self, w) = (Res.ok E_INVALIDARG, (self, w)) := by
  rcases hbad with h | h
  · subst h
    rfl
  · cases sab with
    | none => rfl
    | some l => simp [legacy.safearray_t.create.body, bind, Exec.bind, pure, h]

theorem legacy_body_null (vt : VARTYPE) (cDims : Nat) (l : List SAFEARRAYBOUND)
    (self : unique_any) (w w1 : World) (hd : 1 ≤ cDims)
    (hrun : oleaut.SafeArrayCreate vt cDims (some l) w = (Res.ok 0, w1)) :
    legacy.safearray_t.create.body vt cDims (some l) (self, w)
      = (Res.ok (GetLastErrorFailHr w1), (self, w1)) := by
  have hd2 : ¬ cDims < 1 := Nat.not_lt.2 hd
  simp [legacy.safearray_t.create.body, bind, Exec.bind, pure, inWorld, getWorld, hd2, hrun]

theorem legacy_body_reset (vt : VARTYPE) (cDims : Nat) (l : List SAFEARRAYBOUND)
    (self : unique_any) (w w1 : World) (sa : Handle) (hd : 1 ≤ cDims) (hsa : sa ≠ 0)
    (hrun : oleaut.SafeArrayCreate vt cDims (some l) w = (Res.ok sa, w1)) :
    legacy.safearray_t.create.body vt cDims (some l) (self, w)
      = (legacy.safearray_t.reset sa >>= fun _ => pure S_OK) (self, w1) := by
  have hd2 : ¬ cDims < 1 := Nat.not_lt.2 hd
  simp [legacy.safearray_t.create.body, bind, Exec.bind, pure, inWorld, hd2, hrun, hsa]

theorem legacy_create_eq (p : err_policy) (vt : VARTYPE) (cDims : Nat)
    (sab : Option (List SAFEARRAYBOUND)) (s : unique_any × World) :
    legacy.safearray_t.create p vt cDims sab s
      = (p.translate (legacy.safearray_t.create.body vt cDims sab s).1,
          (legacy.safearray_t.create.body vt cDims sab s).2) := by
  have heq : legacy.safearray_t.create p vt cDims sab s
      = (legacy.safearray_t.create.body vt cDims sab >>= fun hr => Exec.finish (p.HResult hr)) s :=
    rfl
  rw [heq, policy_bind_translate]

theorem legacy_create_valid (p : err_policy) (vt : VARTYPE) (cDims : Nat)
    (l : List SAFEARRAYBOUND) (self : unique_any) (w w1 : World) (sa : Handle) (hd : 1 ≤ cDims)
    (hsa : sa ≠ 0) (hrun : oleaut.SafeArrayCreate vt cDims (some l) w = (Res.ok sa, w1)) :
    (self.m_ptr = 0 →
        legacy.safearray_t.create p vt cDims (some l) (self, w)
          = (Res.ok p.success, ({ m_ptr := sa }, w1)))
    ∧ (self.m_ptr ≠ 0 → ∀ w2,
        legacy.details.SafeArrayDestory self.m_ptr w1 = (Res.ok (), w2) →
          legacy.safearray_t.create p vt cDims (some l) (self, w)
            = (Res.ok p.success, ({ m_ptr := sa }, w2)))
    ∧ (self.m_ptr ≠ 0 → ∀ r w2,
        legacy.details.SafeArrayDestory self.m_ptr w1 = (r, w2) → r ≠ Res.ok () →
          (legacy.safearray_t.create p vt cDims (some l) (self, w)).2.1 = self) := by
  have hbody := legacy_body_reset vt cDims l self w w1 sa hd hsa hrun
  have hreset := reset_eq legacy.details.SafeArrayDestory self sa w1
  refine ⟨?_, ?_, ?_⟩
  · intro h0
    rw [if_pos h0] at hreset
    rw [legacy_create_eq, hbody]
    simp only [bind, Exec.bind, legacy.safearray_t.reset, hreset, pure]
    simp [err_policy.translate, hresult_ok]
  · intro h0 w2 hclose
    rw [if_neg h0, hclose] at hreset
    rw [legacy_create_eq, hbody]
    simp only [bind, Exec.bind, legacy.safearray_t.reset, hreset, pure]
    simp [err_policy.translate, hresult_ok]
  · intro h0 r w2 hclose hr
    rw [if_neg h0, hclose] at hreset
    rw [legacy_create_eq, hbody]
    cases r with
    | ok u => exact absurd rfl hr
    | failFast => simp only [bind, Exec.bind, legacy.safearray_t.reset, hreset]
    | assertFail => simp only [bind, Exec.bind, legacy.safearray_t.reset, hreset]
    | thrown e => simp only [bind, Exec.bind, legacy.safearray_t.reset, hreset]

/-- C21: in `Safearrays.h`, `safearray_t::create(vt, cDims, sab)` with a null `sab`
or with `cDims < 1` returns `E_INVALIDARG` through the error policy (returned under
the status-returning policy, thrown or fatal under the other two) and leaves the
wrapper and the world as they were, so the platform allocation is not called and
the owned handle is not reset. When both checks pass and the platform returns
null, the last-error status goes through the policy and the wrapper is untouched;
when it returns an array, the wrapper is reset to it. The owned handle changes
only when both checks passed and the platform returned the non-null handle that
is then owned. -/
theorem legacy_create_checks_arguments (p : err_policy) (vt : VARTYPE) (cDims : Nat)
    (sab : Option (List SAFEARRAYBOUND)) (self : unique_any) (w : World) :
    ((sab = none ∨ cDims < 1) →
        legacy.safearray_t.create p vt cDims sab (self, w)
          = (p.HResult E_INVALIDARG, (self, w)))
    ∧ err_policy.returncode.HResult E_INVALIDARG = Res.ok (result.status E_INVALIDARG)
    ∧ err_policy.exception.HResult E_INVALIDARG = Res.thrown E_INVALIDARG
    ∧ err_policy.failfast.HResult E_INVALIDARG = Res.failFast
    ∧ (∀ sa w1, sab ≠ none → 1 ≤ cDims →
        oleaut.SafeArrayCreate vt cDims sab w = (Res.ok sa, w1) →
          (sa = 0 →
            legacy.safearray_t.create p vt cDims sab (self, w)
              = (p.HResult (GetLastErrorFailHr w1), (self, w1)))
          ∧ (sa ≠ 0 → self.m_ptr = 0 →
            legacy.safearray_t.create p vt cDims sab (self, w)
              = (Res.ok p.success, ({ m_ptr := sa }, w1)))
          ∧ (sa ≠ 0 → self.m_ptr ≠ 0 → ∀ w2,
            legacy.details.SafeArrayDestory self.m_ptr w1 = (Res.ok (), w2) →
              legacy.safearray_t.create p vt cDims sab (self, w)
                = (Res.ok p.success, ({ m_ptr := sa }, w2))))
    ∧ ((legacy.safearray_t.create p vt cDims sab (self, w)).2.1 ≠ self →
        sab ≠ none ∧ 1 ≤ cDims
        ∧ (legacy.safearray_t.create p vt cDims sab (self, w)).1 = Res.ok p.success
        ∧ (legacy.safearray_t.create p vt cDims sab (self, w)).2.1.m_ptr ≠ 0
        ∧ ∃ w1, oleaut.SafeArrayCreate vt cDims sab w
            = (Res.ok (legacy.safearray_t.create p vt cDims sab (self, w)).2.1.m_ptr, w1)) := by
  have hinv : (sab = none ∨ cDims < 1) →
      legacy.safearray_t.create p vt cDims sab (self, w)
        = (p.HResult E_INVALIDARG, (self, w)) := by
    intro hbad
    rw [legacy_create_eq, legacy_body_invalid vt cDims sab self w hbad]
    rfl
  refine ⟨hinv, rfl, rfl, rfl, ?_, ?_⟩
  · intro sa w1 hsab hd hrun
    cases sab with
    | none => exact absurd rfl hsab
    | some l =>
      refine ⟨?_, ?_, ?_⟩
      · intro h0
        subst h0
        rw [legacy_create_eq, legacy_body_null vt cDims l self w w1 hd hrun]
        rfl
      · intro hsa h0
        exact (legacy_create_valid p vt cDims l self w w1 sa hd hsa hrun).1 h0
      · intro hsa h0 w2 hclose
        exact (legacy_create_valid p vt cDims l self w w1 sa hd hsa hrun).2.1 h0 w2 hclose
  · intro hne
    by_cases hbad : sab = none ∨ cDims < 1
    · rw [hinv hbad] at hne
      exact absurd rfl hne
    · have hsab : sab ≠ none := fun h => hbad (Or.inl h)
      have hd : 1 ≤ cDims := Nat.not_lt.1 (fun h => hbad (Or.inr h))
      cases sab with
      | none => exact absurd rfl hsab
      | some l =>
        obtain ⟨sa, w1, hrun⟩ := platform_create_ok vt cDims (some l) w
        by_cases hsa : sa = 0
        · subst hsa
          have h := legacy_body_null vt cDims l self w w1 hd hrun
          rw [legacy_create_eq, h] at hne
          exact absurd rfl hne
        · have hv := legacy_create_valid p vt cDims l self w w1 sa hd hsa hrun
          by_cases h0 : self.m_ptr = 0
          · have h := hv.1 h0
            rw [h]
            exact ⟨hsab, hd, rfl, hsa, w1, hrun⟩
          · rcases hclose : legacy.details.SafeArrayDestory self.m_ptr w1 with ⟨r, w2⟩
            by_cases hr : r = Res.ok ()
            · subst hr
              have h := hv.2.1 h0 w2 hclose
              rw [h]
              refine ⟨hsab, hd, rfl, hsa, w1, hrun⟩
            · exact absurd (hv.2.2 h0 r w2 hclose hr) hne

/-- C21, witness: in the empty world `create(VT_I4, 0, sab)` under the
status-returning policy returns `E_INVALIDARG` and changes nothing, and
`create(VT_I4, 1, sab)` for five elements makes the wrapper own handle 1. -/
theorem legacy_create_checks_arguments_witness :
    legacy.safearray_t.create err_policy.returncode VT_I4 0 (some [⟨5, 0⟩])
        ({ m_ptr := 0 }, emptyWorld)
      = (Res.ok (result.status E_INVALIDARG), ({ m_ptr := 0 }, emptyWorld))
    ∧ (legacy.safearray_t.create err_policy.returncode VT_I4 1 (some [⟨5, 0⟩])
        ({ m_ptr := 0 }, emptyWorld)).2.1 = { m_ptr := 1 } :=
  ⟨(legacy_create_checks_arguments err_policy.returncode VT_I4 0 (some [⟨5, 0⟩])
      { m_ptr := 0 } emptyWorld).1 (Or.inr (by decide)),
    by decide⟩

/-! ### Claim C22: the scoped unlock guard of the earlier header -/

/-- C22, the code at the failing input: in `Safearrays.h`,
`SafeArrayUnlock_scope_exit(psa)` and `scope_lock()` wrap the handle without
calling the platform, so the lock count stays at `c` instead of `c + 1`; the
guard's destructor then unlocks, which leaves `c - 1` on the array of
`lockedWorld` (two locks before, one after) and terminates the process on the
array of `shortsWorld`, which has no lock. The current header takes the lock
first and ends balanced on the same input. -/
theorem legacy_scope_exit_takes_no_lock :
    lockedWorld.lockCount 1 = some 2
    ∧ (legacy.SafeArrayUnlock_scope_exit 1 lockedWorld).1 = Res.ok { m_ptr := 1 }
    ∧ (legacy.SafeArrayUnlock_scope_exit 1 lockedWorld).2.lockCount 1 = some 2
    ∧ (legacy.SafeArrayUnlock_scope_exit 1 lockedWorld).2.calls = []
    ∧ (unique_any.destroy legacy.details.SafeArrayUnlock
        ({ m_ptr := 1 }, (legacy.SafeArrayUnlock_scope_exit 1 lockedWorld).2)).1 = Res.ok ()
    ∧ (unique_any.destroy legacy.details.SafeArrayUnlock
        ({ m_ptr := 1 }, (legacy.SafeArrayUnlock_scope_exit 1 lockedWorld).2)).2.2.lockCount 1
        = some 1
    ∧ shortsWorld.lockCount 1 = some 0
    ∧ (legacy.safearray_t.scope_lock { m_ptr := 1 } shortsWorld).1 = Res.ok { m_ptr := 1 }
    ∧ legacyGuardDropped.1 = Res.failFast
    ∧ (SafeArrayUnlock_scope_exit 1 lockedWorld).2.lockCount 1 = some 3
    ∧ (unique_any.destroy details.SafeArrayUnlock
        ({ m_ptr := 1 }, (SafeArrayUnlock_scope_exit 1 lockedWorld).2)).2.2.lockCount 1
        = some 2 := by
  decide

/-! ### Claim C23: the element count of the earlier header -/

theorem legacy_factor (lb : Int) (c : Nat) (hc : c ≤ 2147483647) :
    toULONGLONG (toLONG (toLONG (toLONG (lb + c - 1) - lb) + 1)) = c := by
  have h : toLONG (toLONG (toLONG (lb + c - 1) - lb) + 1) = (c : Int) := by
    unfold toLONG
    omega
  rw [h]
  unfold toULONGLONG
  omega

theorem boundOf_reverse (a : SAFEARRAY) (k : Nat) (hk : k < a.cDims) :
    oleaut.boundOf a (k + 1) = a.rgsabound.reverse[k]? := by
  have hk2 : k < a.rgsabound.length := hk
  have hcond : ¬ (k + 1 = 0 ∨ a.cDims < k + 1) := by
    intro h
    rcases h with h | h
    · omega
    · omega
  unfold oleaut.boundOf
  rw [if_neg hcond, List.getElem?_reverse hk2]
  unfold SAFEARRAY.cDims
  congr 1
  omega

theorem legacy_loop_eq (w : World) (h : Handle) (a : SAFEARRAY) (ha : w.deref h = some a)
    (hsmall : ∀ b ∈ a.rgsabound, b.cElements ≤ 2147483647) :
    ∀ (m k acc : Nat) (lb ub : Int), k + m = a.cDims →
      legacy.details.SafeArrayCountElements.loop w h (List.range' (k + 1) m) acc lb ub
        = details.SafeArrayCountElements.loop (a.rgsabound.reverse.drop k) acc := by
  intro m
  induction m with
  | zero =>
    intro k acc lb ub hk
    have hlen : a.rgsabound.reverse.length ≤ k := by
      rw [List.length_reverse]
      have : k = a.rgsabound.length := by simpa [SAFEARRAY.cDims] using hk
      omega
    rw [List.drop_eq_nil_of_le hlen]
    rfl
  | succ m ih =>
    intro k acc lb ub hk
    have hk1 : k < a.cDims := by omega
    have hk2 : k < a.rgsabound.reverse.length := by
      rw [List.length_reverse]; exact hk1
    obtain ⟨b, hbdef⟩ : ∃ b, a.rgsabound.reverse[k] = b := ⟨_, rfl⟩
    have hb := boundOf_reverse a k hk1
    rw [List.getElem?_eq_getElem hk2, hbdef] at hb
    have hmem : b ∈ a.rgsabound := by
      rw [← hbdef]
      exact List.mem_reverse.1 (List.getElem_mem hk2)
    have hfac := legacy_factor b.lLbound b.cElements (hsmall _ hmem)
    rw [List.drop_eq_getElem_cons hk2, hbdef]
    have hrange : List.range' (k + 1) (m + 1) = (k + 1) :: List.range' (k + 1 + 1) m := rfl
    rw [hrange]
    have ih2 := ih (k + 1) ((acc * b.cElements) % 2 ^ 64) b.lLbound
      (toLONG (b.lLbound + b.cElements - 1)) (by omega)
    simp only [legacy.details.SafeArrayCountElements.loop, oleaut.SafeArrayGetLBound,
      oleaut.SafeArrayGetUBound, ha, hb, FAILED, S_OK, Option.getD_some,
      details.SafeArrayCountElements.loop, details.SafeArrayCountElements.step, hfac]
    have hd : decide ((2147483648 : Nat) ≤ 0) = false := by decide
    simp only [hd, Bool.false_eq_true, if_false]
    by_cases hov : acc * b.cElements % 2 ^ 64 > ULONG_MAX
    · rw [if_pos hov, if_pos hov]
    · rw [if_neg hov, if_neg hov, ih2]

theorem legacy_count_of_loop (w : World) (h : Handle) (a : SAFEARRAY) (old : Nat)
    (ha : w.deref h = some a) (hsmall : ∀ b ∈ a.rgsabound, b.cElements ≤ 2147483647) :
    (∀ r, details.SafeArrayCountElements.loop a.rgsabound.reverse 1 = Except.ok r →
        legacy.details.SafeArrayCountElements w h (some old) = (S_OK, some (r % 2 ^ 32)))
    ∧ (∀ e, details.SafeArrayCountElements.loop a.rgsabound.reverse 1 = Except.error e →
        legacy.details.SafeArrayCountElements w h (some old) = (e, some old)) := by
  have hh := ne_zero_of_deref w h a ha
  have hloop := legacy_loop_eq w h a ha hsmall a.cDims 0 1 0 0 (by omega)
  rw [List.drop_zero] at hloop
  have hdim : oleaut.SafeArrayGetDim w h = a.cDims := by
    simp [oleaut.SafeArrayGetDim, ha]
  constructor
  · intro r hr
    rw [hr] at hloop
    simp only [legacy.details.SafeArrayCountElements, if_neg hh, hdim]
    rw [hloop]
  · intro e he
    rw [he] at hloop
    simp only [legacy.details.SafeArrayCountElements, if_neg hh, hdim]
    rw [hloop]

theorem prod_reverse_counts (bs : List SAFEARRAYBOUND) :
    (bs.reverse.map (fun b => b.cElements)).prod = (bs.map (fun b => b.cElements)).prod := by
  rw [List.map_reverse, List.prod_reverse]

/-- C23, counterexample: the array of `emptyCubeWorld` has the dimensions
65536 x 65536 x 0, so the product of its element counts is 0, which is at most
`ULONG_MAX`; `details::SafeArrayCountElements` of `Safearrays.h` visits the
dimensions from the first and returns the overflow error at the second, leaving
`*pCount` as it was. -/
theorem legacy_count_zero_product_overflows :
    (emptyCubeWorld.deref 1).map SAFEARRAY.elemProduct = some 0
    ∧ (0 : Nat) ≤ ULONG_MAX
    ∧ legacy.details.SafeArrayCountElements emptyCubeWorld 1 (some 7)
        = (HRESULT_FROM_WIN32 ERROR_ARITHMETIC_OVERFLOW, some 7)
    ∧ legacy.details.SafeArrayCountElements emptyCubeWorld 1 (some 7) ≠ (S_OK, some 0)
    ∧ (legacy.safearray_t.count err_policy.returncode (some 7)
        ({ m_ptr := 1 }, emptyCubeWorld)).1 = Res.ok (result.status 0x80070216, some 7) := by
  decide

/-- C23, as amended: in `Safearrays.h`, for every non-null array whose dimensions
have at most `2^31 - 1` elements each and every non-null `pCount`,
`details::SafeArrayCountElements` returns `S_OK` with the product of all
per-dimension element counts whenever every product of the counts of the
dimensions 1 to `k` is at most `ULONG_MAX`, which is the case whenever the whole
product is at most `ULONG_MAX` and no dimension is empty; and it returns the
overflow error, with `*pCount` left as it was, whenever the whole product exceeds
`ULONG_MAX`. The facade's `count` passes that status through the policy. -/
theorem legacy_count_returns_product (w : World) (h : Handle) (a : SAFEARRAY) (old : Nat)
    (ha : w.deref h = some a) (hsmall : ∀ b ∈ a.rgsabound, b.cElements ≤ 2147483647) :
    ((∀ k, k ≤ a.cDims →
          ((a.rgsabound.reverse.take k).map (fun b => b.cElements)).prod ≤ ULONG_MAX) →
        legacy.details.SafeArrayCountElements w h (some old) = (S_OK, some a.elemProduct))
    ∧ (a.elemProduct ≤ ULONG_MAX → (∀ b ∈ a.rgsabound, b.cElements ≠ 0) →
        legacy.details.SafeArrayCountElements w h (some old) = (S_OK, some a.elemProduct))
    ∧ (ULONG_MAX < a.elemProduct →
        legacy.details.SafeArrayCountElements w h (some old)
          = (HRESULT_FROM_WIN32 ERROR_ARITHMETIC_OVERFLOW, some old))
    ∧ ∀ p : err_policy,
        legacy.safearray_t.count p (some old) ({ m_ptr := h }, w)
          = (p.translateOut (Res.ok (legacy.details.SafeArrayCountElements w h (some old))),
              ({ m_ptr := h }, w)) := by
  have hof := legacy_count_of_loop w h a old ha hsmall
  have hbound : ∀ b ∈ a.rgsabound.reverse, b.cElements ≤ ULONG_MAX := by
    intro b hb
    have := hsmall b (List.mem_reverse.1 hb)
    unfold ULONG_MAX
    omega
  have hspec := loop_spec a.rgsabound.reverse 1 (by decide) hbound
  simp only [one_mul, List.length_reverse] at hspec
  have hprod := prod_reverse_counts a.rgsabound
  have hlead : (∀ k, k ≤ a.cDims →
        ((a.rgsabound.reverse.take k).map (fun b => b.cElements)).prod ≤ ULONG_MAX) →
      legacy.details.SafeArrayCountElements w h (some old) = (S_OK, some a.elemProduct) := by
    intro hall
    rcases hspec with ⟨hok, hle⟩ | ⟨_, k, hk, hgt⟩
    · rw [hof.1 _ hok, hprod]
      have htot := hle a.rgsabound.length (Nat.le_refl _)
      rw [List.take_of_length_le (by rw [List.length_reverse]), hprod] at htot
      have hmod : (a.rgsabound.map (fun b => b.cElements)).prod % 2 ^ 32
          = (a.rgsabound.map (fun b => b.cElements)).prod := by
        apply Nat.mod_eq_of_lt
        unfold ULONG_MAX at htot
        omega
      rw [hmod]
      rfl
    · exact absurd (hall k hk) (Nat.not_le.2 hgt)
  refine ⟨hlead, ?_, ?_, ?_⟩
  · intro htot hpos
    apply hlead
    intro k _
    have hpos2 : ∀ b ∈ a.rgsabound.reverse, b.cElements ≠ 0 :=
      fun b hb => hpos b (List.mem_reverse.1 hb)
    have := lead_le_of_pos a.rgsabound.reverse hpos2 k
    rw [hprod] at this
    exact Nat.le_trans this htot
  · intro hgt
    rcases hspec with ⟨_, hle⟩ | ⟨herr, _⟩
    · have htot := hle a.rgsabound.length (Nat.le_refl _)
      rw [List.take_of_length_le (by rw [List.length_reverse]), hprod] at htot
      exact absurd htot (Nat.not_le.2 hgt)
    · exact hof.2 _ herr
  · intro p
    rcases hc : legacy.details.SafeArrayCountElements w h (some old) with ⟨hr, out⟩
    simp only [legacy.safearray_t.count, getSelf, inWorld, getWorld, bind, Exec.bind, pure,
      unique_any.get, hc, Exec.finish, err_policy.translateOut]
    cases p.HResult hr <;> rfl

/-- C23, witness: the 2 x 3 array at handle 1 of `lockedWorld` has dimensions of
at most `2^31 - 1` elements and none is empty; the count is 6. -/
theorem legacy_count_returns_product_witness :
    lockedWorld.deref 1 = some { twoByThree with cLocks := 2 }
    ∧ legacy.details.SafeArrayCountElements lockedWorld 1 (some 7) = (S_OK, some 6) :=
  ⟨by decide,
    (legacy_count_returns_product lockedWorld 1 { twoByThree with cLocks := 2 } 7 (by decide)
      (by decide)).2.1 (by decide) (by decide)⟩

/-- A dimension of more than `2^31 - 1` elements: the array of `bigWorld` has one dimension
of 3000000000 elements, so the product of its element counts is 3000000000, which
is at most `ULONG_MAX`; `details::SafeArrayCountElements` of `Safearrays.h`
returns the overflow error and leaves `*pCount` as it was, because
`nUbound - nLbound + 1` is -1294967296 as a `LONG` and becomes a factor above
`2^63` when widened. The current header returns `S_OK` and 3000000000 on the
same array, and both agree on the 2 x 3 array. -/
theorem legacy_count_rejects_large_dimension :
    (bigWorld.deref 1).map SAFEARRAY.elemProduct = some 3000000000
    ∧ (3000000000 : Nat) ≤ ULONG_MAX
    ∧ oleaut.SafeArrayGetLBound bigWorld 1 1 (some 0) = (S_OK, some 0)
    ∧ oleaut.SafeArrayGetUBound bigWorld 1 1 (some 0) = (S_OK, some (-1294967297))
    ∧ toLONG (toLONG (-1294967297 - 0) + 1) = -1294967296
    ∧ toULONGLONG (-1294967296) = 18446744072414584320
    ∧ legacy.details.SafeArrayCountElements bigWorld 1 (some 7)
        = (HRESULT_FROM_WIN32 ERROR_ARITHMETIC_OVERFLOW, some 7)
    ∧ (legacy.safearray_t.count err_policy.returncode (some 7) ({ m_ptr := 1 }, bigWorld)).1
        = Res.ok (result.status 0x80070216, some 7)
    ∧ details.SafeArrayCountElements (bigWorld.deref 1) (some 7) = Res.ok (S_OK, 3000000000)
    ∧ legacy.details.SafeArrayCountElements lockedWorld 1 (some 7) = (S_OK, some 6) := by
  decide

/-! ### Claim C24: the element count of a null handle -/

/-- C24: `details::SafeArrayCountElements` called with a null array handle and a
non-null `pCount` returns `S_OK` and writes 0 to `*pCount`, whatever `*pCount`
held; no other outcome is possible, so no error is reported. The facade's `count`
on a wrapper that owns nothing therefore succeeds with 0 under every policy and
changes nothing. -/
theorem count_null_is_zero (old : Nat) :
    details.SafeArrayCountElements none (some old) = Res.ok (S_OK, 0)
    ∧ (∀ r, details.SafeArrayCountElements none (some old) = r → r = Res.ok (S_OK, 0))
    ∧ FAILED S_OK = false
    ∧ (∀ w : World, details.SafeArrayCountElements (w.deref 0) (some old) = Res.ok (S_OK, 0))
    ∧ ∀ (p : err_policy) (w : World),
        safearray_t.count p (some old) ({ m_ptr := 0 }, w)
          = (Res.ok (p.success, some 0), ({ m_ptr := 0 }, w)) := by
  refine ⟨rfl, fun r hr => hr.symm, rfl, fun w => rfl, ?_⟩
  intro p w
  have hd : w.deref 0 = none := rfl
  simp [safearray_t.count, getSelf, inWorld, getWorld, WI_ASSERT, Exec.finish, bind,
    Exec.bind, pure, unique_any.get, hd, details.SafeArrayCountElements, hresult_ok]

/-! ### Claim C25: the element type tag of a handle -/

/-- C25: `details::SafeArrayGetVartype`, and with it the facade's `vartype()`, is
a total function that returns `VT_NULL` for the null handle, in every world (the
platform is not consulted); `VT_EMPTY` for a non-null handle on which the platform
type query fails; and the tag the platform reports when the query succeeds.
Neither `VT_NULL` nor `VT_EMPTY` is an element tag, so when the platform reports
element tags the result is `VT_NULL` only for the null handle and `VT_EMPTY` only
for a failed query. -/
theorem vartype_three_cases (w : World) (psa : Handle) :
    (psa = 0 → details.SafeArrayGetVartype w psa = VT_NULL)
    ∧ (∀ w2 : World, details.SafeArrayGetVartype w2 0 = VT_NULL)
    ∧ (psa ≠ 0 → FAILED (oleaut.SafeArrayGetVartype w psa VT_NULL).1 = true →
        details.SafeArrayGetVartype w psa = VT_EMPTY)
    ∧ (psa ≠ 0 → FAILED (oleaut.SafeArrayGetVartype w psa VT_NULL).1 = false →
        details.SafeArrayGetVartype w psa = (oleaut.SafeArrayGetVartype w psa VT_NULL).2)
    ∧ oleaut.elemSizeOf VT_NULL = none ∧ oleaut.elemSizeOf VT_EMPTY = none
    ∧ VT_NULL ≠ VT_EMPTY
    ∧ ((FAILED (oleaut.SafeArrayGetVartype w psa VT_NULL).1 = false →
          oleaut.elemSizeOf (oleaut.SafeArrayGetVartype w psa VT_NULL).2 ≠ none) →
        (details.SafeArrayGetVartype w psa = VT_NULL ↔ psa = 0)
        ∧ (details.SafeArrayGetVartype w psa = VT_EMPTY
            ↔ psa ≠ 0 ∧ FAILED (oleaut.SafeArrayGetVartype w psa VT_NULL).1 = true))
    ∧ safearray_t.vartype { m_ptr := psa } w = details.SafeArrayGetVartype w psa := by
  have hnull : psa = 0 → details.SafeArrayGetVartype w psa = VT_NULL := by
    intro h
    simp [details.SafeArrayGetVartype, h]
  have hfail : psa ≠ 0 → FAILED (oleaut.SafeArrayGetVartype w psa VT_NULL).1 = true →
      details.SafeArrayGetVartype w psa = VT_EMPTY := by
    intro h hf
    simp [details.SafeArrayGetVartype, h, hf]
  have hok : psa ≠ 0 → FAILED (oleaut.SafeArrayGetVartype w psa VT_NULL).1 = false →
      details.SafeArrayGetVartype w psa = (oleaut.SafeArrayGetVartype w psa VT_NULL).2 := by
    intro h hf
    simp [details.SafeArrayGetVartype, h, hf]
  refine ⟨hnull, fun w2 => by simp [details.SafeArrayGetVartype], hfail, hok, by decide,
    by decide, by decide, ?_, rfl⟩
  intro htag
  by_cases h0 : psa = 0
  · refine ⟨⟨fun _ => h0, fun _ => hnull h0⟩, ⟨fun he => ?_, fun hx => absurd h0 hx.1⟩⟩
    rw [hnull h0] at he
    exact absurd he (by decide)
  · cases hf : FAILED (oleaut.SafeArrayGetVartype w psa VT_NULL).1 with
    | true =>
      refine ⟨⟨fun he => ?_, fun hx => absurd hx h0⟩, ⟨fun _ => ⟨h0, rfl⟩, fun _ => hfail h0 hf⟩⟩
      rw [hfail h0 hf] at he
      exact absurd he (by decide)
    | false =>
      have hne := htag hf
      refine ⟨⟨fun he => ?_, fun hx => absurd hx h0⟩, ⟨fun he => ?_, fun hx => ?_⟩⟩
      · rw [hok h0 hf] at he
        rw [he] at hne
        exact absurd (by decide) hne
      · rw [hok h0 hf] at he
        rw [he] at hne
        exact absurd (by decide) hne
      · exact absurd hx.2 (by simp)

/-- C25, witness: the array at handle 1 of `shortsWorld` carries the tag `VT_I2`,
which `vartype()` returns; handle 5 designates no array, so the query fails and
`vartype()` is `VT_EMPTY`; the null handle gives `VT_NULL`. -/
theorem vartype_three_cases_witness :
    safearray_t.vartype { m_ptr := 1 } shortsWorld = VT_I2
    ∧ details.SafeArrayGetVartype shortsWorld 5 = VT_EMPTY
    ∧ details.SafeArrayGetVartype shortsWorld 0 = VT_NULL :=
  ⟨((vartype_three_cases shortsWorld 1).2.2.2.2.2.2.2.2).trans
      (((vartype_three_cases shortsWorld 1).2.2.2.1 (by decide) (by decide)).trans (by decide)),
    (vartype_three_cases shortsWorld 5).2.2.1 (by decide) (by decide),
    (vartype_three_cases shortsWorld 0).1 rfl⟩

/-! ### Claim C26: overflow is decided on the products of the leading dimensions -/

theorem count_dichotomy (a : SAFEARRAY) (old : Nat) (hwf : a.WF) :
    (details.SafeArrayCountElements (some a) (some old) = Res.ok (S_OK, a.elemProduct)
      ∧ ∀ k, k ≤ a.cDims → a.leadProduct k ≤ ULONG_MAX)
    ∨ (details.SafeArrayCountElements (some a) (some old)
        = Res.ok (HRESULT_FROM_WIN32 ERROR_ARITHMETIC_OVERFLOW, old)
      ∧ ∃ k, k < a.cDims ∧ ULONG_MAX < a.leadProduct (k + 1)) := by
  have hspec := loop_spec a.rgsabound 1 (by decide) (wf_cElements a hwf)
  simp only [one_mul] at hspec
  rcases hspec with ⟨_, hle⟩ | ⟨herr, k, hk, hgt⟩
  · exact Or.inl ⟨count_ok_of_lead a old hwf hle, hle⟩
  · right
    constructor
    · simp [details.SafeArrayCountElements, herr]
    · cases k with
      | zero =>
        simp [ULONG_MAX] at hgt
      | succ j => exact ⟨j, hk, hgt⟩

/-- C26: on a non-null array whose per-dimension counts are 32-bit values,
`details::SafeArrayCountElements` returns the overflow error, leaving `*pCount` as
it was, if and only if some product `d_0 * ... * d_k` of the element counts of the
leading dimensions in stored order exceeds `ULONG_MAX`; otherwise it returns
`S_OK` with the product of all counts. The outcome therefore depends on the stored
order: `zeroAfterOverflow` (65536, 65536, 0) and `zeroFirst` (0, 65536, 65536)
have the same counts, and the first reports the overflow while the second
returns `S_OK` and 0. -/
theorem count_overflow_iff_leading_product (a : SAFEARRAY) (old : Nat) (hwf : a.WF) :
    (details.SafeArrayCountElements (some a) (some old)
        = Res.ok (HRESULT_FROM_WIN32 ERROR_ARITHMETIC_OVERFLOW, old)
      ↔ ∃ k, k < a.cDims ∧ ULONG_MAX < a.leadProduct (k + 1))
    ∧ ((¬ ∃ k, k < a.cDims ∧ ULONG_MAX < a.leadProduct (k + 1)) →
        details.SafeArrayCountElements (some a) (some old) = Res.ok (S_OK, a.elemProduct))
    ∧ (details.SafeArrayCountElements (some a) (some old) = Res.ok (S_OK, a.elemProduct)
        ∨ details.SafeArrayCountElements (some a) (some old)
          = Res.ok (HRESULT_FROM_WIN32 ERROR_ARITHMETIC_OVERFLOW, old))
    ∧ (zeroAfterOverflow.rgsabound.Perm zeroFirst.rgsabound
        ∧ zeroAfterOverflow.WF ∧ zeroFirst.WF
        ∧ details.SafeArrayCountElements (some zeroAfterOverflow) (some old)
            = Res.ok (HRESULT_FROM_WIN32 ERROR_ARITHMETIC_OVERFLOW, old)
        ∧ details.SafeArrayCountElements (some zeroFirst) (some old) = Res.ok (S_OK, 0)) := by
  have hdich := count_dichotomy a old hwf
  refine ⟨⟨?_, ?_⟩, ?_, ?_, ?_⟩
  · intro herr
    rcases hdich with ⟨hok, _⟩ | ⟨_, hex⟩
    · rw [hok] at herr
      have hne := overflow_hr_ne_ok
      simp only [Res.ok.injEq, Prod.mk.injEq] at herr
      exact absurd herr.1.symm hne
    · exact hex
  · rintro ⟨k, hk, hgt⟩
    rcases hdich with ⟨_, hle⟩ | ⟨herr, _⟩
    · exact absurd (hle (k + 1) hk) (Nat.not_le.2 hgt)
    · exact herr
  · intro hno
    rcases hdich with ⟨hok, _⟩ | ⟨_, hex⟩
    · exact hok
    · exact absurd hex hno
  · rcases hdich with ⟨hok, _⟩ | ⟨herr, _⟩
    · exact Or.inl hok
    · exact Or.inr herr
  · have hperm : zeroAfterOverflow.rgsabound.Perm zeroFirst.rgsabound := by
      have hrev : zeroAfterOverflow.rgsabound = zeroFirst.rgsabound.reverse := by decide
      rw [hrev]
      exact List.reverse_perm _
    refine ⟨hperm, by decide, by decide, ?_, ?_⟩
    · have h1 : details.SafeArrayCountElements.loop zeroAfterOverflow.rgsabound 1
          = Except.error (HRESULT_FROM_WIN32 ERROR_ARITHMETIC_OVERFLOW) := by rfl
      simp [details.SafeArrayCountElements, h1]
    · have h2 : details.SafeArrayCountElements.loop zeroFirst.rgsabound 1 = Except.ok 0 := by
        rfl
      simp [details.SafeArrayCountElements, h2]

/-- C26, witness: `squareOverflow` (65536 x 65536) is well formed and the product
of its two leading counts exceeds `ULONG_MAX`, so the overflow error is
returned. -/
theorem count_overflow_iff_leading_product_witness :
    squareOverflow.WF
    ∧ details.SafeArrayCountElements (some squareOverflow) (some 7)
        = Res.ok (HRESULT_FROM_WIN32 ERROR_ARITHMETIC_OVERFLOW, 7) :=
  ⟨by decide,
    (count_overflow_iff_leading_product squareOverflow 7 (by decide)).1.2
      ⟨1, by decide, by decide⟩⟩

/-! ### Claim C30: the count is the product of the per-dimension counts -/

theorem reversed_index_enumerates (n : Nat) :
    (List.range n).map (fun i => n - (i + 1)) = (List.range n).reverse := by
  apply List.ext_getElem
  · simp
  · intro i h1 h2
    have hi : i < n := by simpa using h1
    simp only [List.getElem_map, List.getElem_range, List.getElem_reverse, List.length_range]
    omega

theorem dim_entries_reverse (l : List SAFEARRAYBOUND) (d : SAFEARRAYBOUND) :
    (List.range l.length).map (fun i => l.getD (l.length - (i + 1)) d) = l.reverse := by
  apply List.ext_getElem
  · simp
  · intro i h1 h2
    have hi : i < l.length := by simpa using h1
    have hj : l.length - (i + 1) < l.length := by omega
    simp only [List.getElem_map, List.getElem_range, List.getElem_reverse]
    rw [List.getD_eq_getElem l d hj]
    congr 1
    omega

theorem dimElements_eq (a : SAFEARRAY) (nDim : Nat) (h1 : 1 ≤ nDim) (h2 : nDim ≤ a.cDims) :
    dimElements a nDim = (a.rgsabound.getD (a.cDims - nDim) ⟨0, 0⟩).cElements := by
  unfold dimElements
  rw [details_dim_count_in a nDim 0 h1 h2 _ rfl]

theorem dim_counts_reverse (a : SAFEARRAY) :
    (List.range a.cDims).map (fun i => dimElements a (i + 1))
      = a.rgsabound.reverse.map (fun b => b.cElements) := by
  rw [← dim_entries_reverse a.rgsabound ⟨0, 0⟩, List.map_map]
  apply List.map_congr_left
  intro i hi
  have hi2 : i < a.cDims := List.mem_range.1 hi
  exact dimElements_eq a (i + 1) (by omega) hi2


/-- C30: for every non-null array with 32-bit per-dimension counts for which the
count succeeds, the count is the product over `nDim = 1..dim()` of
`dim_elements(nDim)`; each of these calls succeeds, and the reversed index
`cDims - nDim` they use runs through the stored bounds from the last to the first,
every index exactly once. The same holds for `count` and `dim_elements` of the
facade under every policy. -/
theorem count_is_product_of_dim_elements (a : SAFEARRAY) (old n : Nat) (hwf : a.WF)
    (hok : details.SafeArrayCountElements (some a) (some old) = Res.ok (S_OK, n)) :
    n = ((List.range a.cDims).map (fun i => dimElements a (i + 1))).prod
    ∧ (∀ nDim old2, 1 ≤ nDim → nDim ≤ a.cDims →
        details.SafeArrayDimElementCount (some a) nDim (some old2)
          = Res.ok (S_OK, dimElements a nDim))
    ∧ (List.range a.cDims).map (fun i => a.cDims - (i + 1)) = (List.range a.cDims).reverse
    ∧ ((List.range a.cDims).map (fun i => a.cDims - (i + 1))).Perm (List.range a.cDims)
    ∧ (List.range a.cDims).map (fun i => a.rgsabound.getD (a.cDims - (i + 1)) ⟨0, 0⟩)
        = a.rgsabound.reverse
    ∧ ∀ (p : err_policy) (w : World) (h : Handle), w.deref h = some a →
        safearray_t.count p (some old) ({ m_ptr := h }, w)
          = (Res.ok (p.success, some n), ({ m_ptr := h }, w))
        ∧ ∀ nDim old2, 1 ≤ nDim → nDim ≤ safearray_t.dim { m_ptr := h } w →
            safearray_t.dim_elements p nDim (some old2) ({ m_ptr := h }, w)
              = (Res.ok (p.success, some (dimElements a nDim)), ({ m_ptr := h }, w)) := by
  have hval := (count_ok_value a old n hwf hok).1
  have hdet : ∀ nDim old2, 1 ≤ nDim → nDim ≤ a.cDims →
      details.SafeArrayDimElementCount (some a) nDim (some old2)
        = Res.ok (S_OK, dimElements a nDim) := by
    intro nDim old2 h1 h2
    rw [dimElements_eq a nDim h1 h2]
    exact details_dim_count_in a nDim old2 h1 h2 _ rfl
  refine ⟨?_, hdet, reversed_index_enumerates _, ?_, dim_entries_reverse _ _, ?_⟩
  · rw [hval, dim_counts_reverse, prod_reverse_counts]
    rfl
  · rw [reversed_index_enumerates]
    exact List.reverse_perm _
  · intro p w h ha
    refine ⟨facade_count_ok p w h a old n ha hok, ?_⟩
    intro nDim old2 h1 h2
    have hdim : safearray_t.dim { m_ptr := h } w = a.cDims := by
      simp [safearray_t.dim, oleaut.SafeArrayGetDim, unique_any.get, ha]
    rw [hdim] at h2
    have hpos : 0 < nDim := h1
    simp [safearray_t.dim_elements, getSelf, inWorld, getWorld, WI_ASSERT, Exec.finish,
      bind, Exec.bind, pure, unique_any.get, ha, hdim, hpos, h2, hdet nDim old2 h1 h2,
      hresult_ok]

/-- C30, witness: the 2 x 3 array has the count 6, which is `dim_elements(1)` = 2
times `dim_elements(2)` = 3. -/
theorem count_is_product_of_dim_elements_witness :
    twoByThree.WF
    ∧ details.SafeArrayCountElements (some twoByThree) (some 7) = Res.ok (S_OK, 6)
    ∧ dimElements twoByThree 1 = 2 ∧ dimElements twoByThree 2 = 3
    ∧ (6 : Nat) = ((List.range twoByThree.cDims).map
        (fun i => dimElements twoByThree (i + 1))).prod :=
  ⟨by decide, by decide, by decide, by decide,
    (count_is_product_of_dim_elements twoByThree 7 6 (by decide) (by decide)).1⟩

/-! ### Claims C27 to C29: the state of a view across `access` and moves -/

theorem count_total_size (a : SAFEARRAY) (n : Nat) :
    ∃ hr m, details.SafeArrayCountElements (some a) (some n) = Res.ok (hr, m)
      ∧ (hr = S_OK ∨ (FAILED hr = true ∧ m = n)) := by
  cases hloop : details.SafeArrayCountElements.loop a.rgsabound 1 with
  | error e =>
    refine ⟨e, n, by simp [details.SafeArrayCountElements, hloop], Or.inr ⟨?_, rfl⟩⟩
    rw [loop_error_eq _ _ _ hloop]
    decide
  | ok r =>
    exact ⟨S_OK, r % 2 ^ 32, by simp [details.SafeArrayCountElements, hloop], Or.inl rfl⟩

/-- Every way `access(h)` on a view `v` can end: the element-size assertion fails
and nothing changes; or the process is terminated, with the guard and the size of
the view as they were; or the call gets as far as the count, under the lock taken
on `h` and with the lock the view held before released. -/
theorem access_cases (p : err_policy) (sz : Nat) (h : Handle) (v : safearraydata_t)
    (w : World) :
    safearraydata_t.access p sz h (v, w) = (Res.assertFail, (v, w))
    ∨ ((safearraydata_t.access p sz h (v, w)).1 = Res.failFast
        ∧ (safearraydata_t.access p sz h (v, w)).2.1.m_nSize = v.m_nSize
        ∧ (safearraydata_t.access p sz h (v, w)).2.1.m_unaccess = v.m_unaccess
        ∧ (v.m_unaccess.m_ptr = 0 → (safearraydata_t.access p sz h (v, w)).2.1 = v))
    ∨ ∃ a hr m, w.deref h = some a ∧ h ≠ 0
        ∧ details.SafeArrayCountElements (some a) (some v.m_nSize) = Res.ok (hr, m)
        ∧ (hr = S_OK ∨ (FAILED hr = true ∧ m = v.m_nSize))
        ∧ ((v.m_unaccess.m_ptr = 0
            ∧ safearraydata_t.access p sz h (v, w)
              = (p.HResult hr,
                  ({ m_unaccess := { m_ptr := h }, m_pBegin := some ⟨h, 0⟩, m_nSize := m },
                    (w.store h (some { a with cLocks := a.cLocks + 1 })).logged
                      (Call.access h))))
          ∨ (v.m_unaccess.m_ptr ≠ 0
            ∧ ∃ b, ((w.store h (some { a with cLocks := a.cLocks + 1 })).logged
                      (Call.access h)).deref v.m_unaccess.m_ptr = some b
              ∧ b.cLocks ≠ 0
              ∧ safearraydata_t.access p sz h (v, w)
                = (p.HResult hr,
                    ({ m_unaccess := { m_ptr := h }, m_pBegin := some ⟨h, 0⟩, m_nSize := m },
                      (((w.store h (some { a with cLocks := a.cLocks + 1 })).logged
                          (Call.access h)).store v.m_unaccess.m_ptr
                            (some { b with cLocks := b.cLocks - 1 })).logged
                        (Call.unaccess v.m_unaccess.m_ptr))))) := by
  have heq : safearraydata_t.access p sz h (v, w)
      = (safearraydata_t.access.body sz h >>= fun hr => Exec.finish (p.HResult hr)) (v, w) :=
    rfl
  by_cases hassert : (w.assertsOn && !decide (sz = oleaut.SafeArrayGetElemsize w h)) = true
  · left
    simp [safearraydata_t.access, safearraydata_t.access.body, inWorld, getWorld, bind,
      Exec.bind, wi_assert_fail _ w hassert]
  · right
    by_cases hh : h = 0
    · left
      subst hh
      simp [safearraydata_t.access, safearraydata_t.access.body, inWorld, getWorld, bind,
        Exec.bind, wi_assert_pass _ w hassert, details.SafeArrayAccessData, FAIL_FAST_ASSERT]
    · cases ha : w.deref h with
      | none =>
        left
        simp [safearraydata_t.access, safearraydata_t.access.body, inWorld, getWorld, bind,
          Exec.bind, wi_assert_pass _ w hassert, details.SafeArrayAccessData,
          FAIL_FAST_ASSERT, hh, oleaut.SafeArrayAccessData, ha, FAIL_FAST_IF_FAILED, FAILED,
          E_INVALIDARG]
      | some a =>
        have hd1 : ((w.store h (some { a with cLocks := a.cLocks + 1 })).logged
            (Call.access h)).deref h = some { a with cLocks := a.cLocks + 1 } := by simp [hh]
        by_cases g0 : v.m_unaccess.m_ptr = 0
        · right
          obtain ⟨hr, m, hcount, hcases⟩ := count_total_size a v.m_nSize
          have hcount1 : details.SafeArrayCountElements
              (some { a with cLocks := a.cLocks + 1 }) (some v.m_nSize) = Res.ok (hr, m) := by
            rw [count_congr { a with cLocks := a.cLocks + 1 } a _ rfl]
            exact hcount
          refine ⟨a, hr, m, rfl, hh, hcount, hcases, Or.inl ⟨g0, ?_⟩⟩
          rcases hcases with hs | ⟨hf, _⟩
          · subst hs
            simp [safearraydata_t.access, safearraydata_t.access.body, inWorld, getWorld,
              bind, Exec.bind, pure, wi_assert_pass _ w hassert, accessData_run w h a hh ha,
              getSelf, setSelf, onUnaccess, reset_eq, g0, Exec.finish, unique_any.get, hd1,
              hcount1, FAILED, S_OK]
          · simp [safearraydata_t.access, safearraydata_t.access.body, inWorld, getWorld,
              bind, Exec.bind, pure, wi_assert_pass _ w hassert, accessData_run w h a hh ha,
              getSelf, setSelf, onUnaccess, reset_eq, g0, Exec.finish, unique_any.get, hd1,
              hcount1, hf]
        · cases hb : ((w.store h (some { a with cLocks := a.cLocks + 1 })).logged
              (Call.access h)).deref v.m_unaccess.m_ptr with
          | none =>
            left
            simp [safearraydata_t.access, safearraydata_t.access.body, inWorld, getWorld,
              bind, Exec.bind, pure, wi_assert_pass _ w hassert, accessData_run w h a hh ha,
              getSelf, setSelf, onUnaccess, reset_eq, g0, details.SafeArrayUnaccessData,
              FAIL_FAST_ASSERT, oleaut.SafeArrayUnaccessData, hb, FAIL_FAST_IF_FAILED,
              FAILED, E_INVALIDARG]
          | some b =>
            by_cases hc : b.cLocks = 0
            · left
              simp [safearraydata_t.access, safearraydata_t.access.body, inWorld, getWorld,
                bind, Exec.bind, pure, wi_assert_pass _ w hassert,
                accessData_run w h a hh ha, getSelf, setSelf, onUnaccess, reset_eq, g0,
                details.SafeArrayUnaccessData, FAIL_FAST_ASSERT,
                oleaut.SafeArrayUnaccessData, hb, hc, FAIL_FAST_IF_FAILED, FAILED,
                E_UNEXPECTED]
            · right
              have hun := unaccessData_run _ v.m_unaccess.m_ptr b g0 hb hc
              obtain ⟨a2, hd2, hb2⟩ : ∃ a2,
                  ((((w.store h (some { a with cLocks := a.cLocks + 1 })).logged
                      (Call.access h)).store v.m_unaccess.m_ptr
                        (some { b with cLocks := b.cLocks - 1 })).logged
                    (Call.unaccess v.m_unaccess.m_ptr)).deref h = some a2
                  ∧ a2.rgsabound = a.rgsabound := by
                by_cases hgh : h = v.m_unaccess.m_ptr
                · refine ⟨{ b with cLocks := b.cLocks - 1 }, ?_, ?_⟩
                  · rw [deref_logged, hgh, deref_store_same _ _ _ g0]
                  · rw [← hgh, hd1] at hb
                    cases hb
                    rfl
                · refine ⟨{ a with cLocks := a.cLocks + 1 }, ?_, rfl⟩
                  rw [deref_logged, deref_store_other _ _ _ _ hgh, hd1]
              obtain ⟨hr, m, hcount, hcases⟩ := count_total_size a v.m_nSize
              have hcount2 : details.SafeArrayCountElements (some a2) (some v.m_nSize)
                  = Res.ok (hr, m) := by
                rw [count_congr a2 a _ hb2]
                exact hcount
              refine ⟨a, hr, m, rfl, hh, hcount, hcases, Or.inr ⟨g0, b, hb, hc, ?_⟩⟩
              rcases hcases with hs | ⟨hf, _⟩
              · subst hs
                simp [safearraydata_t.access, safearraydata_t.access.body, inWorld, getWorld,
                  bind, Exec.bind, pure, wi_assert_pass _ w hassert,
                  accessData_run w h a hh ha, getSelf, setSelf, onUnaccess, reset_eq, g0,
                  hun, Exec.finish, unique_any.get, hd2, hcount2, FAILED, S_OK]
              · simp [safearraydata_t.access, safearraydata_t.access.body, inWorld, getWorld,
                  bind, Exec.bind, pure, wi_assert_pass _ w hassert,
                  accessData_run w h a hh ha, getSelf, setSelf, onUnaccess, reset_eq, g0,
                  hun, Exec.finish, unique_any.get, hd2, hcount2, hf]

theorem hresult_failed_ne_success (p : err_policy) (hr : HRESULT) (hf : FAILED hr = true) :
    p.HResult hr ≠ Res.ok p.success := by
  intro h
  have := hresult_success_inv p hr h
  rw [hf] at this
  cases this

theorem access_size (p : err_policy) (sz : Nat) (h : Handle) (v : safearraydata_t)
    (w : World) :
    (safearraydata_t.access p sz h (v, w)).1 = Res.ok p.success
    ∨ (safearraydata_t.access p sz h (v, w)).2.1.m_nSize = v.m_nSize := by
  rcases access_cases p sz h v w with hA | ⟨_, hB, _⟩ | ⟨a, hr, m, _, _, _, hcases, hrun⟩
  · right; rw [hA]
  · right; exact hB
  · have hstate : safearraydata_t.access p sz h (v, w)
          = (p.HResult hr, (safearraydata_t.access p sz h (v, w)).2)
        ∧ (safearraydata_t.access p sz h (v, w)).2.1.m_nSize = m := by
      rcases hrun with ⟨_, hrun⟩ | ⟨_, b, _, _, hrun⟩
      · rw [hrun]; exact ⟨rfl, rfl⟩
      · rw [hrun]; exact ⟨rfl, rfl⟩
    rcases hcases with hs | ⟨_, hm⟩
    · left
      rw [hstate.1, hs]
      exact hresult_ok p
    · right
      rw [hstate.2, hm]

/-- C27, counterexample: a fresh view accesses the 2 x 3 array at handle 1 of
`twoArraysWorld` (size 6) and then the array at handle 2, whose dimensions are
65536 x 65536 x 0: the second call returns the overflow failure, and afterwards
the view still has size 6 and is not empty, while its begin pointer and its guard
are those of the array at handle 2, which has no element. -/
theorem failed_reaccess_keeps_stale_size :
    (safearraydata_t.access err_policy.returncode 4 1 ({}, twoArraysWorld)).1
        = Res.ok (result.status S_OK)
    ∧ (safearraydata_t.access err_policy.returncode 4 1 ({}, twoArraysWorld)).2.1.size = 6
    ∧ reaccessedView.1 = Res.ok (result.status 0x80070216)
    ∧ FAILED 0x80070216 = true
    ∧ reaccessedView.2.1.size = 6
    ∧ reaccessedView.2.1.empty = false
    ∧ reaccessedView.2.1.m_pBegin = some ⟨2, 0⟩
    ∧ reaccessedView.2.1.m_unaccess.get = 2
    ∧ (twoArraysWorld.deref 2).map SAFEARRAY.elemProduct = some 0
    ∧ (reaccessedView.2.1.index 0 reaccessedView.2.2).1 = Res.ok (some ⟨2, 0⟩)
    ∧ reaccessedView.2.2.read (some ⟨2, 0⟩) = none := by
  decide

/-- C27, as amended: an `access` call that returns failure (a failure status
returned, thrown or fatal, according to the policy) leaves `size()` at the value it
had before the call. For a view whose `size()` was 0 before, a fresh view in
particular, `size()` is 0 and `empty()` is true after the failed call, so the view
exposes no elements. -/
theorem failed_access_keeps_size (p : err_policy) (sz : Nat) (h : Handle)
    (v : safearraydata_t) (w : World) (hr : HRESULT) (hf : FAILED hr = true)
    (hrun : (safearraydata_t.access p sz h (v, w)).1 = p.HResult hr) :
    (safearraydata_t.access p sz h (v, w)).2.1.size = v.size
    ∧ (v.size = 0 →
        (safearraydata_t.access p sz h (v, w)).2.1.size = 0
        ∧ (safearraydata_t.access p sz h (v, w)).2.1.empty = true)
    ∧ (({} : safearraydata_t).size = 0) := by
  have hsize : (safearraydata_t.access p sz h (v, w)).2.1.size = v.size := by
    rcases access_size p sz h v w with hok | hsame
    · rw [hrun] at hok
      exact absurd hok (hresult_failed_ne_success p hr hf)
    · exact hsame
  refine ⟨hsize, ?_, rfl⟩
  intro h0
  rw [h0] at hsize
  refine ⟨hsize, ?_⟩
  have h2 : (safearraydata_t.access p sz h (v, w)).2.1.m_nSize = 0 := hsize
  simp [safearraydata_t.empty, h2]

/-- C27, witness: a fresh view of one-byte elements accesses the array of
`overflowWorld` (65536 x 65536) under the status-returning policy; the call
returns the overflow failure and the view has size 0 and is empty. -/
theorem failed_access_keeps_size_witness :
    FAILED 0x80070216 = true
    ∧ (safearraydata_t.access err_policy.returncode 1 1 ({}, overflowWorld)).1
        = err_policy.returncode.HResult 0x80070216
    ∧ (safearraydata_t.access err_policy.returncode 1 1 ({}, overflowWorld)).2.1.size = 0
    ∧ (safearraydata_t.access err_policy.returncode 1 1 ({}, overflowWorld)).2.1.empty
        = true :=
  ⟨by decide, by decide,
    ((failed_access_keeps_size err_policy.returncode 1 1 {} overflowWorld 0x80070216
      (by decide) (by decide)).2.1 rfl).1,
    ((failed_access_keeps_size err_policy.returncode 1 1 {} overflowWorld 0x80070216
      (by decide) (by decide)).2.1 rfl).2⟩

/-! ### Claim C29: the state invariant of a view -/

/-- C29, counterexample: the view `accessedView` holds the access lock on the 2 x 3
array of `lockedWorld` and satisfies the invariant; after it has been the source of
a move construction its guard is empty while its begin pointer is still the start
of that array and its size is still 6, so the invariant does not hold for it. The
same holds after it has been the source of a move assignment to a fresh view. -/
theorem moved_from_view_keeps_begin_and_size :
    ViewInv accessedView.1
    ∧ accessedView.1.m_unaccess.get = 1
    ∧ (safearraydata_t.moveConstruct accessedView.1).2.m_unaccess.get = 0
    ∧ (safearraydata_t.moveConstruct accessedView.1).2.m_pBegin = some ⟨1, 0⟩
    ∧ (safearraydata_t.moveConstruct accessedView.1).2.size = 6
    ∧ ¬ ViewInv (safearraydata_t.moveConstruct accessedView.1).2
    ∧ (safearraydata_t.moveAssign accessedView.1 ({}, accessedView.2)).1
        = Res.ok { accessedView.1 with m_unaccess := { m_ptr := 0 } }
    ∧ ¬ ViewInv { accessedView.1 with m_unaccess := { m_ptr := 0 } } := by
  decide

/-- C29, as amended: the state invariant of `safearraydata_t` (a view whose
unaccess guard is empty has a null begin pointer and `size()` 0) holds after
default construction and is preserved by `access`, whatever its outcome, and by
move construction and move assignment for the destination. The source of a move
is left with an empty guard and with the begin pointer and the size it had, so it
satisfies the invariant afterwards if it held no lock before. -/
theorem view_invariant_preserved :
    ViewInv {}
    ∧ (∀ (p : err_policy) (sz : Nat) (h : Handle) (v : safearraydata_t) (w : World),
        ViewInv v → ViewInv (safearraydata_t.access p sz h (v, w)).2.1)
    ∧ (∀ src : safearraydata_t, ViewInv src → ViewInv (safearraydata_t.moveConstruct src).1)
    ∧ (∀ (src dst : safearraydata_t) (w : World), ViewInv src → ViewInv dst →
        ViewInv (safearraydata_t.moveAssign src (dst, w)).2.1)
    ∧ (∀ src : safearraydata_t,
        (safearraydata_t.moveConstruct src).2
          = { src with m_unaccess := { m_ptr := 0 } }
        ∧ (src.m_unaccess.get = 0 → ViewInv src →
            ViewInv (safearraydata_t.moveConstruct src).2))
    ∧ (∀ (src dst src1 : safearraydata_t) (w : World),
        (safearraydata_t.moveAssign src (dst, w)).1 = Res.ok src1 →
          src1 = { src with m_unaccess := { m_ptr := 0 } }
          ∧ (src.m_unaccess.get = 0 → ViewInv src → ViewInv src1)) := by
  refine ⟨?_, ?_, ?_, ?_, ?_, ?_⟩
  · intro _
    exact ⟨rfl, rfl⟩
  · intro p sz h v w hv
    rcases access_cases p sz h v w with hA | ⟨_, _, hg, hsame⟩ | ⟨a, hr, m, _, hh, _, _, hrun⟩
    · rw [hA]; exact hv
    · by_cases g0 : v.m_unaccess.m_ptr = 0
      · rw [hsame g0]; exact hv
      · intro hempty
        rw [hg] at hempty
        exact absurd hempty g0
    · have hguard : (safearraydata_t.access p sz h (v, w)).2.1.m_unaccess = { m_ptr := h } := by
        rcases hrun with ⟨_, hrun⟩ | ⟨_, b, _, _, hrun⟩
        · rw [hrun]
        · rw [hrun]
      intro hempty
      rw [hguard] at hempty
      exact absurd hempty hh
  · intro src hsrc hempty
    exact hsrc hempty
  · intro src dst w hsrc hdst
    rw [show safearraydata_t.moveAssign src (dst, w)
        = (do
            let g0 ← onUnaccess
              (unique_any.moveAssign details.SafeArrayUnaccessData src.m_unaccess)
            let self ← getSelf
            setSelf { self with m_pBegin := src.m_pBegin, m_nSize := src.m_nSize }
            return { src with m_unaccess := g0 }) (dst, w) from rfl]
    have hreset := reset_eq details.SafeArrayUnaccessData dst.m_unaccess src.m_unaccess.m_ptr w
    by_cases g0 : dst.m_unaccess.m_ptr = 0
    · rw [if_pos g0] at hreset
      simp only [bind, Exec.bind, onUnaccess, unique_any.moveAssign, hreset, pure, getSelf,
        setSelf]
      exact hsrc
    · rw [if_neg g0] at hreset
      rcases hc : details.SafeArrayUnaccessData dst.m_unaccess.m_ptr w with ⟨r, w1⟩
      rw [hc] at hreset
      cases r with
      | ok u =>
        simp only [bind, Exec.bind, onUnaccess, unique_any.moveAssign, hreset, pure, getSelf,
          setSelf]
        exact hsrc
      | failFast =>
        simp only [bind, Exec.bind, onUnaccess, unique_any.moveAssign, hreset]
        intro hempty
        exact absurd hempty g0
      | assertFail =>
        simp only [bind, Exec.bind, onUnaccess, unique_any.moveAssign, hreset]
        intro hempty
        exact absurd hempty g0
      | thrown e =>
        simp only [bind, Exec.bind, onUnaccess, unique_any.moveAssign, hreset]
        intro hempty
        exact absurd hempty g0
  · intro src
    refine ⟨rfl, ?_⟩
    intro _ hsrc _
    exact hsrc (by assumption)
  · intro src dst src1 w hrun
    have hsrc1 : src1 = { src with m_unaccess := { m_ptr := 0 } } := by
      have hreset := reset_eq details.SafeArrayUnaccessData dst.m_unaccess
        src.m_unaccess.m_ptr w
      by_cases g0 : dst.m_unaccess.m_ptr = 0
      · rw [if_pos g0] at hreset
        simp only [safearraydata_t.moveAssign, bind, Exec.bind, onUnaccess,
          unique_any.moveAssign, hreset, pure, getSelf, setSelf, Res.ok.injEq] at hrun
        exact hrun.symm
      · rw [if_neg g0] at hreset
        rcases hc : details.SafeArrayUnaccessData dst.m_unaccess.m_ptr w with ⟨r, w1⟩
        rw [hc] at hreset
        cases r with
        | ok u =>
          simp only [safearraydata_t.moveAssign, bind, Exec.bind, onUnaccess,
            unique_any.moveAssign, hreset, pure, getSelf, setSelf, Res.ok.injEq] at hrun
          exact hrun.symm
        | failFast =>
          simp [safearraydata_t.moveAssign, bind, Exec.bind, onUnaccess,
            unique_any.moveAssign, hreset] at hrun
        | assertFail =>
          simp [safearraydata_t.moveAssign, bind, Exec.bind, onUnaccess,
            unique_any.moveAssign, hreset] at hrun
        | thrown e =>
          simp [safearraydata_t.moveAssign, bind, Exec.bind, onUnaccess,
            unique_any.moveAssign, hreset] at hrun
    refine ⟨hsrc1, ?_⟩
    intro h0 hsrc _
    rw [hsrc1]
    exact hsrc h0

/-! ### Claim C28: every access lock of a view is released exactly once -/

theorem holders_nil (h : Handle) : holders [] h = 0 := rfl

theorem holders_cons (v : safearraydata_t) (vs : List safearraydata_t) (h : Handle) :
    holders (v :: vs) h = holds v h + holders vs h := by
  simp [holders]

theorem holders_append (vs : List safearraydata_t) (v : safearraydata_t) (h : Handle) :
    holders (vs ++ [v]) h = holders vs h + holds v h := by
  simp [holders]

theorem holders_set (h : Handle) (x y : safearraydata_t) :
    ∀ (vs : List safearraydata_t) (i : Nat), vs[i]? = some y →
      holders (vs.set i x) h + holds y h = holders vs h + holds x h := by
  intro vs
  induction vs with
  | nil => intro i hi; simp at hi
  | cons v vs ih =>
    intro i hi
    cases i with
    | zero =>
      simp only [List.getElem?_cons_zero, Option.some.injEq] at hi
      subst hi
      simp only [List.set_cons_zero, holders_cons]
      omega
    | succ j =>
      simp only [List.getElem?_cons_succ] at hi
      have := ih j hi
      simp only [List.set_cons_succ, holders_cons]
      omega

theorem holders_eraseIdx (h : Handle) (y : safearraydata_t) :
    ∀ (vs : List safearraydata_t) (i : Nat), vs[i]? = some y →
      holders (vs.eraseIdx i) h + holds y h = holders vs h := by
  intro vs
  induction vs with
  | nil => intro i hi; simp at hi
  | cons v vs ih =>
    intro i hi
    cases i with
    | zero =>
      simp only [List.getElem?_cons_zero, Option.some.injEq] at hi
      subst hi
      simp only [List.eraseIdx_cons_zero, holders_cons]
      omega
    | succ j =>
      simp only [List.getElem?_cons_succ] at hi
      have := ih j hi
      simp only [List.eraseIdx_cons_succ, holders_cons]
      omega

theorem holds_empty (v : safearraydata_t) (h : Handle) (hv : v.m_unaccess.m_ptr = 0) :
    holds v h = 0 := by
  unfold holds
  rw [if_neg]
  rintro ⟨h1, h2⟩
  rw [hv] at h1
  exact h2 h1.symm

theorem holds_guard (v : safearraydata_t) (h : Handle) (hv : v.m_unaccess.m_ptr ≠ 0) :
    holds v h = if h = v.m_unaccess.m_ptr then 1 else 0 := by
  unfold holds
  by_cases hk : h = v.m_unaccess.m_ptr
  · rw [if_pos hk, if_pos ⟨hk.symm, by rw [hk]; exact hv⟩]
  · rw [if_neg hk, if_neg (fun hx => hk hx.1.symm)]

theorem balanced_congr (w0 : World) (H H1 : Handle → Nat) (w : World)
    (hH : ∀ h, H1 h = H h) (hb : Balanced w0 H w) : Balanced w0 H1 w := by
  have : H1 = H := funext hH
  rw [this]
  exact hb

theorem balanced_refl (w0 : World) : Balanced w0 (fun _ => 0) w0 := by
  refine ⟨?_, ?_, [], by simp, by simp⟩
  · intro h
    cases w0.deref h <;> rfl
  · intro h hpos
    exact absurd hpos (Nat.lt_irrefl 0)

theorem balanced_acquire (w0 : World) (H H1 : Handle → Nat) (w : World) (h : Handle)
    (a : SAFEARRAY) (hb : Balanced w0 H w) (ha : w.deref h = some a) (hh : h ≠ 0)
    (hH : ∀ k, H1 k = H k + (if k = h then 1 else 0)) :
    Balanced w0 H1
      ((w.store h (some { a with cLocks := a.cLocks + 1 })).logged (Call.access h)) := by
  obtain ⟨hderef, hlive, new, hcalls, hcount⟩ := hb
  refine ⟨?_, ?_, new ++ [Call.access h], ?_, ?_⟩
  · intro k
    by_cases hk : k = h
    · subst hk
      rw [deref_logged, deref_store_same _ _ _ hh]
      have h1 := hderef k
      rw [ha] at h1
      cases h0 : w0.deref k with
      | none => rw [h0] at h1; cases h1
      | some a0 =>
        rw [h0] at h1
        simp only [Option.map_some', Option.some.injEq] at h1
        subst h1
        simp [hH k, Nat.add_assoc]
    · rw [deref_logged, deref_store_other _ _ _ _ hk, hderef k]
      have : H1 k = H k := by rw [hH k, if_neg hk]; rfl
      rw [this]
  · intro k hpos
    by_cases hk : k = h
    · subst hk
      have h1 := hderef k
      rw [ha] at h1
      cases h0 : w0.deref k with
      | none => rw [h0] at h1; cases h1
      | some a0 => rfl
    · apply hlive
      have h2 := hH k
      rw [if_neg hk] at h2
      omega
  · simp [hcalls]
  · intro k
    have := hcount k
    by_cases hk : k = h
    · subst hk
      simp [List.count_append, hH k]
      omega
    · have hne : Call.access h ≠ Call.access k := fun hx => hk (by cases hx; rfl)
      simp [List.count_append, hH k, hk, hne]
      omega

theorem balanced_release (w0 : World) (H H1 : Handle → Nat) (w : World) (g : Handle)
    (b : SAFEARRAY) (hb : Balanced w0 H w) (hg : w.deref g = some b) (hc : b.cLocks ≠ 0)
    (hg0 : g ≠ 0) (hH : ∀ k, H1 k + (if k = g then 1 else 0) = H k) :
    Balanced w0 H1
      ((w.store g (some { b with cLocks := b.cLocks - 1 })).logged (Call.unaccess g)) := by
  obtain ⟨hderef, hlive, new, hcalls, hcount⟩ := hb
  refine ⟨?_, ?_, new ++ [Call.unaccess g], ?_, ?_⟩
  · intro k
    by_cases hk : k = g
    · subst hk
      rw [deref_logged, deref_store_same _ _ _ hg0]
      have h1 := hderef k
      rw [hg] at h1
      have h2 := hH k
      rw [if_pos rfl] at h2
      cases h0 : w0.deref k with
      | none => rw [h0] at h1; cases h1
      | some a0 =>
        rw [h0] at h1
        simp only [Option.map_some', Option.some.injEq] at h1
        subst h1
        simp only [Option.map_some', Option.some.injEq, SAFEARRAY.mk.injEq, true_and]
        dsimp only at hc
        refine ⟨?_, trivial⟩
        omega
    · rw [deref_logged, deref_store_other _ _ _ _ hk, hderef k]
      have : H1 k = H k := by
        have h2 := hH k
        rw [if_neg hk] at h2
        exact h2
      rw [this]
  · intro k hpos
    apply hlive
    have h2 := hH k
    omega
  · simp [hcalls]
  · intro k
    have := hcount k
    have h2 := hH k
    by_cases hk : k = g
    · subst hk
      rw [if_pos rfl] at h2
      simp [List.count_append]
      omega
    · rw [if_neg hk] at h2
      have hne : Call.unaccess g ≠ Call.unaccess k := fun hx => hk (by cases hx; rfl)
      simp [List.count_append, hk, hne]
      omega

theorem unaccess_fails (g : Handle) (w : World)
    (hbad : w.deref g = none ∨ ∃ b, w.deref g = some b ∧ b.cLocks = 0) :
    ∃ w1, details.SafeArrayUnaccessData g w = (Res.failFast, w1) := by
  by_cases hg : g = 0
  · exact ⟨w, by simp [details.SafeArrayUnaccessData, FAIL_FAST_ASSERT, bind, Exec.bind, hg]⟩
  · rcases hbad with hd | ⟨b, hd, hc⟩
    · refine ⟨w.logged (Call.unaccess g), ?_⟩
      simp [details.SafeArrayUnaccessData, FAIL_FAST_ASSERT, oleaut.SafeArrayUnaccessData,
        FAIL_FAST_IF_FAILED, bind, Exec.bind, hg, hd, FAILED, E_INVALIDARG]
    · refine ⟨w.logged (Call.unaccess g), ?_⟩
      simp [details.SafeArrayUnaccessData, FAIL_FAST_ASSERT, oleaut.SafeArrayUnaccessData,
        FAIL_FAST_IF_FAILED, bind, Exec.bind, hg, hd, hc, FAILED, E_UNEXPECTED]

theorem deref_cases (w : World) (g : Handle) :
    (∃ b, w.deref g = some b ∧ b.cLocks ≠ 0)
    ∨ (w.deref g = none ∨ ∃ b, w.deref g = some b ∧ b.cLocks = 0) := by
  cases hd : w.deref g with
  | none => exact Or.inr (Or.inl rfl)
  | some b =>
    by_cases hc : b.cLocks = 0
    · exact Or.inr (Or.inr ⟨b, rfl, hc⟩)
    · exact Or.inl ⟨b, rfl, hc⟩

/-- Every way the destructor of a view can end: a view with an empty guard is
destroyed without a platform call; a view holding a locked array releases one
lock; in any other case the process is terminated. -/
theorem destroy_cases (v : safearraydata_t) (w : World) :
    (v.m_unaccess.m_ptr = 0
      ∧ safearraydata_t.destroy (v, w)
        = (Res.ok (), ({ v with m_unaccess := { m_ptr := 0 } }, w)))
    ∨ (v.m_unaccess.m_ptr ≠ 0
      ∧ ∃ b, w.deref v.m_unaccess.m_ptr = some b ∧ b.cLocks ≠ 0
        ∧ safearraydata_t.destroy (v, w)
          = (Res.ok (),
              ({ v with m_unaccess := { m_ptr := 0 } },
                (w.store v.m_unaccess.m_ptr (some { b with cLocks := b.cLocks - 1 })).logged
                  (Call.unaccess v.m_unaccess.m_ptr))))
    ∨ (safearraydata_t.destroy (v, w)).1 = Res.failFast := by
  by_cases g0 : v.m_unaccess.m_ptr = 0
  · left
    refine ⟨g0, ?_⟩
    simp [safearraydata_t.destroy, onUnaccess, unique_any.destroy, reset_eq, g0]
  · right
    rcases deref_cases w v.m_unaccess.m_ptr with ⟨b, hd, hc⟩ | hbad
    · left
      exact ⟨g0, b, hd, hc, view_destroy_run v w b hd hc⟩
    · right
      obtain ⟨w1, hfail⟩ := unaccess_fails _ w hbad
      simp [safearraydata_t.destroy, onUnaccess, unique_any.destroy, reset_eq, g0, hfail]

/-- Every way a move assignment to the view `dst` from another view `src` can end:
a destination with an empty guard takes over the guard, the pointer and the size of
the source without a platform call; a destination holding a locked array releases
one lock first; in any other case the process is terminated. The source is left
with an empty guard. -/
theorem moveAssign_cases (src dst : safearraydata_t) (w : World) :
    (dst.m_unaccess.m_ptr = 0
      ∧ safearraydata_t.moveAssign src (dst, w)
        = (Res.ok { src with m_unaccess := { m_ptr := 0 } },
            ({ m_unaccess := { m_ptr := src.m_unaccess.m_ptr }, m_pBegin := src.m_pBegin,
               m_nSize := src.m_nSize }, w)))
    ∨ (dst.m_unaccess.m_ptr ≠ 0
      ∧ ∃ b, w.deref dst.m_unaccess.m_ptr = some b ∧ b.cLocks ≠ 0
        ∧ safearraydata_t.moveAssign src (dst, w)
          = (Res.ok { src with m_unaccess := { m_ptr := 0 } },
              ({ m_unaccess := { m_ptr := src.m_unaccess.m_ptr }, m_pBegin := src.m_pBegin,
                 m_nSize := src.m_nSize },
                (w.store dst.m_unaccess.m_ptr
                    (some { b with cLocks := b.cLocks - 1 })).logged
                  (Call.unaccess dst.m_unaccess.m_ptr))))
    ∨ (safearraydata_t.moveAssign src (dst, w)).1 = Res.failFast := by
  by_cases g0 : dst.m_unaccess.m_ptr = 0
  · left
    refine ⟨g0, ?_⟩
    simp [safearraydata_t.moveAssign, onUnaccess, unique_any.moveAssign, reset_eq, g0, bind,
      Exec.bind, pure, getSelf, setSelf]
  · right
    rcases deref_cases w dst.m_unaccess.m_ptr with ⟨b, hd, hc⟩ | hbad
    · left
      refine ⟨g0, b, hd, hc, ?_⟩
      simp [safearraydata_t.moveAssign, onUnaccess, unique_any.moveAssign, reset_eq, g0, bind,
        Exec.bind, pure, getSelf, setSelf, unaccessData_run w _ b g0 hd hc]
    · right
      obtain ⟨w1, hfail⟩ := unaccess_fails _ w hbad
      simp [safearraydata_t.moveAssign, onUnaccess, unique_any.moveAssign, reset_eq, g0, bind,
        Exec.bind, hfail]

theorem holds_congr (v v1 : safearraydata_t) (h : Handle)
    (hg : v1.m_unaccess.m_ptr = v.m_unaccess.m_ptr) : holds v1 h = holds v h := by
  unfold holds
  rw [hg]

theorem holds_eq (v : safearraydata_t) (g k : Handle) (hv : v.m_unaccess.m_ptr = g)
    (hg : g ≠ 0) : holds v k = if k = g then 1 else 0 := by
  rw [holds_guard v k (by rw [hv]; exact hg), hv]

/-- One operation of a program keeps the account of the access locks: if it does
not terminate the process, the locks still to release afterwards are those of the
views then alive. -/
theorem step_balanced (w0 : World) (op : ViewOp) (vs vs1 : List safearraydata_t)
    (w w1 : World) (hb : Balanced w0 (holders vs) w)
    (hstep : op.step (vs, w) = some (vs1, w1)) : Balanced w0 (holders vs1) w1 := by
  cases op with
  | construct =>
    simp only [ViewOp.step, Option.some.injEq, Prod.mk.injEq] at hstep
    obtain ⟨h1, h2⟩ := hstep
    subst h1
    subst h2
    apply balanced_congr w0 (holders vs) _ w _ hb
    intro k
    rw [holders_append, holds_empty _ _ rfl]
    rfl
  | access i p sz psa =>
    cases hv : vs[i]? with
    | none =>
      simp only [ViewOp.step, hv, Option.some.injEq, Prod.mk.injEq] at hstep
      obtain ⟨h1, h2⟩ := hstep
      subst h1
      subst h2
      exact hb
    | some v =>
      rcases access_cases p sz psa v w with hA | ⟨hB, _⟩ | ⟨a, hr, m, ha, hh, _, _, hrun⟩
      · simp [ViewOp.step, hv, hA, Res.terminated] at hstep
      · rcases hacc : safearraydata_t.access p sz psa (v, w) with ⟨r, v2, w2⟩
        rw [hacc] at hB
        simp only at hB
        subst hB
        simp [ViewOp.step, hv, hacc, Res.terminated] at hstep
      · rcases hrun with ⟨g0, hrun⟩ | ⟨g0, b, hb1, hc, hrun⟩
        · simp only [ViewOp.step, hv, hrun] at hstep
          by_cases hterm : (p.HResult hr).terminated = true
          · simp [hterm] at hstep
          · simp only [hterm, Bool.false_eq_true, if_false, Option.some.injEq,
              Prod.mk.injEq] at hstep
            obtain ⟨h1, h2⟩ := hstep
            subst h1
            subst h2
            apply balanced_acquire w0 (holders vs) _ w psa a hb ha hh
            intro k
            have hset := holders_set k
              { m_unaccess := { m_ptr := psa }, m_pBegin := some ⟨psa, 0⟩, m_nSize := m } v
              vs i hv
            rw [holds_empty v k g0, holds_eq _ psa k rfl hh] at hset
            omega
        · simp only [ViewOp.step, hv, hrun] at hstep
          by_cases hterm : (p.HResult hr).terminated = true
          · simp [hterm] at hstep
          · simp only [hterm, Bool.false_eq_true, if_false, Option.some.injEq,
              Prod.mk.injEq] at hstep
            obtain ⟨h1, h2⟩ := hstep
            subst h1
            subst h2
            have hmid := balanced_acquire w0 (holders vs)
              (fun k => holders vs k + (if k = psa then 1 else 0)) w psa a hb ha hh
              (fun _ => rfl)
            apply balanced_release w0 _ _ _ v.m_unaccess.m_ptr b hmid hb1 hc g0
            intro k
            have hset := holders_set k
              { m_unaccess := { m_ptr := psa }, m_pBegin := some ⟨psa, 0⟩, m_nSize := m } v
              vs i hv
            rw [holds_eq v _ k rfl g0, holds_eq _ psa k rfl hh] at hset
            exact hset
  | moveConstruct src =>
    cases hv : vs[src]? with
    | none =>
      simp only [ViewOp.step, hv, Option.some.injEq, Prod.mk.injEq] at hstep
      obtain ⟨h1, h2⟩ := hstep
      subst h1
      subst h2
      exact hb
    | some v =>
      simp only [ViewOp.step, hv, safearraydata_t.moveConstruct, unique_any.moveConstruct,
        Option.some.injEq, Prod.mk.injEq] at hstep
      obtain ⟨h1, h2⟩ := hstep
      subst h1
      subst h2
      apply balanced_congr w0 (holders vs) _ w _ hb
      intro k
      have hset := holders_set k { v with m_unaccess := { m_ptr := 0 } } v vs src hv
      rw [holds_empty { v with m_unaccess := { m_ptr := 0 } } k rfl] at hset
      rw [holders_append,
        holds_congr v
          { m_unaccess := { m_ptr := v.m_unaccess.m_ptr }, m_pBegin := v.m_pBegin,
            m_nSize := v.m_nSize } k rfl]
      omega
  | moveAssign dst src =>
    by_cases hds : dst = src
    · simp only [ViewOp.step, hds, if_true, Option.some.injEq, Prod.mk.injEq] at hstep
      obtain ⟨h1, h2⟩ := hstep
      subst h1
      subst h2
      exact hb
    · cases hd : vs[dst]? with
      | none =>
        simp only [ViewOp.step, hds, if_false, hd, Option.some.injEq, Prod.mk.injEq] at hstep
        obtain ⟨h1, h2⟩ := hstep
        subst h1
        subst h2
        exact hb
      | some d =>
        cases hv : vs[src]? with
        | none =>
          simp only [ViewOp.step, hds, if_false, hd, hv, Option.some.injEq,
            Prod.mk.injEq] at hstep
          obtain ⟨h1, h2⟩ := hstep
          subst h1
          subst h2
          exact hb
        | some v =>
          have hv2 : ∀ x, (vs.set dst x)[src]? = some v := by
            intro x
            rw [List.getElem?_set_ne hds]
            exact hv
          rcases moveAssign_cases v d w with ⟨g0, hrun⟩ | ⟨g0, b, hb1, hc, hrun⟩ | hfail
          · simp only [ViewOp.step, hds, if_false, hd, hv, hrun, Option.some.injEq,
              Prod.mk.injEq] at hstep
            obtain ⟨h1, h2⟩ := hstep
            subst h1
            subst h2
            apply balanced_congr w0 (holders vs) _ w _ hb
            intro k
            have hset1 := holders_set k
              { m_unaccess := { m_ptr := v.m_unaccess.m_ptr }, m_pBegin := v.m_pBegin,
                m_nSize := v.m_nSize } d vs dst hd
            have hset2 := holders_set k { v with m_unaccess := { m_ptr := 0 } } v _ src
              (hv2 { m_unaccess := { m_ptr := v.m_unaccess.m_ptr }, m_pBegin := v.m_pBegin,
                     m_nSize := v.m_nSize })
            rw [holds_empty { v with m_unaccess := { m_ptr := 0 } } k rfl] at hset2
            rw [holds_empty d k g0,
              holds_congr v
                { m_unaccess := { m_ptr := v.m_unaccess.m_ptr }, m_pBegin := v.m_pBegin,
                  m_nSize := v.m_nSize } k rfl] at hset1
            omega
          · simp only [ViewOp.step, hds, if_false, hd, hv, hrun, Option.some.injEq,
              Prod.mk.injEq] at hstep
            obtain ⟨h1, h2⟩ := hstep
            subst h1
            subst h2
            apply balanced_release w0 (holders vs) _ w d.m_unaccess.m_ptr b hb hb1 hc g0
            intro k
            have hset1 := holders_set k
              { m_unaccess := { m_ptr := v.m_unaccess.m_ptr }, m_pBegin := v.m_pBegin,
                m_nSize := v.m_nSize } d vs dst hd
            have hset2 := holders_set k { v with m_unaccess := { m_ptr := 0 } } v _ src
              (hv2 { m_unaccess := { m_ptr := v.m_unaccess.m_ptr }, m_pBegin := v.m_pBegin,
                     m_nSize := v.m_nSize })
            rw [holds_empty { v with m_unaccess := { m_ptr := 0 } } k rfl] at hset2
            rw [holds_eq d _ k rfl g0,
              holds_congr v
                { m_unaccess := { m_ptr := v.m_unaccess.m_ptr }, m_pBegin := v.m_pBegin,
                  m_nSize := v.m_nSize } k rfl] at hset1
            omega
          · rcases hma : safearraydata_t.moveAssign v (d, w) with ⟨r, d2, w2⟩
            rw [hma] at hfail
            simp only at hfail
            subst hfail
            simp [ViewOp.step, hds, hd, hv, hma] at hstep
  | destroy i =>
    cases hv : vs[i]? with
    | none =>
      simp only [ViewOp.step, hv, Option.some.injEq, Prod.mk.injEq] at hstep
      obtain ⟨h1, h2⟩ := hstep
      subst h1
      subst h2
      exact hb
    | some v =>
      rcases destroy_cases v w with ⟨g0, hrun⟩ | ⟨g0, b, hb1, hc, hrun⟩ | hfail
      · simp only [ViewOp.step, hv, hrun, Option.some.injEq, Prod.mk.injEq] at hstep
        obtain ⟨h1, h2⟩ := hstep
        subst h1
        subst h2
        apply balanced_congr w0 (holders vs) _ w _ hb
        intro k
        have hset := holders_eraseIdx k v vs i hv
        rw [holds_empty v k g0] at hset
        omega
      · simp only [ViewOp.step, hv, hrun, Option.some.injEq, Prod.mk.injEq] at hstep
        obtain ⟨h1, h2⟩ := hstep
        subst h1
        subst h2
        apply balanced_release w0 (holders vs) _ w v.m_unaccess.m_ptr b hb hb1 hc g0
        intro k
        have hset := holders_eraseIdx k v vs i hv
        rw [holds_eq v _ k rfl g0] at hset
        exact hset
      · rcases hde : safearraydata_t.destroy (v, w) with ⟨r, v2, w2⟩
        rw [hde] at hfail
        simp only at hfail
        subst hfail
        simp [ViewOp.step, hv, hde] at hstep

theorem run_balanced (w0 : World) :
    ∀ (ops : List ViewOp) (vs : List safearraydata_t) (w : World)
      (s : List safearraydata_t × World),
      Balanced w0 (holders vs) w → runViews ops (vs, w) = some s →
        Balanced w0 (holders s.1) s.2 := by
  intro ops
  induction ops with
  | nil =>
    intro vs w s hb hrun
    simp only [runViews, Option.some.injEq] at hrun
    subst hrun
    exact hb
  | cons op ops ih =>
    intro vs w s hb hrun
    cases hstep : op.step (vs, w) with
    | none => simp [runViews, hstep] at hrun
    | some s1 =>
      simp only [runViews, hstep] at hrun
      exact ih s1.1 s1.2 s (step_balanced w0 op vs s1.1 w s1.2 hb hstep) hrun

theorem destroyAll_balanced (w0 : World) :
    ∀ (vs : List safearraydata_t) (w : World), Balanced w0 (holders vs) w →
      ∃ w2, destroyAll vs w = some w2 ∧ Balanced w0 (fun _ => 0) w2 := by
  intro vs
  induction vs with
  | nil =>
    intro w hb
    exact ⟨w, rfl, balanced_congr w0 (holders []) _ w (fun _ => rfl) hb⟩
  | cons v vs ih =>
    intro w hb
    by_cases g0 : v.m_unaccess.m_ptr = 0
    · have hrun : safearraydata_t.destroy (v, w)
          = (Res.ok (), ({ v with m_unaccess := { m_ptr := 0 } }, w)) := by
        simp [safearraydata_t.destroy, onUnaccess, unique_any.destroy, reset_eq, g0]
      have hb2 : Balanced w0 (holders vs) w := by
        apply balanced_congr w0 (holders (v :: vs)) _ w _ hb
        intro k
        rw [holders_cons, holds_empty v k g0]
        omega
      obtain ⟨w2, hd, hfin⟩ := ih w hb2
      exact ⟨w2, by simp only [destroyAll, hrun, hd], hfin⟩
    · have hpos : 0 < holders (v :: vs) v.m_unaccess.m_ptr := by
        rw [holders_cons, holds_eq v _ _ rfl g0, if_pos rfl]
        omega
      have hlive := hb.2.1 _ hpos
      have hderef := hb.1 v.m_unaccess.m_ptr
      cases h0 : w0.deref v.m_unaccess.m_ptr with
      | none => rw [h0] at hlive; cases hlive
      | some a0 =>
        rw [h0] at hderef
        simp only [Option.map_some'] at hderef
        have hc : ({ a0 with cLocks := a0.cLocks + holders (v :: vs) v.m_unaccess.m_ptr }
            : SAFEARRAY).cLocks ≠ 0 := by
          dsimp only
          omega
        have hrun := view_destroy_run v w _ hderef hc
        have hb2 := balanced_release w0 (holders (v :: vs)) (holders vs) w
          v.m_unaccess.m_ptr _ hb hderef hc g0
          (by
            intro k
            rw [holders_cons, holds_eq v _ k rfl g0]
            omega)
        obtain ⟨w2, hd, hfin⟩ := ih _ hb2
        exact ⟨w2, by simp only [destroyAll, hrun, hd], hfin⟩

theorem balanced_zero (w0 w : World) (hb : Balanced w0 (fun _ => 0) w) :
    (∀ h, w.deref h = w0.deref h)
    ∧ (∀ h, w.lockCount h = w0.lockCount h)
    ∧ ∃ new, w.calls = w0.calls ++ new
        ∧ ∀ h, new.count (Call.access h) = new.count (Call.unaccess h) := by
  obtain ⟨hderef, _, new, hcalls, hcount⟩ := hb
  have hd : ∀ h, w.deref h = w0.deref h := by
    intro h
    rw [hderef h]
    cases w0.deref h <;> rfl
  refine ⟨hd, ?_, new, hcalls, ?_⟩
  · intro h
    simp only [World.lockCount, hd h]
  · intro h
    have := hcount h
    dsimp only at this
    omega

/-- C28: for every finite program of default constructions, `access` calls, move
constructions, move assignments and destructions of views that starts without
views and does not terminate the process, the locks still held at its end are
those of the views then alive, one per view with a non-empty guard; destroying
these views releases them all, after which every array is what it was at the start,
its lock count included, and the platform calls made since are, for every array,
as many access calls as unaccess calls. In particular: `access` on a view that
holds a lock releases that lock once, after it has taken the new one; the source
of a move construction is left with an empty guard, so its destructor makes no
platform call, and the destination has the guard the source had; a move
assignment releases once the lock the destination held and gives it the guard of
the source, which is left empty. -/
theorem view_locks_released_once :
    (∀ (ops : List ViewOp) (w0 : World) (s : List safearraydata_t × World),
        runViews ops ([], w0) = some s →
          Balanced w0 (holders s.1) s.2
          ∧ ∃ w2, destroyAll s.1 s.2 = some w2
              ∧ (∀ h, w2.deref h = w0.deref h)
              ∧ (∀ h, w2.lockCount h = w0.lockCount h)
              ∧ ∃ new, w2.calls = w0.calls ++ new
                  ∧ ∀ h, new.count (Call.access h) = new.count (Call.unaccess h))
    ∧ (∀ (p : err_policy) (sz : Nat) (h : Handle) (v : safearraydata_t) (w : World),
        v.m_unaccess.m_ptr ≠ 0 →
        (safearraydata_t.access p sz h (v, w)).1.terminated = false →
          ∃ a b, w.deref h = some a
            ∧ ((w.store h (some { a with cLocks := a.cLocks + 1 })).logged
                (Call.access h)).deref v.m_unaccess.m_ptr = some b
            ∧ b.cLocks ≠ 0
            ∧ (safearraydata_t.access p sz h (v, w)).2.2
                = (((w.store h (some { a with cLocks := a.cLocks + 1 })).logged
                      (Call.access h)).store v.m_unaccess.m_ptr
                        (some { b with cLocks := b.cLocks - 1 })).logged
                    (Call.unaccess v.m_unaccess.m_ptr)
            ∧ (safearraydata_t.access p sz h (v, w)).2.1.m_unaccess = { m_ptr := h })
    ∧ (∀ (v : safearraydata_t) (w : World),
        (safearraydata_t.moveConstruct v).1.m_unaccess = v.m_unaccess
        ∧ (safearraydata_t.moveConstruct v).2.m_unaccess.m_ptr = 0
        ∧ safearraydata_t.destroy ((safearraydata_t.moveConstruct v).2, w)
            = (Res.ok (), ((safearraydata_t.moveConstruct v).2, w)))
    ∧ (∀ (src dst src1 dst1 : safearraydata_t) (w w1 : World),
        safearraydata_t.moveAssign src (dst, w) = (Res.ok src1, (dst1, w1)) →
          dst1.m_unaccess = src.m_unaccess ∧ src1.m_unaccess.m_ptr = 0
          ∧ (dst.m_unaccess.m_ptr = 0 → w1 = w)
          ∧ (dst.m_unaccess.m_ptr ≠ 0 →
              ∃ b, w.deref dst.m_unaccess.m_ptr = some b ∧ b.cLocks ≠ 0
                ∧ w1 = (w.store dst.m_unaccess.m_ptr
                          (some { b with cLocks := b.cLocks - 1 })).logged
                        (Call.unaccess dst.m_unaccess.m_ptr))) := by
  refine ⟨?_, ?_, ?_, ?_⟩
  · intro ops w0 s hrun
    have hb0 : Balanced w0 (holders []) w0 :=
      balanced_congr w0 (fun _ => 0) _ w0 (fun _ => rfl) (balanced_refl w0)
    have hb := run_balanced w0 ops [] w0 s hb0 hrun
    obtain ⟨w2, hd, hfin⟩ := destroyAll_balanced w0 s.1 s.2 hb
    obtain ⟨h1, h2, h3⟩ := balanced_zero w0 w2 hfin
    exact ⟨hb, w2, hd, h1, h2, h3⟩
  · intro p sz h v w g0 hterm
    rcases access_cases p sz h v w with hA | ⟨hB, _⟩ | ⟨a, hr, m, ha, _, _, _, hrun⟩
    · rw [hA] at hterm
      cases hterm
    · rw [hB] at hterm
      cases hterm
    · rcases hrun with ⟨g1, _⟩ | ⟨_, b, hb1, hc, hrun⟩
      · exact absurd g1 g0
      · refine ⟨a, b, ha, hb1, hc, ?_, ?_⟩
        · rw [hrun]
        · rw [hrun]
  · intro v w
    refine ⟨rfl, rfl, ?_⟩
    simp [safearraydata_t.destroy, onUnaccess, unique_any.destroy, reset_eq,
      safearraydata_t.moveConstruct, unique_any.moveConstruct]
  · intro src dst src1 dst1 w w1 hrun
    rcases moveAssign_cases src dst w with ⟨g0, hma⟩ | ⟨g0, b, hb1, hc, hma⟩ | hfail
    · rw [hma] at hrun
      simp only [Prod.mk.injEq, Res.ok.injEq] at hrun
      obtain ⟨h1, h2, h3⟩ := hrun
      subst h1
      subst h2
      subst h3
      exact ⟨rfl, rfl, fun _ => rfl, fun hx => absurd g0 hx⟩
    · rw [hma] at hrun
      simp only [Prod.mk.injEq, Res.ok.injEq] at hrun
      obtain ⟨h1, h2, h3⟩ := hrun
      subst h1
      subst h2
      subst h3
      exact ⟨rfl, rfl, fun hx => absurd hx g0, fun _ => ⟨b, hb1, hc, rfl⟩⟩
    · rw [hrun] at hfail
      cases hfail

/-- C28, witness: `sampleProgram` runs on `twoArraysWorld` without terminating the
process; it takes locks on both arrays, one of them through an `access` that
throws, and moves them between three views. Once the views left are destroyed,
both arrays have the lock count 0 they started with. -/
theorem view_locks_released_once_witness :
    ∃ s, runViews sampleProgram ([], twoArraysWorld) = some s
      ∧ ∃ w2, destroyAll s.1 s.2 = some w2
        ∧ w2.lockCount 1 = some 0 ∧ w2.lockCount 2 = some 0 := by
  obtain ⟨s, hs⟩ := Option.isSome_iff_exists.1
    (by decide : (runViews sampleProgram ([], twoArraysWorld)).isSome = true)
  obtain ⟨_, w2, hd, _, hl, _⟩ := view_locks_released_once.1 sampleProgram twoArraysWorld s hs
  exact ⟨s, hs, w2, hd, by rw [hl 1]; decide, by rw [hl 2]; decide⟩

end wil
